import Mathlib

/-!
# dirhash-cpp: a shallow embedding and its verified properties

Conventions of the embedding.

* A C++ `char` is a Lean `Char` holding the code unit; `std::string` and
  `std::vector<char>` are both `List Char` (`Str`), so that the conversions
  `std::vector<char>(s.begin(), s.end())` of the source are the identity.
* `unsigned long` is a `Nat` reduced modulo `2^64` where the source adds.
* The global namespace `opt::` of `global.h` is the record `Opt`, passed
  explicitly.
* What the program takes from OpenSSL and from `std::filesystem` is a field of
  the record `Env`; nothing is assumed about these fields except where a
  theorem says so in a hypothesis.
* `assert`, `panic_file_type`, and C++ exceptions that nothing catches end the
  run: a function that can reach one returns `Except Fault`.
* `std::cout << ... << std::endl` appends one line to the output list.
-/

namespace DirHash

/-- A sequence of C++ `char`: `std::string` and `std::vector<char>`. -/
abbrev Str := List Char

/-- The enum `FileType` of util.h. -/
inductive FileType where
  | Dir
  | Reg
  | Device
  | Symlink
  | Unsupported
  | Invalid
  deriving DecidableEq, Repr

/-- The ways a run ends other than by returning. -/
inductive Fault where
  | assertion
  | out_of_range
  | io_error
  | runtime_error
  deriving DecidableEq, Repr

/-! ## hash.cc -/

namespace hash

/-- The constant `hash::MD5`. -/
def MD5 : Str := "md5".toList

/-- The constant `hash::SHA1`. -/
def SHA1 : Str := "sha1".toList

end hash

/-- The OpenSSL digest primitive, by algorithm name: `evp algo msg` is the
digest `EVP_DigestInit_ex` / `EVP_DigestUpdate` / `EVP_DigestFinal_ex` produce
for the whole message `msg`. -/
abbrev Evp := Str → Str → Str

/-- The function `get_hash` of hash.cc on the content of the stream: the loop
feeds the stream to the digest in chunks of `BUF_SIZE` and adds their sizes in
an `unsigned long`, so the result is the digest of the content and its
length. -/
def get_hash (evp : Evp) (is : Str) (hash_algo : Str) : Str × Nat :=
  (evp hash_algo is, is.length % 2 ^ 64)

/-- The function `get_byte_hash` of hash.cc. -/
def get_byte_hash (evp : Evp) (s : Str) (hash_algo : Str) : Str × Nat :=
  get_hash evp s hash_algo

/-- The function `get_string_hash` of hash.cc. -/
def get_string_hash (evp : Evp) (s : Str) (hash_algo : Str) : Str × Nat :=
  get_hash evp s hash_algo

/-- One hexadecimal digit, lowercase, as `std::hex` prints it. -/
def hex_digit (n : Nat) : Char :=
  if n < 10 then Char.ofNat (48 + n) else Char.ofNat (87 + n)

/-- The function `get_hex_sum` of hash.cc: each char is masked with `0xff` and
printed with `std::hex`, `std::setw(2)` and `std::setfill('0')`. -/
def get_hex_sum : Str → Str
  | [] => []
  | x :: sum =>
    hex_digit ((x.toNat % 256) / 16) :: hex_digit ((x.toNat % 256) % 16) :: get_hex_sum sum

/-- The call `std::sort(s.begin(), s.end())` on a vector of strings: the
ascending arrangement under `operator<` of `std::string`, which compares
lexicographically by code unit. -/
def std_sort (s : List Str) : List Str :=
  s.insertionSort (· ≤ ·)

/-! ## squash1.cc (Variant A) -/

namespace squash1

/-- The constant `SQUASH_LABEL` of squash1.cc. -/
def SQUASH_LABEL : Str := "squash".toList

/-- The constant `SQUASH_VERSION` of squash1.cc. -/
def SQUASH_VERSION : Nat := 1

/-- The class `Squash` of squash1.h. -/
structure Squash where
  _buffer : List Str
  deriving DecidableEq, Repr

/-- The constructor `Squash::Squash`. -/
def Squash.new : Squash := ⟨[]⟩

/-- The method `Squash::init_buffer`. -/
def Squash.init_buffer (_s : Squash) : Squash := ⟨[]⟩

/-- The method `Squash::update_buffer` of squash1.cc. -/
def Squash.update_buffer (evp : Evp) (s : Squash) (bx : Str) : Squash :=
  let b := (get_byte_hash evp bx hash.MD5).1
  ⟨s._buffer ++ [b]⟩

/-- The method `Squash::get_buffer` of squash1.cc; it returns the bytes and the
object, which it leaves as it was. -/
def Squash.get_buffer (s : Squash) : Str × Squash :=
  let v := s._buffer.map get_hex_sum
  ((std_sort v).flatten, s)

end squash1

/-! ## squash2.cc (Variant B) -/

namespace squash2

/-- The constant `SQUASH_LABEL` of squash2.cc. -/
def SQUASH_LABEL : Str := "squash".toList

/-- The constant `SQUASH_VERSION` of squash2.cc. -/
def SQUASH_VERSION : Nat := 2

/-- The class `Squash` of the second variant: one byte buffer. -/
structure Squash where
  _buffer : Str
  deriving DecidableEq, Repr

/-- The constructor `Squash::Squash`. -/
def Squash.new : Squash := ⟨[]⟩

/-- The method `Squash::update_buffer` of squash2.cc. -/
def Squash.update_buffer (evp : Evp) (s : Squash) (bx : Str) : Squash :=
  let buffer := s._buffer ++ bx
  let b := (get_byte_hash evp buffer hash.SHA1).1
  ⟨b⟩

/-- The method `Squash::get_buffer` of squash2.cc; it returns the bytes and the
object, which it leaves as it was. -/
def Squash.get_buffer (s : Squash) : Str × Squash :=
  (s._buffer, s)

end squash2

/-! ## Strings: the methods of `std::string` the program calls -/

/-- The method `std::string::starts_with`. -/
def starts_with (s pre : Str) : Bool :=
  pre.isPrefixOf s

/-- The method `std::string::ends_with`. -/
def ends_with (s suf : Str) : Bool :=
  suf.isSuffixOf s

/-- The method `std::string::substr(pos)`: it throws `std::out_of_range` when
`pos` is beyond the size. -/
def substr (s : Str) (pos : Nat) : Except Fault Str :=
  if pos > s.length then .error Fault.out_of_range else .ok (s.drop pos)

/-- The method `std::string::find(pat)`: the first position where `pat` occurs,
`none` for `npos`. -/
def find : Str → Str → Option Nat
  | [], pat => if pat.isPrefixOf [] then some 0 else none
  | c :: s, pat =>
    if pat.isPrefixOf (c :: s) then some 0 else (find s pat).map (· + 1)

/-! ## The environment -/

/-- The enum `std::filesystem::file_type`. -/
inductive file_type where
  | none
  | not_found
  | regular
  | directory
  | symlink
  | block
  | character
  | fifo
  | socket
  | unknown
  deriving DecidableEq, Repr

/-- What the program takes from outside: the digest primitive, the lexical and
the file-system operations of `std::filesystem::path`, the status queries
(`none` when the query raises `filesystem_error`), `read_symlink` and the
content of a file (`none` when the call raises). The exceptions that
`weakly_canonical` and `absolute` can raise are left out. -/
structure Env where
  evp : Evp
  lexically_normal : Str → Str
  weakly_canonical : Str → Str
  absolute : Str → Str
  symlink_status : Str → Option file_type
  status : Str → Option file_type
  read_symlink : Str → Option Str
  file_content : Str → Option Str

/-- The configuration `opt::` of global.h. -/
structure Opt where
  hash_algo : Str
  hash_verify : Str
  hash_only : Bool
  ignore_dot : Bool
  ignore_dot_dir : Bool
  ignore_dot_file : Bool
  ignore_symlink : Bool
  follow_symlink : Bool
  abs : Bool
  swap : Bool
  sort : Bool
  squash : Bool
  verbose : Bool
  debug : Bool
  deriving DecidableEq, Repr

/-! ## util.cc -/

/-- The method `std::filesystem::path::filename` for the POSIX path grammar:
what follows the last `/`. -/
def filename (p : Str) : Str :=
  (p.reverse.takeWhile (fun c => c != '/')).reverse

/-- The method `std::filesystem::path::is_absolute` for the POSIX path grammar:
the path has a root directory. -/
def is_absolute (p : Str) : Bool :=
  starts_with p ['/']

/-- The function `canonicalize_path_impl` of util.cc. -/
def canonicalize_path_impl (env : Env) (f : Str) (lexical : Bool) : Str :=
  if lexical then env.lexically_normal f else env.weakly_canonical f

/-- The loop of `trim_end`, with the number of rounds it may still take. -/
def trim_end_loop : Nat → Str → Str
  | 0, f => f
  | n + 1, f =>
    if f.length > 1 ∧ ends_with f ['/'] then trim_end_loop n (f.take (f.length - 1)) else f

/-- The function `trim_end` of util.cc; each round removes one char, so
`p.length` rounds are enough. -/
def trim_end (p : Str) : Str :=
  trim_end_loop p.length p

/-- The function `canonicalize_path` of util.cc. -/
def canonicalize_path (env : Env) (f : Str) (lexical : Bool) : Str :=
  trim_end (canonicalize_path_impl env f lexical)

/-- The function `get_abspath` of util.cc. -/
def get_abspath (env : Env) (f : Str) (lexical : Bool) : Str :=
  trim_end (env.absolute (canonicalize_path_impl env f lexical))

/-- The function `get_basename` of util.cc. -/
def get_basename (env : Env) (f : Str) (lexical : Bool) : Str :=
  trim_end (filename (canonicalize_path_impl env f lexical))

/-- The function `is_abspath` of util.cc. -/
def is_abspath (env : Env) (f : Str) : Bool :=
  is_absolute (canonicalize_path_impl env f true)

/-- The function `get_mode_type` of util.cc. -/
def get_mode_type : file_type → FileType
  | file_type.directory => FileType.Dir
  | file_type.regular => FileType.Reg
  | file_type.block => FileType.Device
  | file_type.character => FileType.Device
  | file_type.symlink => FileType.Symlink
  | _ => FileType.Unsupported

/-- The function `get_raw_file_type` of util.cc. -/
def get_raw_file_type (env : Env) (f : Str) : FileType :=
  match env.symlink_status f with
  | some t => get_mode_type t
  | none => FileType.Invalid

/-- The function `get_file_type` of util.cc. -/
def get_file_type (env : Env) (f : Str) : FileType :=
  match env.status f with
  | some t => get_mode_type t
  | none => FileType.Invalid

/-- The function `get_file_type_string` of util.cc. -/
def get_file_type_string : FileType → Str
  | FileType.Dir => "directory".toList
  | FileType.Reg => "regular file".toList
  | FileType.Device => "device".toList
  | FileType.Symlink => "symlink".toList
  | FileType.Unsupported => "unsupported file".toList
  | FileType.Invalid => "invalid file".toList

/-- The function `get_xsum_format_string` of util.cc. -/
def get_xsum_format_string (f h : Str) (swap : Bool) : Str :=
  if !swap then h ++ "  ".toList ++ f else f ++ "  ".toList ++ h

/-- The function `panic_file_type` of util.cc: it prints and then fails
`assert(false)`. -/
def panic_file_type {α : Type} (_f _how : Str) (_t : FileType) : Except Fault α :=
  .error Fault.assertion

/-- The function `get_file_hash` of hash.cc: the stream raises when the file
cannot be opened or read. -/
def get_file_hash (env : Env) (f : Str) (hash_algo : Str) : Except Fault (Str × Nat) :=
  match env.file_content f with
  | some c => .ok (get_hash env.evp c hash_algo)
  | none => .error Fault.io_error

/-! ## stat.h, stat.cc -/

/-- The class `Stat` of stat.h. -/
structure Stat where
  _stat_directory : List Str
  _stat_regular : List Str
  _stat_device : List Str
  _stat_symlink : List Str
  _stat_unsupported : List Str
  _stat_invalid : List Str
  _stat_ignored : List Str
  _written_directory : Nat
  _written_regular : Nat
  _written_device : Nat
  _written_symlink : Nat
  deriving DecidableEq, Repr

namespace Stat

/-- The constructor `Stat::Stat`. -/
def new : Stat := ⟨[], [], [], [], [], [], [], 0, 0, 0, 0⟩

/-- The method `append_stat_total`, which does nothing. -/
def append_stat_total (s : Stat) : Stat := s

/-- The method `append_stat_directory`. -/
def append_stat_directory (s : Stat) (f : Str) : Stat :=
  { s with _stat_directory := s._stat_directory ++ [f] }

/-- The method `append_stat_regular`. -/
def append_stat_regular (s : Stat) (f : Str) : Stat :=
  { s with _stat_regular := s._stat_regular ++ [f] }

/-- The method `append_stat_device`. -/
def append_stat_device (s : Stat) (f : Str) : Stat :=
  { s with _stat_device := s._stat_device ++ [f] }

/-- The method `append_stat_symlink`. -/
def append_stat_symlink (s : Stat) (f : Str) : Stat :=
  { s with _stat_symlink := s._stat_symlink ++ [f] }

/-- The method `append_stat_unsupported`. -/
def append_stat_unsupported (s : Stat) (f : Str) : Stat :=
  { s with _stat_unsupported := s._stat_unsupported ++ [f] }

/-- The method `append_stat_invalid`. -/
def append_stat_invalid (s : Stat) (f : Str) : Stat :=
  { s with _stat_invalid := s._stat_invalid ++ [f] }

/-- The method `append_stat_ignored`. -/
def append_stat_ignored (s : Stat) (f : Str) : Stat :=
  { s with _stat_ignored := s._stat_ignored ++ [f] }

/-- The method `append_written_total`, which does nothing. -/
def append_written_total (s : Stat) (_written : Nat) : Stat := s

/-- The method `append_written_directory`. -/
def append_written_directory (s : Stat) (written : Nat) : Stat :=
  { s with _written_directory := (s._written_directory + written) % 2 ^ 64 }

/-- The method `append_written_regular`. -/
def append_written_regular (s : Stat) (written : Nat) : Stat :=
  { s with _written_regular := (s._written_regular + written) % 2 ^ 64 }

/-- The method `append_written_device`. -/
def append_written_device (s : Stat) (written : Nat) : Stat :=
  { s with _written_device := (s._written_device + written) % 2 ^ 64 }

/-- The method `append_written_symlink`. -/
def append_written_symlink (s : Stat) (written : Nat) : Stat :=
  { s with _written_symlink := (s._written_symlink + written) % 2 ^ 64 }

end Stat

/-! ## squash.h: the variant chosen when the program is built -/

/-- The class `Squash` as dir.cc sees it: the state, the constructor, the two
methods and the constants `SQUASH_LABEL` and `SQUASH_VERSION` of one of the two
variants. -/
structure SquashImpl where
  Squash : Type
  new : Squash
  update_buffer : Evp → Squash → Str → Squash
  get_buffer : Squash → Str × Squash
  SQUASH_LABEL : Str
  SQUASH_VERSION : Nat

/-- Variant A, squash1.cc. -/
@[reducible] def squash1.impl : SquashImpl :=
  ⟨squash1.Squash, squash1.Squash.new, squash1.Squash.update_buffer,
    squash1.Squash.get_buffer, squash1.SQUASH_LABEL, squash1.SQUASH_VERSION⟩

/-- Variant B, squash2.cc. -/
@[reducible] def squash2.impl : SquashImpl :=
  ⟨squash2.Squash, squash2.Squash.new, squash2.Squash.update_buffer,
    squash2.Squash.get_buffer, squash2.SQUASH_LABEL, squash2.SQUASH_VERSION⟩

/-! ## dir.cc -/

/-- What the walk changes: the `Squash`, the `Stat` and the lines written to
standard output. -/
structure Run (S : SquashImpl) where
  squ : S.Squash
  sta : Stat
  out : List Str

/-- The objects `Squash squ; Stat sta;` of `print_input`, and the output so
far. -/
def Run.new (S : SquashImpl) (out : List Str) : Run S :=
  ⟨S.new, Stat.new, out⟩

/-- A failed `assert` ends the run. -/
def assert (c : Bool) : Except Fault Unit :=
  if c then .ok () else .error Fault.assertion

/-- The function `assert_file_path` of dir.cc. -/
def assert_file_path (env : Env) (f inp : Str) : Except Fault Unit := do
  assert (is_abspath env f)
  assert (!ends_with f ['/'])
  assert (!ends_with inp ['/'])

/-- The function `test_ignore_entry` of dir.cc. -/
def test_ignore_entry (env : Env) (o : Opt) (f : Str) (t : FileType) : Except Fault Bool := do
  assert (is_abspath env f)
  if t = FileType.Dir then
    return false
  let base_starts_with_dot := starts_with (get_basename env f true) ['.']
  let path_contains_slash_dot := (find f ['/', '.']).isSome
  if o.ignore_dot_dir && !base_starts_with_dot && path_contains_slash_dot then
    return true
  if o.ignore_dot_file then
    if base_starts_with_dot then
      return true
  return o.ignore_dot && (base_starts_with_dot || path_contains_slash_dot)

/-- The function `trim_input_prefix` of dir.cc. -/
def trim_input_prefix (f inp : Str) : Except Fault Str :=
  if starts_with f inp then do
    let x ← substr f (inp.length + 1)
    assert (!starts_with x ['/'])
    return x
  else
    return f

/-- The function `get_real_path` of dir.cc. -/
def get_real_path (env : Env) (o : Opt) (f inp : Str) : Except Fault Str :=
  if o.abs then do
    assert (is_abspath env f)
    return f
  else if f = inp then
    return ['.']
  else if inp = ['/'] then
    substr f 1
  else
    trim_input_prefix f inp

/-- The function `print_byte` of dir.cc. -/
def print_byte (S : SquashImpl) (env : Env) (o : Opt) (f inb inp : Str) (out : List Str) :
    Except Fault (List Str) := do
  assert_file_path env f inp
  let (b, _ignore) := get_byte_hash env.evp inb o.hash_algo
  assert (!b.isEmpty)
  let hex_sum := get_hex_sum b
  if !o.hash_verify.isEmpty && o.hash_verify != hex_sum then
    return out
  if o.hash_only then
    return out ++ [hex_sum]
  else
    let s := "[".toList ++ S.SQUASH_LABEL ++ "][v".toList ++ (Nat.repr S.SQUASH_VERSION).toList
      ++ "]".toList
    let realf ← get_real_path env o f inp
    if realf = ['.'] then
      return out ++ [hex_sum ++ s]
    else
      return out ++ [get_xsum_format_string realf hex_sum o.swap ++ s]

/-- The macro `f2t` of dir.cc; `read_symlink` raises when `f` is not a
symlink. -/
def f2t (env : Env) (f l : Str) : Except Fault Str :=
  if l.isEmpty then .ok f
  else
    match env.read_symlink f with
    | some t => .ok t
    | none => .error Fault.io_error

/-- The function `print_debug` of dir.cc. -/
def print_debug (env : Env) (o : Opt) (f : Str) (t : FileType) (out : List Str) :
    Except Fault (List Str) := do
  assert o.debug
  if o.abs then
    return out ++ ["### ".toList ++ get_abspath env f true ++ " ".toList ++ get_file_type_string t]
  else
    return out ++ ["### ".toList ++ f ++ " ".toList ++ get_file_type_string t]

/-- The lines `if (opt::debug) print_debug(f, t);` that open the handlers. -/
def debug_first (env : Env) (o : Opt) (f : Str) (t : FileType) (out : List Str) :
    Except Fault (List Str) :=
  if o.debug then print_debug env o f t out else .ok out

/-- The block of `handle_directory` and `print_file` that makes the
`link -> target` form when the entry was reached through a symlink `l`. -/
def link_target_format (env : Env) (o : Opt) (l inp realf : Str) : Except Fault Str :=
  if !l.isEmpty then do
    assert_file_path env l inp
    let ll ←
      if !o.abs then do
        let ll ← trim_input_prefix l inp
        assert (!starts_with ll ['/'])
        pure ll
      else
        pure l
    return ll ++ " -> ".toList ++ realf
  else
    return realf

/-- The function `handle_directory` of dir.cc. -/
def handle_directory (S : SquashImpl) (env : Env) (o : Opt) (f l inp : Str) (r : Run S) :
    Except Fault (Run S) := do
  assert_file_path env f inp
  if !l.isEmpty then
    assert_file_path env l inp
  if f = inp then
    return r
  if !o.squash then
    return r
  let out ← debug_first env o f FileType.Dir r.out
  let s ← trim_input_prefix (← f2t env f l) inp
  let (b, written) := get_string_hash env.evp s o.hash_algo
  assert (!b.isEmpty)
  let sta := r.sta.append_stat_total
  let sta := sta.append_written_total written
  let sta := sta.append_stat_directory f
  let sta := sta.append_written_directory written
  assert o.squash
  if o.hash_only then
    return ⟨S.update_buffer env.evp r.squ b, sta, out⟩
  else
    let realf ← get_real_path env o (← f2t env f l) inp
    let realf ← link_target_format env o l inp realf
    let v := realf ++ b
    return ⟨S.update_buffer env.evp r.squ v, sta, out⟩

/-- The end of `print_file` and of `print_symlink`, after the verification
test: squash or print the entry whose display path is `realf`. -/
def squash_or_print (S : SquashImpl) (env : Env) (o : Opt) (realf b hex_sum : Str)
    (squ : S.Squash) (sta : Stat) (out : List Str) : Run S :=
  if o.squash then
    let v := realf ++ b
    ⟨S.update_buffer env.evp squ v, sta, out⟩
  else
    ⟨squ, sta, out ++ [get_xsum_format_string realf hex_sum o.swap]⟩

/-- The function `print_file` of dir.cc. -/
def print_file (S : SquashImpl) (env : Env) (o : Opt) (f l : Str) (t : FileType) (inp : Str)
    (r : Run S) : Except Fault (Run S) := do
  assert_file_path env f inp
  if !l.isEmpty then
    assert_file_path env l inp
  let out ← debug_first env o f t r.out
  let (b, written) ← get_file_hash env f o.hash_algo
  assert (!b.isEmpty)
  let hex_sum := get_hex_sum b
  let sta := r.sta.append_stat_total
  let sta := sta.append_written_total written
  let sta ←
    match t with
    | FileType.Reg => pure ((sta.append_stat_regular f).append_written_regular written)
    | FileType.Device => pure ((sta.append_stat_device f).append_written_device written)
    | _ => panic_file_type f "invalid".toList t
  if !o.hash_verify.isEmpty && o.hash_verify != hex_sum then
    return ⟨r.squ, sta, out⟩
  if o.hash_only then
    if o.squash then
      return ⟨S.update_buffer env.evp r.squ b, sta, out⟩
    else
      return ⟨r.squ, sta, out ++ [hex_sum]⟩
  else
    let realf ← get_real_path env o (← f2t env f l) inp
    let realf ← link_target_format env o l inp realf
    return squash_or_print S env o realf b hex_sum r.squ sta out

/-- The function `print_symlink` of dir.cc. -/
def print_symlink (S : SquashImpl) (env : Env) (o : Opt) (f inp : Str) (r : Run S) :
    Except Fault (Run S) := do
  assert_file_path env f inp
  let out ← debug_first env o f FileType.Symlink r.out
  let (b, written) := get_string_hash env.evp (get_basename env f true) o.hash_algo
  assert (!b.isEmpty)
  let hex_sum := get_hex_sum b
  let sta := r.sta.append_stat_total
  let sta := sta.append_written_total written
  let sta := sta.append_stat_symlink f
  let sta := sta.append_written_symlink written
  if !o.hash_verify.isEmpty && o.hash_verify != hex_sum then
    return ⟨r.squ, sta, out⟩
  if o.hash_only then
    if o.squash then
      return ⟨S.update_buffer env.evp r.squ b, sta, out⟩
    else
      return ⟨r.squ, sta, out ++ [hex_sum]⟩
  else
    let realf ← get_real_path env o f inp
    return squash_or_print S env o realf b hex_sum r.squ sta out

/-- The function `print_unsupported` of dir.cc. -/
def print_unsupported (S : SquashImpl) (env : Env) (o : Opt) (f : Str) (r : Run S) :
    Except Fault (Run S) := do
  let out ← debug_first env o f FileType.Unsupported r.out
  return ⟨r.squ, r.sta.append_stat_unsupported f, out⟩

/-- The function `print_invalid` of dir.cc. -/
def print_invalid (S : SquashImpl) (env : Env) (o : Opt) (f : Str) (r : Run S) :
    Except Fault (Run S) := do
  let out ← debug_first env o f FileType.Invalid r.out
  return ⟨r.squ, r.sta.append_stat_invalid f, out⟩

/-- The `switch (t)` that ends `walk_directory_impl`. -/
def walk_dispatch (S : SquashImpl) (env : Env) (o : Opt) (x l : Str) (t : FileType) (inp : Str)
    (r : Run S) : Except Fault (Int × Run S) := do
  match t with
  | FileType.Dir => return (0, ← handle_directory S env o x l inp r)
  | FileType.Reg => return (0, ← print_file S env o x l t inp r)
  | FileType.Device => return (0, ← print_file S env o x l t inp r)
  | FileType.Unsupported => return (0, ← print_unsupported S env o x r)
  | FileType.Invalid => return (0, ← print_invalid S env o x r)
  | FileType.Symlink => panic_file_type x "symlink".toList t

/-- The function `walk_directory_impl` of dir.cc, with the `int` it returns. -/
def walk_directory_impl (S : SquashImpl) (env : Env) (o : Opt) (f inp : Str) (r : Run S) :
    Except Fault (Int × Run S) := do
  let t := get_raw_file_type env f
  if ← test_ignore_entry env o f t then
    return (0, { r with sta := r.sta.append_stat_ignored f })
  if t = FileType.Symlink then
    if o.ignore_symlink then
      return (0, { r with sta := r.sta.append_stat_ignored f })
    if !o.follow_symlink then
      return (0, ← print_symlink S env o f inp r)
    let x := canonicalize_path env f true
    if x.isEmpty then
      return (0, ← print_invalid S env o f r)
    assert (is_abspath env x)
    let t := get_file_type env x
    assert (t != FileType.Symlink)
    walk_dispatch S env o x f t inp r
  else
    walk_dispatch S env o f [] t inp r

/-- The loops of `walk_directory` over the entries: each calls
`walk_directory_impl` and stops at a negative return value. -/
def walk_entries (S : SquashImpl) (env : Env) (o : Opt) (inp : Str) :
    List Str → Run S → Except Fault (Int × Run S)
  | [], r => .ok (0, r)
  | x :: l, r => do
    let (ret, r) ← walk_directory_impl S env o x inp r
    if ret < 0 then
      return (ret, r)
    walk_entries S env o inp l r

/-- The function `walk_directory` of dir.cc; `es` is the sequence of paths
that `std::filesystem::recursive_directory_iterator(f)` yields. -/
def walk_directory (S : SquashImpl) (env : Env) (o : Opt) (es : List Str) (inp : Str)
    (r : Run S) : Except Fault (Int × Run S) :=
  if o.sort then
    walk_entries S env o inp (std_sort es) r
  else
    walk_entries S env o inp es r

/-! ## util.cc, continued -/

/-- The method `std::filesystem::path::parent_path` for the POSIX path grammar:
a path without relative part (empty, or a root) is returned as it is; otherwise
the final filename goes, and so do the separators before it unless they are the
root directory. -/
def parent_path (p : Str) : Str :=
  if p.all (fun c => c == '/') then p
  else
    let d := p.take (p.length - (filename p).length)
    let t := (d.reverse.dropWhile (fun c => c == '/')).reverse
    if t.isEmpty && !d.isEmpty then ['/'] else t

/-- The function `get_dirpath` of util.cc. -/
def get_dirpath (env : Env) (f : Str) (lexical : Bool) : Str :=
  trim_end (parent_path (canonicalize_path_impl env f lexical))

/-- The function `path_exists` of util.cc. -/
def path_exists (env : Env) (f : Str) : Bool :=
  match env.symlink_status f with
  | some file_type.none => false
  | some file_type.not_found => false
  | some _ => true
  | none => false

/-- The function `tolower` of the C library in the "C" locale, on the `int`
value of a char. -/
def tolower (c : Nat) : Nat :=
  if 65 ≤ c ∧ c ≤ 90 then c + 32 else c

/-- The function `isdigit` of the C library. -/
def isdigit (c : Nat) : Bool :=
  48 ≤ c && c ≤ 57

/-- The function `is_valid_hexsum` of util.cc. -/
def is_valid_hexsum (input : Str) : Str × Bool :=
  let orig := input
  let s := if starts_with input ['0', 'x'] then input.drop 2 else input
  if s.length < 32 then (orig, false)
  else if s.any (fun r =>
      let x := tolower r.toNat
      !isdigit x && !(x ≥ 97 && x ≤ 102)) then (orig, false)
  else (s, true)

/-- The function `get_num_format_string` of util.cc. -/
def get_num_format_string (n : Nat) (msg : Str) : Except Fault Str := do
  if msg.isEmpty then
    return "???".toList
  let s := (Nat.repr n).toList ++ " ".toList ++ msg
  if n > 1 then
    if msg = get_file_type_string FileType.Dir then
      let s := s.take (s.length - 1) ++ "ies".toList
      assert (ends_with s "directories".toList)
      return s
    else
      return s ++ "s".toList
  return s

/-- The function `print_num_format_string` of util.cc. -/
def print_num_format_string (n : Nat) (msg : Str) (out : List Str) : Except Fault (List Str) := do
  return out ++ [← get_num_format_string n msg]

/-! ## stat.h, stat.cc, continued -/

namespace Stat

/-- The method `init_stat`. -/
def init_stat (_s : Stat) : Stat := ⟨[], [], [], [], [], [], [], 0, 0, 0, 0⟩

/-- The method `num_stat_directory`. -/
def num_stat_directory (s : Stat) : Nat := s._stat_directory.length % 2 ^ 64

/-- The method `num_stat_regular`. -/
def num_stat_regular (s : Stat) : Nat := s._stat_regular.length % 2 ^ 64

/-- The method `num_stat_device`. -/
def num_stat_device (s : Stat) : Nat := s._stat_device.length % 2 ^ 64

/-- The method `num_stat_symlink`. -/
def num_stat_symlink (s : Stat) : Nat := s._stat_symlink.length % 2 ^ 64

/-- The method `num_stat_unsupported`. -/
def num_stat_unsupported (s : Stat) : Nat := s._stat_unsupported.length % 2 ^ 64

/-- The method `num_stat_invalid`. -/
def num_stat_invalid (s : Stat) : Nat := s._stat_invalid.length % 2 ^ 64

/-- The method `num_stat_ignored`. -/
def num_stat_ignored (s : Stat) : Nat := s._stat_ignored.length % 2 ^ 64

/-- The method `num_stat_total`. -/
def num_stat_total (s : Stat) : Nat :=
  (s.num_stat_directory + s.num_stat_regular + s.num_stat_device + s.num_stat_symlink) % 2 ^ 64

/-- The method `num_written_directory`. -/
def num_written_directory (s : Stat) : Nat := s._written_directory

/-- The method `num_written_regular`. -/
def num_written_regular (s : Stat) : Nat := s._written_regular

/-- The method `num_written_device`. -/
def num_written_device (s : Stat) : Nat := s._written_device

/-- The method `num_written_symlink`. -/
def num_written_symlink (s : Stat) : Nat := s._written_symlink

/-- The method `num_written_total`. -/
def num_written_total (s : Stat) : Nat :=
  (s.num_written_directory + s.num_written_regular + s.num_written_device +
    s.num_written_symlink) % 2 ^ 64

/-- The body of the loop of `Stat::print_stat`, for the entry `v`. -/
def print_stat_entry (env : Env) (o : Opt) (inp v : Str) (out : List Str) :
    Except Fault (List Str) := do
  let f ← get_real_path env o v inp
  let t1 := get_raw_file_type env v
  let t2 := get_file_type env v
  assert (t2 != FileType.Symlink)
  if t1 = FileType.Symlink then
    assert (o.ignore_symlink || t2 == FileType.Dir || t2 == FileType.Invalid)
    return out ++ [f ++ " (".toList ++ get_file_type_string t1 ++ " -> ".toList ++
      get_file_type_string t2 ++ ")".toList]
  else
    assert (t2 != FileType.Dir)
    return out ++ [f ++ " (".toList ++ get_file_type_string t1 ++ ")".toList]

/-- The loop of `Stat::print_stat` over the list. -/
def print_stat_loop (env : Env) (o : Opt) (inp : Str) : List Str → List Str →
    Except Fault (List Str)
  | [], out => .ok out
  | v :: l, out => do
    let out ← print_stat_entry env o inp v out
    print_stat_loop env o inp l out

/-- The method `Stat::print_stat` of stat.cc. -/
def print_stat (env : Env) (o : Opt) (l : List Str) (msg inp : Str) (out : List Str) :
    Except Fault (List Str) := do
  if l.isEmpty then
    return out
  let out ← print_num_format_string (l.length % 2 ^ 64) msg out
  print_stat_loop env o inp l out

/-- The method `print_stat_unsupported`. -/
def print_stat_unsupported (s : Stat) (env : Env) (o : Opt) (inp : Str) (out : List Str) :
    Except Fault (List Str) :=
  print_stat env o s._stat_unsupported (get_file_type_string FileType.Unsupported) inp out

/-- The method `print_stat_invalid`. -/
def print_stat_invalid (s : Stat) (env : Env) (o : Opt) (inp : Str) (out : List Str) :
    Except Fault (List Str) :=
  print_stat env o s._stat_invalid (get_file_type_string FileType.Invalid) inp out

/-- The method `print_stat_ignored`. -/
def print_stat_ignored (s : Stat) (env : Env) (o : Opt) (inp : Str) (out : List Str) :
    Except Fault (List Str) :=
  print_stat env o s._stat_ignored "ignored file".toList inp out

end Stat

/-! ## dir.cc, continued -/

/-- The value of `EINVAL` in `<cerrno>`. -/
def EINVAL : Int := 22

/-- The lines `if (n > 0) { std::cout << indent; print_num_format_string(n, msg); }`
of `print_verbose_stat`, with `indent` one blank. -/
def print_indented (n : Nat) (msg : Str) (out : List Str) : Except Fault (List Str) := do
  if n > 0 then
    return out ++ [" ".toList ++ (← get_num_format_string n msg)]
  return out

/-- The function `print_verbose_stat` of dir.cc. -/
def print_verbose_stat (env : Env) (o : Opt) (inp : Str) (sta : Stat) (out : List Str) :
    Except Fault (List Str) := do
  let out ← print_num_format_string sta.num_stat_total "file".toList out
  let a0 := sta.num_stat_directory
  let a1 := sta.num_stat_regular
  let a2 := sta.num_stat_device
  let a3 := sta.num_stat_symlink
  assert ((a0 + a1 + a2 + a3) % 2 ^ 64 == sta.num_stat_total)
  let out ← print_indented a0 (get_file_type_string FileType.Dir) out
  let out ← print_indented a1 (get_file_type_string FileType.Reg) out
  let out ← print_indented a2 (get_file_type_string FileType.Device) out
  let out ← print_indented a3 (get_file_type_string FileType.Symlink) out
  let out ← print_num_format_string sta.num_written_total "byte".toList out
  let b0 := sta.num_written_directory
  let b1 := sta.num_written_regular
  let b2 := sta.num_written_device
  let b3 := sta.num_written_symlink
  assert ((b0 + b1 + b2 + b3) % 2 ^ 64 == sta.num_written_total)
  let out ← print_indented b0 (get_file_type_string FileType.Dir ++ " byte".toList) out
  let out ← print_indented b1 (get_file_type_string FileType.Reg ++ " byte".toList) out
  let out ← print_indented b2 (get_file_type_string FileType.Device ++ " byte".toList) out
  let out ← print_indented b3 (get_file_type_string FileType.Symlink ++ " byte".toList) out
  sta.print_stat_ignored env o inp out

/-- The end of `print_input`, after the walk: the statistics and the squash
digest. -/
def print_input_tail (S : SquashImpl) (env : Env) (o : Opt) (f inp : Str) (r : Run S) :
    Except Fault (Int × List Str) := do
  let mut out := r.out
  if o.verbose then
    out ← print_verbose_stat env o inp r.sta out
  out ← r.sta.print_stat_unsupported env o inp out
  out ← r.sta.print_stat_invalid env o inp out
  if o.squash then
    let (b, _squ) := S.get_buffer r.squ
    if o.verbose then
      out ← print_num_format_string (b.length % 2 ^ 64) "squashed byte".toList out
    out ← print_byte S env o f b inp out
  return (0, out)

/-- The function `print_input` of dir.cc, with the `int` it returns and the
output; `iter f` is the sequence of paths that
`std::filesystem::recursive_directory_iterator(f)` yields. -/
def print_input (S : SquashImpl) (env : Env) (o : Opt) (iter : Str → List Str) (fx : Str)
    (out : List Str) : Except Fault (Int × List Str) := do
  let mut f := fx
  if get_raw_file_type env fx ≠ FileType.Symlink then
    f := canonicalize_path env fx true
    if f.isEmpty then
      return (0, out)
    if !path_exists env f then
      throw Fault.runtime_error
  f := get_abspath env f true
  assert_file_path env f []
  let mut inp := []
  let mut can_walk := true
  match get_raw_file_type env f with
  | FileType.Dir => inp := f
  | FileType.Reg | FileType.Device | FileType.Symlink =>
    inp := get_dirpath env f true
    can_walk := false
  | _ => return (-EINVAL, out)
  assert (get_file_type env inp == FileType.Dir)
  let r := Run.new S out
  let (ret, r) ←
    if can_walk then walk_directory S env o (iter f) inp r
    else walk_directory_impl S env o f inp r
  if ret < 0 then
    return (ret, r.out)
  print_input_tail S env o f inp r

/-! ## main.cc -/

/-- The step of `main` (main.cc) on the verification string: `none` is the
`exit(1)` after the message `Invalid verify string`, and otherwise the options
are returned, with the string that `is_valid_hexsum` gives stored in
`hash_verify` when the option was set. -/
def main_hash_verify (o : Opt) : Option Opt :=
  if !o.hash_verify.isEmpty then
    let (s, valid) := is_valid_hexsum o.hash_verify
    if !valid then none
    else some { o with hash_verify := s }
  else some o

/-! ## Definitions used to state the properties -/

/-- A stand-in digest for concrete instances: for `md5` the message padded with
`'0'` and cut to 16 chars, for every other name the message reversed, padded
with `'0'` and cut to 20 chars. -/
def toy_evp : Evp := fun algo msg =>
  if algo = hash.MD5 then (msg ++ List.replicate 16 '0').take 16
  else (msg.reverse ++ List.replicate 20 '0').take 20

/-- The rolling hash as the specification words it: `s_0` is empty and
`s_(i+1) = H(s_i ++ b_(i+1))`, where `b i` is the update number `i + 1`. -/
def rolling_spec (H : Str → Str) (b : Nat → Str) : Nat → Str
  | 0 => []
  | i + 1 => H (rolling_spec H b i ++ b i)

/-- The absolute path with the segments `segs`: `/` for no segment, and
otherwise every segment preceded by one `/`. -/
def abs_path (segs : List Str) : Str :=
  if segs.isEmpty then ['/'] else (segs.map (fun s => '/' :: s)).flatten

/-- A path segment: not empty and without `/`. -/
def is_segment (s : Str) : Prop :=
  s ≠ [] ∧ '/' ∉ s

/-- The condition B of the ignore policy: the last segment starts with `.`. -/
def base_dotted (segs : List Str) : Bool :=
  match segs.getLast? with
  | some s => starts_with s ['.']
  | none => false

/-- The condition A of the ignore policy: a segment other than the last starts
with `.`. -/
def ancestor_dotted (segs : List Str) : Bool :=
  segs.dropLast.any (fun s => starts_with s ['.'])

/-- An environment for concrete instances: `toy_evp` as the digest, paths that
are already normal and absolute, every path a regular file with its own name as
content, and no symlink. -/
def toy_env : Env where
  evp := toy_evp
  lexically_normal := id
  weakly_canonical := id
  absolute := id
  symlink_status := fun _ => some file_type.regular
  status := fun _ => some file_type.regular
  read_symlink := fun _ => none
  file_content := fun f => some f

/-- An environment with one symlink, `/foo/link`, whose target `/foobar/x` is a
regular file outside `/foo`; every file holds `data`. -/
def link_env : Env where
  evp := toy_evp
  lexically_normal := id
  weakly_canonical := id
  absolute := id
  symlink_status := fun f =>
    if f = "/foo/link".toList then some file_type.symlink else some file_type.regular
  status := fun _ => some file_type.regular
  read_symlink := fun f => if f = "/foo/link".toList then some "/foobar/x".toList else none
  file_content := fun _ => some "data".toList

/-- The options with every flag off, `sha256` as the algorithm name and no
verification string. -/
def toy_opt : Opt where
  hash_algo := "sha256".toList
  hash_verify := []
  hash_only := false
  ignore_dot := false
  ignore_dot_dir := false
  ignore_dot_file := false
  ignore_symlink := false
  follow_symlink := false
  abs := false
  swap := false
  sort := false
  squash := false
  verbose := false
  debug := false

/-- The lines the debug print that opens a handler writes: none unless `debug`
is set, and then the one line of `print_debug`. -/
def debug_lines (env : Env) (o : Opt) (f : Str) (t : FileType) : List Str :=
  if o.debug then
    ["### ".toList ++ (if o.abs then get_abspath env f true else f) ++ " ".toList ++
      get_file_type_string t]
  else []

/-- The suffix `[squash][vN]` that `print_byte` builds from the constants of the
variant. -/
def squash_tag (S : SquashImpl) : Str :=
  "[".toList ++ S.SQUASH_LABEL ++ "][v".toList ++ (Nat.repr S.SQUASH_VERSION).toList ++ "]".toList

/-- A hexadecimal digit in either case. -/
def is_hex_char (c : Char) : Bool :=
  "0123456789abcdefABCDEF".toList.contains c

/-- The seven category lists of a `Stat`, numbered in the order of stat.h. -/
def stat_list (s : Stat) : Fin 7 → List Str
  | 0 => s._stat_directory
  | 1 => s._stat_regular
  | 2 => s._stat_device
  | 3 => s._stat_symlink
  | 4 => s._stat_unsupported
  | 5 => s._stat_invalid
  | 6 => s._stat_ignored

/-- The path `p` was appended to exactly one category list of `s`, which gave
`s'`; the other six lists are as they were. -/
def appended_one (s s' : Stat) (p : Str) : Prop :=
  ∃ k : Fin 7, ∀ j : Fin 7, stat_list s' j = if j = k then stat_list s j ++ [p] else stat_list s j

/-- An environment with the directory `/r` that holds the directory `/r/d`, the
symlink `/r/broken` to the missing `/nonexistent`, the fifo `/r/fifo`, the entry
`/r/bad` whose status query raises, and regular files under every other name,
each with its own name as content. -/
def tree_env : Env where
  evp := toy_evp
  lexically_normal := id
  weakly_canonical := id
  absolute := id
  symlink_status := fun f =>
    if f = "/r".toList ∨ f = "/r/d".toList then some file_type.directory
    else if f = "/r/broken".toList then some file_type.symlink
    else if f = "/r/fifo".toList then some file_type.fifo
    else if f = "/r/bad".toList then none
    else some file_type.regular
  status := fun f =>
    if f = "/r".toList ∨ f = "/r/d".toList then some file_type.directory
    else if f = "/r/broken".toList then some file_type.not_found
    else if f = "/r/fifo".toList then some file_type.fifo
    else if f = "/r/bad".toList then none
    else some file_type.regular
  read_symlink := fun f => if f = "/r/broken".toList then some "/nonexistent".toList else none
  file_content := fun f => some f

/-- The `Stat` after `print_file` has counted the file `f` of type `t` with
`n` bytes read. -/
def file_stat (sta : Stat) (f : Str) (t : FileType) (n : Nat) : Stat :=
  if t = FileType.Reg then
    { sta with _stat_regular := sta._stat_regular ++ [f],
               _written_regular := (sta._written_regular + n) % 2 ^ 64 }
  else
    { sta with _stat_device := sta._stat_device ++ [f],
               _written_device := (sta._written_device + n) % 2 ^ 64 }

/-- The `Stat` after `print_symlink` has counted the symlink `f` whose basename
has `n` chars. -/
def symlink_stat (sta : Stat) (f : Str) (n : Nat) : Stat :=
  { sta with _stat_symlink := sta._stat_symlink ++ [f],
             _written_symlink := (sta._written_symlink + n) % 2 ^ 64 }

/-- What one step does to the `Squash`: nothing, or one `update_buffer`. -/
def apply_update (S : SquashImpl) (evp : Evp) (squ : S.Squash) : Option Str → S.Squash
  | none => squ
  | some v => S.update_buffer evp squ v

/-- A lowercase hexadecimal digit. -/
def is_lower_hex_char (c : Char) : Bool :=
  "0123456789abcdef".toList.contains c

/-- Every char of the vector is a byte: its value is below 256. -/
def is_bytes (d : Str) : Prop :=
  ∀ c ∈ d, c.toNat < 256

/-- A call of one of the `append_*` methods of `Stat`: the categories of
`append_stat_*` are numbered as in `stat_list`, and the counters of
`append_written_*` in the order directory, regular, device, symlink. -/
inductive StatCall where
  | stat_total
  | stat (k : Fin 7) (f : Str)
  | written_total (written : Nat)
  | written (k : Fin 4) (written : Nat)

/-- The `Stat` after the call `c`. -/
def Stat.call (s : Stat) : StatCall → Stat
  | .stat_total => s.append_stat_total
  | .stat 0 f => s.append_stat_directory f
  | .stat 1 f => s.append_stat_regular f
  | .stat 2 f => s.append_stat_device f
  | .stat 3 f => s.append_stat_symlink f
  | .stat 4 f => s.append_stat_unsupported f
  | .stat 5 f => s.append_stat_invalid f
  | .stat 6 f => s.append_stat_ignored f
  | .written_total n => s.append_written_total n
  | .written 0 n => s.append_written_directory n
  | .written 1 n => s.append_written_regular n
  | .written 2 n => s.append_written_device n
  | .written 3 n => s.append_written_symlink n

/-- The `Stat` after the calls `cs`, made in this order. -/
def Stat.calls (s : Stat) (cs : List StatCall) : Stat :=
  cs.foldl Stat.call s

/-- The paths that the calls `cs` append to the category `k`, in call order. -/
def appended_paths (cs : List StatCall) (k : Fin 7) : List Str :=
  cs.filterMap fun c =>
    match c with
    | .stat j f => if j = k then some f else none
    | _ => none

/-- The amounts that the calls `cs` add to the counter `k`, in call order. -/
def appended_amounts (cs : List StatCall) (k : Fin 4) : List Nat :=
  cs.filterMap fun c =>
    match c with
    | .written j n => if j = k then some n else none
    | _ => none

/-- The seven methods `num_stat_<category>`, numbered as in `stat_list`. -/
def num_stat (s : Stat) : Fin 7 → Nat
  | 0 => s.num_stat_directory
  | 1 => s.num_stat_regular
  | 2 => s.num_stat_device
  | 3 => s.num_stat_symlink
  | 4 => s.num_stat_unsupported
  | 5 => s.num_stat_invalid
  | 6 => s.num_stat_ignored

/-- The four methods `num_written_<category>`, in the order directory, regular,
device, symlink. -/
def num_written (s : Stat) : Fin 4 → Nat
  | 0 => s.num_written_directory
  | 1 => s.num_written_regular
  | 2 => s.num_written_device
  | 3 => s.num_written_symlink

/-- A segment of `segs` starts with `.`. -/
def any_dotted (segs : List Str) : Bool :=
  segs.any (fun s => starts_with s ['.'])

/-- An uppercase hexadecimal letter, `A` to `F`. -/
def is_upper_hex_char (c : Char) : Bool :=
  "ABCDEF".toList.contains c

/-- An environment with the root directory `/` and a regular file under every
other name, each with its own name as content; paths are already normal and
absolute. -/
def root_env : Env where
  evp := toy_evp
  lexically_normal := id
  weakly_canonical := id
  absolute := id
  symlink_status := fun f =>
    if f = ['/'] then some file_type.directory else some file_type.regular
  status := fun f =>
    if f = ['/'] then some file_type.directory else some file_type.regular
  read_symlink := fun _ => none
  file_content := fun f => some f

/-- The ignore policy answers true for the entry `f`. -/
def policy_ignored (env : Env) (o : Opt) (f : Str) : Bool :=
  match test_ignore_entry env o f (get_raw_file_type env f) with
  | .ok b => b
  | .error _ => false

/-- The entry `f` is a symlink that `walk_directory_impl` follows: the ignore
policy admits it, `ignore_symlink` is off, `follow_symlink` is on and
`canonicalize_path` gives a path that is not empty. -/
def followed (env : Env) (o : Opt) (f : Str) : Bool :=
  !policy_ignored env o f && decide (get_raw_file_type env f = FileType.Symlink) &&
    !o.ignore_symlink && o.follow_symlink && !(canonicalize_path env f true).isEmpty

/-- The path under which `walk_directory_impl` handles the entry `f`: the path
`canonicalize_path` gives for a followed symlink, and `f` otherwise. -/
def entry_path (env : Env) (o : Opt) (f : Str) : Str :=
  if followed env o f then canonicalize_path env f true else f

/-- The type under which `walk_directory_impl` handles the entry `f`: the type
of the target for a followed symlink, and the raw type of `f` otherwise. -/
def entry_type (env : Env) (o : Opt) (f : Str) : FileType :=
  if followed env o f then get_file_type env (canonicalize_path env f true)
  else get_raw_file_type env f

/-- The entry `f` is handled as a directory, and `squash` is off or the
directory is the input prefix `inp`. -/
def unrecorded (env : Env) (o : Opt) (f inp : Str) : Bool :=
  decide (entry_type env o f = FileType.Dir) &&
    (decide (entry_path env o f = inp) || !o.squash)

/-- The environment `tree_env`, except that the dangling symlink `/r/broken`
cannot be opened as a file. -/
def dangling_env : Env :=
  { tree_env with file_content := fun f => if f = "/r/broken".toList then none else some f }

/-! ## Properties of the two squash variants -/

theorem squash1_feed_buffer (evp : Evp) (bs : List Str) (s : squash1.Squash) :
    (bs.foldl (squash1.Squash.update_buffer evp) s)._buffer =
      s._buffer ++ bs.map (fun b => evp hash.MD5 b) := by
  induction bs generalizing s with
  | nil => simp
  | cons b bs ih =>
    simp [ih, squash1.Squash.update_buffer, get_byte_hash, get_hash]

theorem std_sort_perm (l : List Str) : (std_sort l).Perm l :=
  List.perm_insertionSort _ l

theorem std_sort_sorted (l : List Str) : (std_sort l).Sorted (· ≤ ·) :=
  List.sorted_insertionSort _ l

theorem std_sort_eq_of_perm {l l' : List Str} (h : l.Perm l') : std_sort l = std_sort l' :=
  List.eq_of_perm_of_sorted
    (((std_sort_perm l).trans h).trans (std_sort_perm l').symm)
    (std_sort_sorted l) (std_sort_sorted l')

theorem squash1_get_buffer_perm {s s' : squash1.Squash} (h : s._buffer.Perm s'._buffer) :
    s.get_buffer.1 = s'.get_buffer.1 := by
  simp only [squash1.Squash.get_buffer]
  rw [std_sort_eq_of_perm (h.map get_hex_sum)]

theorem get_hex_sum_length (d : Str) : (get_hex_sum d).length = 2 * d.length := by
  induction d with
  | nil => rfl
  | cons x d ih => simp [get_hex_sum, ih]; omega

theorem flatten_length_const {n : Nat} (l : List Str) (h : ∀ x ∈ l, x.length = n) :
    l.flatten.length = n * l.length := by
  induction l with
  | nil => simp
  | cons x l ih =>
    simp only [List.flatten_cons, List.length_append, List.length_cons]
    rw [ih (fun y hy => h y (List.mem_cons_of_mem _ hy)), h x (List.mem_cons_self _ _)]
    ring

/-- C1. Variant A is order-independent: feeding a sequence of byte vectors to a
fresh `Squash` and feeding any permutation of it to another fresh `Squash`
give the same `get_buffer` result. -/
theorem squash1_order_independent (evp : Evp) (bs bs' : List Str) (h : bs.Perm bs') :
    (squash1.Squash.get_buffer
        (bs.foldl (squash1.Squash.update_buffer evp) squash1.Squash.new)).1 =
      (squash1.Squash.get_buffer
        (bs'.foldl (squash1.Squash.update_buffer evp) squash1.Squash.new)).1 := by
  apply squash1_get_buffer_perm
  rw [squash1_feed_buffer, squash1_feed_buffer]
  exact (h.map _).append_left _

theorem squash1_order_independent_witness :
    ["ab".toList, "c".toList, []].Perm [[], "ab".toList, "c".toList] ∧
    (squash1.Squash.get_buffer
        (["ab".toList, "c".toList, []].foldl (squash1.Squash.update_buffer toy_evp)
          squash1.Squash.new)).1 =
      (squash1.Squash.get_buffer
        ([[], "ab".toList, "c".toList].foldl (squash1.Squash.update_buffer toy_evp)
          squash1.Squash.new)).1 :=
  ⟨by decide, squash1_order_independent toy_evp _ _ (by decide)⟩

/-- C2. Variant A, the result of `get_buffer`: after updates with `b1..bn` on a
fresh `Squash` it is the concatenation, without separator and in ascending
lexicographic order, of the hex encodings of `MD5(b1)..MD5(bn)` (a sorted
permutation of them, duplicates kept), whatever `Opt` holds since no method
reads it; with a 16-byte MD5 it has `32 * n` chars, so it is empty for a fresh
`Squash` and not empty after any update. -/
theorem squash1_get_buffer_spec (evp : Evp) (bs : List Str)
    (h16 : ∀ m, (evp hash.MD5 m).length = 16) :
    (∃ l : List Str, l.Perm (bs.map (fun b => get_hex_sum (evp hash.MD5 b))) ∧
      l.Sorted (· ≤ ·) ∧
      (squash1.Squash.get_buffer
        (bs.foldl (squash1.Squash.update_buffer evp) squash1.Squash.new)).1 = l.flatten) ∧
    (squash1.Squash.get_buffer
        (bs.foldl (squash1.Squash.update_buffer evp) squash1.Squash.new)).1.length
      = 32 * bs.length ∧
    (squash1.Squash.get_buffer squash1.Squash.new).1 = [] ∧
    (bs ≠ [] → (squash1.Squash.get_buffer
        (bs.foldl (squash1.Squash.update_buffer evp) squash1.Squash.new)).1 ≠ []) := by
  have hbuf : (bs.foldl (squash1.Squash.update_buffer evp) squash1.Squash.new)._buffer =
      bs.map (fun b => evp hash.MD5 b) := by
    rw [squash1_feed_buffer]; rfl
  have hlen : (squash1.Squash.get_buffer
        (bs.foldl (squash1.Squash.update_buffer evp) squash1.Squash.new)).1.length
      = 32 * bs.length := by
    simp only [squash1.Squash.get_buffer, hbuf]
    rw [flatten_length_const (n := 32)]
    · rw [(std_sort_perm _).length_eq]; simp
    · intro x hx
      have hx' := (std_sort_perm _).subset hx
      simp only [List.map_map, List.mem_map, Function.comp] at hx'
      obtain ⟨b, -, rfl⟩ := hx'
      rw [get_hex_sum_length, h16]
  refine ⟨⟨std_sort (bs.map (fun b => get_hex_sum (evp hash.MD5 b))), std_sort_perm _,
    std_sort_sorted _, ?_⟩, hlen, rfl, ?_⟩
  · simp only [squash1.Squash.get_buffer, hbuf, List.map_map]; rfl
  · intro hne heq
    rw [heq] at hlen
    cases bs with
    | nil => exact hne rfl
    | cons b bs => simp at hlen

theorem toy_evp_md5_length (m : Str) : (toy_evp hash.MD5 m).length = 16 := by
  simp [toy_evp]

theorem squash1_get_buffer_spec_witness :
    (∀ m, (toy_evp hash.MD5 m).length = 16) ∧
    (squash1.Squash.get_buffer
        ([[], []].foldl (squash1.Squash.update_buffer toy_evp) squash1.Squash.new)).1.length
      = 32 * 2 :=
  ⟨toy_evp_md5_length, (squash1_get_buffer_spec toy_evp [[], []] toy_evp_md5_length).2.1⟩

theorem squash2_feed_snoc (evp : Evp) (bs : List Str) (b : Str) (s : squash2.Squash) :
    ((bs ++ [b]).foldl (squash2.Squash.update_buffer evp) s)._buffer =
      evp hash.SHA1 ((bs.foldl (squash2.Squash.update_buffer evp) s)._buffer ++ b) := by
  simp [List.foldl_append, squash2.Squash.update_buffer, get_byte_hash, get_hash]

theorem squash2_feed_take (evp : Evp) (bs : List Str) (n : Nat) (hn : n ≤ bs.length) :
    ((bs.take n).foldl (squash2.Squash.update_buffer evp) squash2.Squash.new)._buffer =
      rolling_spec (evp hash.SHA1) (fun i => bs.getD i []) n := by
  induction n with
  | zero => rfl
  | succ n ih =>
    have hlt : n < bs.length := hn
    rw [List.take_succ, List.getElem?_eq_getElem hlt]
    simp only [Option.toList_some]
    rw [squash2_feed_snoc, ih (Nat.le_of_lt hlt)]
    simp [rolling_spec, List.getD_eq_getElem?_getD, List.getElem?_eq_getElem hlt]

/-- C3. Variant B is a rolling hash: a fresh `Squash` has an empty buffer;
after updates with `b1..bn` the buffer is `s_n`, where `s_0` is empty and
`s_i = SHA1(s_(i-1) ++ b_i)`; `get_buffer` returns the buffer and leaves the
object as it was; so, SHA-1 digests being non-empty, the result is empty before
any update and not empty after any update, an update with an empty byte vector
included. -/
theorem squash2_rolling_hash (evp : Evp) (bs : List Str)
    (hne : ∀ m, evp hash.SHA1 m ≠ []) :
    squash2.Squash.new._buffer = [] ∧
    (bs.foldl (squash2.Squash.update_buffer evp) squash2.Squash.new)._buffer =
      rolling_spec (evp hash.SHA1) (fun i => bs.getD i []) bs.length ∧
    (∀ s : squash2.Squash, squash2.Squash.get_buffer s = (s._buffer, s)) ∧
    (squash2.Squash.get_buffer squash2.Squash.new).1 = [] ∧
    (bs ≠ [] → (squash2.Squash.get_buffer
      (bs.foldl (squash2.Squash.update_buffer evp) squash2.Squash.new)).1 ≠ []) := by
  refine ⟨rfl, ?_, fun _ => rfl, rfl, ?_⟩
  · have h := squash2_feed_take evp bs bs.length (Nat.le_refl _)
    rwa [List.take_length] at h
  · intro hbs
    obtain ⟨l, b, rfl⟩ : ∃ l b, bs = l ++ [b] :=
      ⟨bs.dropLast, bs.getLast hbs, (List.dropLast_append_getLast hbs).symm⟩
    simp only [squash2.Squash.get_buffer]
    rw [squash2_feed_snoc]
    exact hne _

theorem toy_evp_sha1_ne_nil (m : Str) : toy_evp hash.SHA1 m ≠ [] := by
  intro h
  have hl := congrArg List.length h
  simp [toy_evp, hash.SHA1, hash.MD5] at hl

theorem squash2_rolling_hash_witness :
    (∀ m, toy_evp hash.SHA1 m ≠ []) ∧
    (squash2.Squash.get_buffer
      ([[]].foldl (squash2.Squash.update_buffer toy_evp) squash2.Squash.new)).1 ≠ [] :=
  ⟨toy_evp_sha1_ne_nil,
    (squash2_rolling_hash toy_evp [[]] toy_evp_sha1_ne_nil).2.2.2.2 (by decide)⟩

/-- C4. Variant B is order-dependent: for two distinct byte vectors `a` and `b`
whose digests have the same length, and when the digest does not collide on the
two second-round inputs `SHA1(a) ++ b` and `SHA1(b) ++ a` (both hold for a
collision-free digest of fixed length), the updates `(a, b)` and `(b, a)` on
fresh objects give different `get_buffer` results; a sequence of zero or one
update has no other order, and the result is the same. -/
theorem squash2_order_dependent (evp : Evp) (a b : Str) (hab : a ≠ b)
    (hlen : (evp hash.SHA1 a).length = (evp hash.SHA1 b).length)
    (hcf : evp hash.SHA1 (evp hash.SHA1 a ++ b) = evp hash.SHA1 (evp hash.SHA1 b ++ a) →
      evp hash.SHA1 a ++ b = evp hash.SHA1 b ++ a) :
    (squash2.Squash.get_buffer
        ([a, b].foldl (squash2.Squash.update_buffer evp) squash2.Squash.new)).1 ≠
      (squash2.Squash.get_buffer
        ([b, a].foldl (squash2.Squash.update_buffer evp) squash2.Squash.new)).1 ∧
    ∀ bs bs' : List Str, bs.length ≤ 1 → bs.Perm bs' →
      bs' = bs ∧
      (squash2.Squash.get_buffer
          (bs.foldl (squash2.Squash.update_buffer evp) squash2.Squash.new)).1 =
        (squash2.Squash.get_buffer
          (bs'.foldl (squash2.Squash.update_buffer evp) squash2.Squash.new)).1 := by
  constructor
  · intro h
    simp only [squash2.Squash.get_buffer, List.foldl, squash2.Squash.update_buffer,
      squash2.Squash.new, get_byte_hash, get_hash, List.nil_append] at h
    exact hab (List.append_inj_right (hcf h) hlen).symm
  · intro bs bs' hl hp
    have hbs : bs' = bs := by
      match bs, hl, hp with
      | [], _, hp => exact hp.symm.eq_nil
      | [x], _, hp => exact (List.perm_singleton.mp hp.symm)
    exact ⟨hbs, by rw [hbs]⟩

theorem squash2_order_dependent_witness :
    "a".toList ≠ "b".toList ∧
    (toy_evp hash.SHA1 "a".toList).length = (toy_evp hash.SHA1 "b".toList).length ∧
    (squash2.Squash.get_buffer
        (["a".toList, "b".toList].foldl (squash2.Squash.update_buffer toy_evp)
          squash2.Squash.new)).1 ≠
      (squash2.Squash.get_buffer
        (["b".toList, "a".toList].foldl (squash2.Squash.update_buffer toy_evp)
          squash2.Squash.new)).1 :=
  ⟨by decide, by decide,
    (squash2_order_dependent toy_evp "a".toList "b".toList (by decide) (by decide)
      (by decide)).1⟩

/-! ## Properties of the path policy -/

theorem takeWhile_append_stop {α : Type} (p : α → Bool) (l r : List α) (x : α)
    (hl : ∀ a ∈ l, p a = true) (hx : p x = false) :
    (l ++ x :: r).takeWhile p = l := by
  induction l with
  | nil => simp [List.takeWhile, hx]
  | cons a l ih =>
    simp only [List.cons_append, List.takeWhile_cons, hl a (List.mem_cons_self _ _), if_true]
    rw [ih (fun b hb => hl b (List.mem_cons_of_mem _ hb))]

theorem filename_append_slash (pre s : Str) (hs : '/' ∉ s) :
    filename (pre ++ '/' :: s) = s := by
  unfold filename
  have h : (pre ++ '/' :: s).reverse = s.reverse ++ '/' :: pre.reverse := by simp
  rw [h, takeWhile_append_stop _ _ _ _ _ (by simp), List.reverse_reverse]
  intro a ha
  have : a ≠ '/' := fun e => hs (e ▸ List.mem_reverse.mp ha)
  simpa using this

theorem ends_with_slash_mem (s : Str) (h : ends_with s ['/'] = true) : '/' ∈ s := by
  unfold ends_with at h
  obtain ⟨t, rfl⟩ := List.isSuffixOf_iff_suffix.mp h
  simp

theorem trim_end_loop_of_not_mem (n : Nat) (s : Str) (hs : '/' ∉ s) : trim_end_loop n s = s := by
  cases n with
  | zero => rfl
  | succ n =>
    have h : ends_with s ['/'] = false := by
      cases he : ends_with s ['/'] with
      | false => rfl
      | true => exact absurd (ends_with_slash_mem s he) hs
    simp [trim_end_loop, h]

theorem trim_end_of_not_mem (s : Str) (hs : '/' ∉ s) : trim_end s = s :=
  trim_end_loop_of_not_mem _ s hs

theorem abs_path_snoc (segs : List Str) (s : Str) :
    abs_path (segs ++ [s]) = (segs.map (fun s => '/' :: s)).flatten ++ '/' :: s := by
  simp [abs_path]

theorem abs_path_starts_with_slash (segs : List Str) : starts_with (abs_path segs) ['/'] = true := by
  cases segs with
  | nil => rfl
  | cons s segs => simp [abs_path, starts_with]

theorem snoc_of_ne_nil {α : Type} (l : List α) (h : l ≠ []) :
    ∃ l' a, l = l' ++ [a] :=
  ⟨l.dropLast, l.getLast h, (List.dropLast_append_getLast h).symm⟩

/-- The basename of a normalized absolute path is its last segment, and is
empty for the root. -/
theorem get_basename_abs_path (env : Env) (segs : List Str) (hseg : ∀ s ∈ segs, is_segment s)
    (hnorm : env.lexically_normal (abs_path segs) = abs_path segs) :
    get_basename env (abs_path segs) true = (segs.getLast?).getD [] := by
  simp only [get_basename, canonicalize_path_impl, if_true, hnorm]
  by_cases h : segs = []
  · subst h; rfl
  · obtain ⟨l, s, rfl⟩ := snoc_of_ne_nil segs h
    have hs : '/' ∉ s := (hseg s (by simp)).2
    rw [abs_path_snoc, filename_append_slash _ _ hs, trim_end_of_not_mem _ hs]
    simp

theorem find_cons_isSome (a : Char) (s pat : Str) :
    (find (a :: s) pat).isSome = (pat.isPrefixOf (a :: s) || (find s pat).isSome) := by
  rw [find]
  split <;> simp_all

theorem find_append_of_not_mem (s g : Str) (c : Char) (pat : Str) (hs : c ∉ s) :
    (find (s ++ g) (c :: pat)).isSome = (find g (c :: pat)).isSome := by
  induction s with
  | nil => rfl
  | cons a s ih =>
    have hca : ¬ c = a := fun e => hs (e ▸ List.mem_cons_self _ _)
    rw [List.cons_append, find_cons_isSome, ih (fun h => hs (List.mem_cons_of_mem _ h))]
    simp [List.isPrefixOf, hca]

theorem find_slash_dot_segments (segs : List Str) (hseg : ∀ s ∈ segs, is_segment s) :
    (find (segs.map (fun s => '/' :: s)).flatten ['/', '.']).isSome =
      segs.any (fun s => starts_with s ['.']) := by
  induction segs with
  | nil => rfl
  | cons s segs ih =>
    obtain ⟨hne, hs⟩ := hseg s (List.mem_cons_self _ _)
    have ih' := ih (fun t ht => hseg t (List.mem_cons_of_mem _ ht))
    obtain ⟨c, s', rfl⟩ : ∃ c s', s = c :: s' := List.exists_cons_of_ne_nil hne
    simp only [List.map_cons, List.flatten_cons, List.any_cons]
    rw [← ih', List.cons_append, find_cons_isSome, find_append_of_not_mem _ _ '/' ['.'] hs]
    simp [starts_with, List.isPrefixOf]

theorem find_slash_dot_abs_path (segs : List Str) (hseg : ∀ s ∈ segs, is_segment s) :
    (find (abs_path segs) ['/', '.']).isSome = (base_dotted segs || ancestor_dotted segs) := by
  by_cases h : segs = []
  · subst h; rfl
  · obtain ⟨l, s, rfl⟩ := snoc_of_ne_nil segs h
    have hl : abs_path (l ++ [s]) = ((l ++ [s]).map (fun s => '/' :: s)).flatten := by
      simp [abs_path]
    rw [hl, find_slash_dot_segments _ hseg]
    simp [base_dotted, ancestor_dotted, Bool.or_comm]

theorem is_abspath_abs_path (env : Env) (segs : List Str)
    (hnorm : env.lexically_normal (abs_path segs) = abs_path segs) :
    is_abspath env (abs_path segs) = true := by
  simp only [is_abspath, canonicalize_path_impl, if_true, hnorm, is_absolute]
  exact abs_path_starts_with_slash segs

theorem basename_dotted_abs_path (env : Env) (segs : List Str) (hseg : ∀ s ∈ segs, is_segment s)
    (hnorm : env.lexically_normal (abs_path segs) = abs_path segs) :
    starts_with (get_basename env (abs_path segs) true) ['.'] = base_dotted segs := by
  rw [get_basename_abs_path env segs hseg hnorm]
  unfold base_dotted
  cases segs.getLast? <;> rfl

/-- C6. The ignore policy on a normalized absolute path `f` with segments
`segs`: `test_ignore_entry` returns (its assertion holds) false for a
directory, and otherwise
`(ignore_dot_dir and not B and A) or (ignore_dot_file and B) or (ignore_dot and (B or A))`,
where B says the last segment (the basename) starts with `.` and A says a
segment other than the last starts with `.`; so with `ignore_dot` alone a
non-directory entry is ignored exactly when one of the other two conditions,
`not B and A` or `B`, holds. -/
theorem test_ignore_entry_policy (env : Env) (o : Opt) (segs : List Str) (t : FileType)
    (hseg : ∀ s ∈ segs, is_segment s)
    (hnorm : env.lexically_normal (abs_path segs) = abs_path segs) :
    test_ignore_entry env o (abs_path segs) t = .ok
      (if t = FileType.Dir then false
       else (o.ignore_dot_dir && !base_dotted segs && ancestor_dotted segs) ||
         (o.ignore_dot_file && base_dotted segs) ||
         (o.ignore_dot && (base_dotted segs || ancestor_dotted segs))) ∧
    (o.ignore_dot_dir = false → o.ignore_dot_file = false → o.ignore_dot = true →
      t ≠ FileType.Dir →
      test_ignore_entry env o (abs_path segs) t = .ok
        ((!base_dotted segs && ancestor_dotted segs) || base_dotted segs)) := by
  unfold test_ignore_entry
  rw [is_abspath_abs_path env segs hnorm, basename_dotted_abs_path env segs hseg hnorm,
    find_slash_dot_abs_path segs hseg]
  by_cases ht : t = FileType.Dir
  · simp [ht, assert, bind, Except.bind, pure, Except.pure]
  · cases o.ignore_dot_dir <;> cases o.ignore_dot_file <;> cases o.ignore_dot <;>
      cases base_dotted segs <;> cases ancestor_dotted segs <;>
      simp [ht, assert, bind, Except.bind, pure, Except.pure]

theorem test_ignore_entry_policy_witness :
    (∀ s ∈ ["r".toList, ".git".toList, "config".toList], is_segment s) ∧
    toy_env.lexically_normal (abs_path ["r".toList, ".git".toList, "config".toList]) =
      abs_path ["r".toList, ".git".toList, "config".toList] ∧
    abs_path ["r".toList, ".git".toList, "config".toList] = "/r/.git/config".toList ∧
    test_ignore_entry toy_env { toy_opt with ignore_dot_dir := true }
      (abs_path ["r".toList, ".git".toList, "config".toList]) FileType.Reg = .ok true ∧
    test_ignore_entry toy_env { toy_opt with ignore_dot_dir := true }
      "/r/.env".toList FileType.Reg = .ok false :=
  ⟨by simp [is_segment], rfl, by decide,
    (test_ignore_entry_policy toy_env { toy_opt with ignore_dot_dir := true }
      ["r".toList, ".git".toList, "config".toList] FileType.Reg (by simp [is_segment]) rfl).1,
    (test_ignore_entry_policy toy_env { toy_opt with ignore_dot_dir := true }
      ["r".toList, ".env".toList] FileType.Reg (by simp [is_segment]) rfl).1⟩

/-- C7. Enabling `ignore_dot_file` changes nothing for an entry whose basename
does not start with `.`: for every setting of the other options the result of
`test_ignore_entry` is the same with the flag on as with it off. -/
theorem test_ignore_entry_dot_file_independent (env : Env) (o : Opt) (f : Str) (t : FileType)
    (hbase : starts_with (get_basename env f true) ['.'] = false) :
    test_ignore_entry env { o with ignore_dot_file := true } f t =
      test_ignore_entry env { o with ignore_dot_file := false } f t := by
  simp [test_ignore_entry, hbase]

theorem test_ignore_entry_dot_file_independent_witness :
    starts_with (get_basename toy_env "/r/.git/config".toList true) ['.'] = false ∧
    test_ignore_entry toy_env { toy_opt with ignore_dot_file := true } "/r/.git/config".toList
        FileType.Reg =
      test_ignore_entry toy_env { toy_opt with ignore_dot_file := false } "/r/.git/config".toList
        FileType.Reg :=
  ⟨by decide,
    test_ignore_entry_dot_file_independent toy_env toy_opt "/r/.git/config".toList FileType.Reg
      (by decide)⟩

/-- C8. `trim_input_prefix` is a left inverse of joining with the prefix: for
every `root` and every `r` that does not start with `/`, the call on
`root + "/" + r` and `root` returns `r`; neither the range check of `substr`
nor the assertion fails. -/
theorem trim_input_prefix_left_inverse (root r : Str) (hr : starts_with r ['/'] = false) :
    trim_input_prefix (root ++ '/' :: r) root = .ok r := by
  have hp : starts_with (root ++ '/' :: r) root = true := by
    simp [starts_with, List.isPrefixOf_iff_prefix]
  have hd : List.drop (root.length + 1) (root ++ '/' :: r) = r := by
    rw [List.drop_append]
    rfl
  simp [ trim_input_prefix, hp, substr, hd, hr, assert, bind, Except.bind, pure, Except.pure]

theorem trim_input_prefix_left_inverse_witness :
    starts_with "a/b.txt".toList ['/'] = false ∧
    trim_input_prefix ("/home/u".toList ++ '/' :: "a/b.txt".toList) "/home/u".toList =
      .ok "a/b.txt".toList :=
  ⟨by decide, trim_input_prefix_left_inverse "/home/u".toList "a/b.txt".toList (by decide)⟩

/-- C9, the code at the failing input: `/foobar/x` is neither `/foo` nor under
`/foo/`, yet `trim_input_prefix` cuts `"/foo".size() + 1` chars off it and
returns `ar/x`; the walk reaches this: with `follow_symlink`, the symlink
`/foo/link` to `/foobar/x` under the prefix `/foo` is printed as
`link -> ar/x`. -/
theorem trim_input_prefix_sibling_prefix :
    "/foobar/x".toList ≠ "/foo".toList ∧
    starts_with "/foobar/x".toList ("/foo".toList ++ ['/']) = false ∧
    trim_input_prefix "/foobar/x".toList "/foo".toList = .ok "ar/x".toList ∧
    (walk_directory_impl squash1.impl link_env { toy_opt with follow_symlink := true }
        "/foo/link".toList "/foo".toList (Run.new squash1.impl [])).toOption.map
        (fun p => p.2.out) =
      some [get_hex_sum (toy_evp toy_opt.hash_algo "data".toList) ++
        "  link -> ar/x".toList] :=
  ⟨by decide, by decide, rfl, by decide⟩

/-- C10. The display path: for an absolute `f`, `get_real_path` returns `f`
itself when `abs` is set, also when `f` equals the prefix; otherwise `.` when
`f` equals the prefix; otherwise, when the prefix is not `/`, what
`trim_input_prefix` returns. -/
theorem get_real_path_cases (env : Env) (o : Opt) (f inp : Str)
    (habs : is_abspath env f = true) :
    (o.abs = true → get_real_path env o f inp = .ok f) ∧
    (o.abs = false → f = inp → get_real_path env o f inp = .ok ['.']) ∧
    (o.abs = false → f ≠ inp → inp ≠ ['/'] →
      get_real_path env o f inp = trim_input_prefix f inp) := by
  refine ⟨?_, ?_, ?_⟩
  · intro h
    simp [get_real_path, h, habs, assert, bind, Except.bind, pure, Except.pure]
  · intro h hf
    simp [get_real_path, h, hf, pure, Except.pure]
  · intro h hf hinp
    simp [get_real_path, h, hf, hinp]

theorem get_real_path_cases_witness :
    is_abspath toy_env "/r/a".toList = true ∧
    get_real_path toy_env { toy_opt with abs := true } "/r/a".toList "/r/a".toList =
      .ok "/r/a".toList ∧
    get_real_path toy_env toy_opt "/r/a".toList "/r/a".toList = .ok ['.'] ∧
    get_real_path toy_env toy_opt "/r/a".toList "/r".toList = .ok ['a'] :=
  ⟨by decide,
    (get_real_path_cases toy_env { toy_opt with abs := true } "/r/a".toList "/r/a".toList
      (by decide)).1 rfl,
    rfl, rfl⟩

/-! ## Properties of the walk -/

theorem debug_first_ok (env : Env) (o : Opt) (f : Str) (t : FileType) :
    ∃ ls : List Str, ∀ out, debug_first env o f t out = .ok (out ++ ls) := by
  unfold debug_first print_debug
  cases hd : o.debug <;> cases ha : o.abs
  · exact ⟨[], fun out => by simp⟩
  · exact ⟨[], fun out => by simp⟩
  · exact ⟨_, fun out => by simp [assert, bind, Except.bind, pure, Except.pure]; rfl⟩
  · exact ⟨_, fun out => by simp [assert, bind, Except.bind, pure, Except.pure]; rfl⟩

theorem print_symlink_squ (S : SquashImpl) (env : Env) (o : Opt) (f inp : Str) :
    ∃ c : Except Fault (Option Str), ∀ r : Run S,
      (print_symlink S env o f inp r).map (fun r' => r'.squ) =
        c.map (apply_update S env.evp r.squ) := by
  obtain ⟨ls, hls⟩ := debug_first_ok env o f FileType.Symlink
  simp only [print_symlink, squash_or_print, hls, bind, Except.bind, pure, Except.pure]
  repeat' split
  all_goals first
    | exact ⟨.error _, fun _ => rfl⟩
    | exact ⟨.ok none, fun _ => rfl⟩
    | exact ⟨.ok (some _), fun _ => rfl⟩

theorem print_file_squ (S : SquashImpl) (env : Env) (o : Opt) (f l : Str) (t : FileType)
    (inp : Str) :
    ∃ c : Except Fault (Option Str), ∀ r : Run S,
      (print_file S env o f l t inp r).map (fun r' => r'.squ) =
        c.map (apply_update S env.evp r.squ) := by
  obtain ⟨ls, hls⟩ := debug_first_ok env o f t
  simp only [print_file, squash_or_print, panic_file_type, hls, bind, Except.bind, pure,
    Except.pure]
  repeat' split
  all_goals first
    | exact ⟨.error _, fun _ => rfl⟩
    | exact ⟨.ok none, fun _ => rfl⟩
    | exact ⟨.ok (some _), fun _ => rfl⟩

theorem handle_directory_squ (S : SquashImpl) (env : Env) (o : Opt) (f l inp : Str) :
    ∃ c : Except Fault (Option Str), ∀ r : Run S,
      (handle_directory S env o f l inp r).map (fun r' => r'.squ) =
        c.map (apply_update S env.evp r.squ) := by
  obtain ⟨ls, hls⟩ := debug_first_ok env o f FileType.Dir
  simp only [handle_directory, hls, bind, Except.bind, pure, Except.pure]
  repeat' split
  all_goals first
    | exact ⟨.error _, fun _ => rfl⟩
    | exact ⟨.ok none, fun _ => rfl⟩
    | exact ⟨.ok (some _), fun _ => rfl⟩

theorem print_unsupported_squ (S : SquashImpl) (env : Env) (o : Opt) (f : Str) (r : Run S) :
    (print_unsupported S env o f r).map (fun r' => r'.squ) = .ok r.squ := by
  obtain ⟨ls, hls⟩ := debug_first_ok env o f FileType.Unsupported
  simp only [print_unsupported, hls, bind, Except.bind, pure, Except.pure]
  rfl

theorem print_invalid_squ (S : SquashImpl) (env : Env) (o : Opt) (f : Str) (r : Run S) :
    (print_invalid S env o f r).map (fun r' => r'.squ) = .ok r.squ := by
  obtain ⟨ls, hls⟩ := debug_first_ok env o f FileType.Invalid
  simp only [print_invalid, hls, bind, Except.bind, pure, Except.pure]
  rfl


theorem ret_zero_squ {S : SquashImpl} (evp : Evp) (m : Run S → Except Fault (Run S))
    (h : ∃ c : Except Fault (Option Str), ∀ r : Run S,
      (m r).map (fun r' => r'.squ) = c.map (apply_update S evp r.squ)) :
    ∃ c : Except Fault (Option Str), ∀ r : Run S,
      (do let r' ← m r; pure ((0 : Int), r') : Except Fault (Int × Run S)).map
          (fun p => (p.1, p.2.squ)) =
        c.map (fun v => ((0 : Int), apply_update S evp r.squ v)) := by
  obtain ⟨c, hc⟩ := h
  refine ⟨c, fun r => ?_⟩
  have := hc r
  cases hm : m r <;> cases c <;>
    simp_all [Except.map, bind, Except.bind, pure, Except.pure]

theorem walk_dispatch_squ (S : SquashImpl) (env : Env) (o : Opt) (x l : Str) (t : FileType)
    (inp : Str) :
    ∃ c : Except Fault (Option Str), ∀ r : Run S,
      (walk_dispatch S env o x l t inp r).map (fun p => (p.1, p.2.squ)) =
        c.map (fun v => ((0 : Int), apply_update S env.evp r.squ v)) := by
  cases t <;> simp only [walk_dispatch]
  · exact ret_zero_squ env.evp _ (handle_directory_squ S env o x l inp)
  · exact ret_zero_squ env.evp _ (print_file_squ S env o x l _ inp)
  · exact ret_zero_squ env.evp _ (print_file_squ S env o x l _ inp)
  · exact ⟨.error Fault.assertion, fun _ => rfl⟩
  · exact ret_zero_squ env.evp _ ⟨.ok none, fun r => print_unsupported_squ S env o x r⟩
  · exact ret_zero_squ env.evp _ ⟨.ok none, fun r => print_invalid_squ S env o x r⟩

theorem walk_directory_impl_squ (S : SquashImpl) (env : Env) (o : Opt) (f inp : Str) :
    ∃ c : Except Fault (Option Str), ∀ r : Run S,
      (walk_directory_impl S env o f inp r).map (fun p => (p.1, p.2.squ)) =
        c.map (fun v => ((0 : Int), apply_update S env.evp r.squ v)) := by
  simp only [walk_directory_impl]
  generalize get_raw_file_type env f = t
  cases hti : test_ignore_entry env o f t with
  | error e => exact ⟨.error e, fun _ => rfl⟩
  | ok b =>
    cases b with
    | true => exact ⟨.ok none, fun _ => rfl⟩
    | false =>
      by_cases ht : t = FileType.Symlink
      · by_cases his : o.ignore_symlink = true
        · exact ⟨.ok none, fun _ => by
            simp [ht, his, bind, Except.bind, pure, Except.pure, Except.map, apply_update]⟩
        · by_cases hfs : o.follow_symlink = true
          · by_cases hx : (canonicalize_path env f true).isEmpty = true
            · obtain ⟨c, hc⟩ :=
                ret_zero_squ env.evp _ ⟨.ok none, fun r => print_invalid_squ S env o f r⟩
              refine ⟨c, fun r => ?_⟩
              rw [← hc r]
              simp [ht, his, hfs, hx, bind, Except.bind, pure, Except.pure]
            · cases ha : assert (is_abspath env (canonicalize_path env f true)) with
              | error e =>
                exact ⟨.error e, fun _ => by
                  simp [ht, his, hfs, hx, ha, bind, Except.bind, pure, Except.pure, Except.map]⟩
              | ok u =>
                cases hs : assert (get_file_type env (canonicalize_path env f true)
                    != FileType.Symlink) with
                | error e =>
                  exact ⟨.error e, fun _ => by
                    simp [ht, his, hfs, hx, ha, hs, bind, Except.bind, pure, Except.pure,
                      Except.map]⟩
                | ok u =>
                  obtain ⟨c, hc⟩ := walk_dispatch_squ S env o (canonicalize_path env f true) f
                    (get_file_type env (canonicalize_path env f true)) inp
                  refine ⟨c, fun r => ?_⟩
                  rw [← hc r]
                  simp [ht, his, hfs, hx, ha, hs, bind, Except.bind, pure, Except.pure]
          · obtain ⟨c, hc⟩ := ret_zero_squ env.evp _ (print_symlink_squ S env o f inp)
            refine ⟨c, fun r => ?_⟩
            rw [← hc r]
            simp [ht, his, hfs, bind, Except.bind, pure, Except.pure]
      · obtain ⟨c, hc⟩ := walk_dispatch_squ S env o f [] t inp
        refine ⟨c, fun r => ?_⟩
        rw [← hc r]
        simp [ht, bind, Except.bind, pure, Except.pure]


theorem walk_directory_impl_of_ok {S : SquashImpl} {env : Env} {o : Opt} {f inp : Str}
    {c : Except Fault (Option Str)} {v : Option Str} (r : Run S)
    (hc : (walk_directory_impl S env o f inp r).map (fun p => (p.1, p.2.squ)) =
      c.map (fun v => ((0 : Int), apply_update S env.evp r.squ v)))
    (hv : c = .ok v) :
    ∃ r', walk_directory_impl S env o f inp r = .ok (0, r') ∧
      r'.squ = apply_update S env.evp r.squ v := by
  subst hv
  cases hw : walk_directory_impl S env o f inp r with
  | error e => simp [hw, Except.map] at hc
  | ok p =>
    obtain ⟨ret, r'⟩ := p
    simp only [hw, Except.map, Except.ok.injEq, Prod.mk.injEq] at hc
    exact ⟨r', by rw [hc.1], hc.2⟩

theorem walk_directory_impl_of_error {S : SquashImpl} {env : Env} {o : Opt} {f inp : Str}
    {c : Except Fault (Option Str)} {e : Fault} (r : Run S)
    (hc : (walk_directory_impl S env o f inp r).map (fun p => (p.1, p.2.squ)) =
      c.map (fun v => ((0 : Int), apply_update S env.evp r.squ v)))
    (hv : c = .error e) :
    walk_directory_impl S env o f inp r = .error e := by
  subst hv
  cases hw : walk_directory_impl S env o f inp r with
  | error e' => simpa [hw, Except.map] using hc
  | ok p => simp [hw, Except.map] at hc

theorem walk_entries_ok (S : SquashImpl) (env : Env) (o : Opt) (inp : Str)
    (c : Str → Except Fault (Option Str))
    (hc : ∀ f (r : Run S), (walk_directory_impl S env o f inp r).map (fun p => (p.1, p.2.squ)) =
      (c f).map (fun v => ((0 : Int), apply_update S env.evp r.squ v)))
    (l : List Str) (r : Run S) (hall : ∀ f ∈ l, ∃ v, c f = .ok v) :
    ∃ r', walk_entries S env o inp l r = .ok (0, r') ∧
      r'.squ = (l.filterMap (fun f => (c f).toOption)).foldl (apply_update S env.evp) r.squ := by
  induction l generalizing r with
  | nil => exact ⟨r, rfl, rfl⟩
  | cons f l ih =>
    obtain ⟨v, hv⟩ := hall f (List.mem_cons_self _ _)
    obtain ⟨r1, h1, hs1⟩ := walk_directory_impl_of_ok r (hc f r) hv
    obtain ⟨r2, h2, hs2⟩ := ih r1 (fun g hg => hall g (List.mem_cons_of_mem _ hg))
    refine ⟨r2, ?_, ?_⟩
    · simp [walk_entries, h1, h2, bind, Except.bind, pure, Except.pure]
    · simp [hs2, hs1, hv, Except.toOption]

theorem walk_entries_error (S : SquashImpl) (env : Env) (o : Opt) (inp : Str)
    (c : Str → Except Fault (Option Str))
    (hc : ∀ f (r : Run S), (walk_directory_impl S env o f inp r).map (fun p => (p.1, p.2.squ)) =
      (c f).map (fun v => ((0 : Int), apply_update S env.evp r.squ v)))
    (l : List Str) (r : Run S) (hex : ∃ f ∈ l, ∃ e, c f = .error e) :
    ∃ e, walk_entries S env o inp l r = .error e := by
  induction l generalizing r with
  | nil => simp at hex
  | cons f l ih =>
    cases hf : c f with
    | error e =>
      exact ⟨e, by
        simp [walk_entries, walk_directory_impl_of_error r (hc f r) hf, bind, Except.bind]⟩
    | ok v =>
      obtain ⟨r1, h1, -⟩ := walk_directory_impl_of_ok r (hc f r) hf
      obtain ⟨g, hg, e, he⟩ := hex
      have hg' : g ∈ l := by
        rcases List.mem_cons.mp hg with rfl | h
        · rw [hf] at he; cases he
        · exact h
      obtain ⟨e', he'⟩ := ih r1 ⟨g, hg', e, he⟩
      exact ⟨e', by simp [walk_entries, h1, he', bind, Except.bind, pure, Except.pure]⟩

theorem squash1_apply_updates (evp : Evp) (vs : List (Option Str)) (s : squash1.Squash) :
    (vs.foldl (apply_update squash1.impl evp) s)._buffer =
      s._buffer ++ (vs.filterMap id).map (fun b => evp hash.MD5 b) := by
  induction vs generalizing s with
  | nil => simp
  | cons v vs ih =>
    cases v with
    | none => simp [ih, apply_update]
    | some b =>
      rw [List.foldl_cons, ih]
      simp [apply_update, squash1.impl, squash1.Squash.update_buffer, get_byte_hash, get_hash]


theorem walk_directory_impl_sort (S : SquashImpl) (env : Env) (o : Opt) (b : Bool) (f inp : Str)
    (r : Run S) :
    walk_directory_impl S env { o with sort := b } f inp r = walk_directory_impl S env o f inp r :=
  rfl

theorem walk_entries_sort (S : SquashImpl) (env : Env) (o : Opt) (b : Bool) (inp : Str)
    (l : List Str) (r : Run S) :
    walk_entries S env { o with sort := b } inp l r = walk_entries S env o inp l r := by
  induction l generalizing r with
  | nil => rfl
  | cons f l ih => simp only [walk_entries, walk_directory_impl_sort, ih]

theorem walk_directory_eq_entries (S : SquashImpl) (env : Env) (o : Opt) (es : List Str)
    (inp : Str) (r : Run S) :
    ∃ l : List Str, l.Perm es ∧ walk_directory S env o es inp r = walk_entries S env o inp l r := by
  unfold walk_directory
  split
  · exact ⟨std_sort es, std_sort_perm es, rfl⟩
  · exact ⟨es, List.Perm.refl _, rfl⟩

theorem walk_entries_perm_squash1 (env : Env) (o : Opt) (inp : Str) (l l' : List Str)
    (r : Run squash1.impl) (h : l.Perm l') :
    (walk_entries squash1.impl env o inp l r).toOption.map
        (fun p => (squash1.Squash.get_buffer p.2.squ).1) =
      (walk_entries squash1.impl env o inp l' r).toOption.map
        (fun p => (squash1.Squash.get_buffer p.2.squ).1) := by
  choose c hc using fun f => walk_directory_impl_squ squash1.impl env o f inp
  by_cases hall : ∀ f ∈ l, ∃ v, c f = .ok v
  · have hall' : ∀ f ∈ l', ∃ v, c f = .ok v := fun f hf => hall f (h.symm.subset hf)
    obtain ⟨r1, h1, hs1⟩ := walk_entries_ok squash1.impl env o inp c hc l r hall
    obtain ⟨r2, h2, hs2⟩ := walk_entries_ok squash1.impl env o inp c hc l' r hall'
    simp only [h1, h2, Except.toOption, Option.map_some']
    congr 1
    apply squash1_get_buffer_perm
    show (r1.squ : squash1.Squash)._buffer.Perm (r2.squ : squash1.Squash)._buffer
    rw [hs1, hs2, squash1_apply_updates, squash1_apply_updates]
    exact ((((h.filterMap _).filterMap _).map _).append_left _)
  · have hex : ∃ f ∈ l, ∃ e, c f = .error e := by
      by_contra hno
      apply hall
      intro f hf
      cases hcf : c f with
      | ok v => exact ⟨v, rfl⟩
      | error e => exact absurd ⟨f, hf, e, hcf⟩ hno
    obtain ⟨f, hf, e, he⟩ := hex
    obtain ⟨e1, h1⟩ := walk_entries_error squash1.impl env o inp c hc l r ⟨f, hf, e, he⟩
    obtain ⟨e2, h2⟩ := walk_entries_error squash1.impl env o inp c hc l' r
      ⟨f, h.subset hf, e, he⟩
    simp [h1, h2, Except.toOption]

theorem print_byte_sort (S : SquashImpl) (env : Env) (o : Opt) (b : Bool) (f inb inp : Str)
    (out : List Str) :
    print_byte S env { o with sort := b } f inb inp out = print_byte S env o f inb inp out :=
  rfl

/-- C5. End-to-end order-independence under Variant A: for fixed entries (the
environment gives their types and contents), a fixed prefix and fixed options,
`walk_directory` on an enumeration `es` and on any permutation `es'` of it, with
the sort option set or not, either both end in a fault or both return, and then
`get_buffer` gives the same bytes, so that `print_byte` prints the same squash
digest line. -/
theorem walk_directory_order_independent (env : Env) (o : Opt) (f inp : Str) (es es' : List Str)
    (r : Run squash1.impl) (out : List Str) (b : Bool) (h : es.Perm es') :
    (walk_directory squash1.impl env o es inp r).toOption.map
        (fun p => (squash1.Squash.get_buffer p.2.squ).1) =
      (walk_directory squash1.impl env { o with sort := b } es' inp r).toOption.map
        (fun p => (squash1.Squash.get_buffer p.2.squ).1) ∧
    (walk_directory squash1.impl env o es inp r).toOption.map
        (fun p => print_byte squash1.impl env o f (squash1.Squash.get_buffer p.2.squ).1 inp out) =
      (walk_directory squash1.impl env { o with sort := b } es' inp r).toOption.map
        (fun p => print_byte squash1.impl env { o with sort := b } f
          (squash1.Squash.get_buffer p.2.squ).1 inp out) := by
  obtain ⟨l, hl, e1⟩ := walk_directory_eq_entries squash1.impl env o es inp r
  obtain ⟨l', hl', e2⟩ :=
    walk_directory_eq_entries squash1.impl env { o with sort := b } es' inp r
  rw [e1, e2, walk_entries_sort squash1.impl env o b inp l' r]
  have key := walk_entries_perm_squash1 env o inp l l' r ((hl.trans h).trans hl'.symm)
  refine ⟨key, ?_⟩
  have key2 := congrArg (Option.map (fun inb => print_byte squash1.impl env o f inb inp out)) key
  simp only [Option.map_map] at key2
  simpa only [print_byte_sort] using key2

theorem walk_directory_order_independent_witness :
    ["/r/b".toList, "/r/a".toList].Perm ["/r/a".toList, "/r/b".toList] ∧
    (walk_directory squash1.impl toy_env { toy_opt with squash := true }
        ["/r/b".toList, "/r/a".toList] "/r".toList (Run.new squash1.impl [])).toOption.map
        (fun p => (squash1.Squash.get_buffer p.2.squ).1) =
      (walk_directory squash1.impl toy_env { toy_opt with squash := true, sort := true }
        ["/r/a".toList, "/r/b".toList] "/r".toList (Run.new squash1.impl [])).toOption.map
        (fun p => (squash1.Squash.get_buffer p.2.squ).1) ∧
    (walk_directory squash1.impl toy_env { toy_opt with squash := true }
        ["/r/b".toList, "/r/a".toList] "/r".toList (Run.new squash1.impl [])).toOption.map
        (fun p => (squash1.Squash.get_buffer p.2.squ).1) =
      some "61612f722f303030303030303030303062622f722f3030303030303030303030".toList :=
  ⟨by decide,
    (walk_directory_order_independent toy_env { toy_opt with squash := true } "/r".toList
      "/r".toList ["/r/b".toList, "/r/a".toList] ["/r/a".toList, "/r/b".toList]
      (Run.new squash1.impl []) [] true (by decide)).1,
    by decide⟩

/-! ## Properties of the display path and of the squash line -/

/-- Under the prefix `/` the display path of `/a/b` is `a/b`, not its last
segment `b`. -/
theorem get_real_path_root_counterexample :
    get_real_path toy_env toy_opt "/a/b".toList ['/'] = .ok "a/b".toList ∧
    filename "/a/b".toList = "b".toList ∧
    get_real_path toy_env toy_opt "/a/b".toList ['/'] ≠ .ok (filename "/a/b".toList) := by
  refine ⟨rfl, by decide, ?_⟩
  intro h
  have h2 : get_real_path toy_env toy_opt "/a/b".toList ['/'] = .ok "a/b".toList := rfl
  rw [h2] at h
  injection h with h
  revert h
  decide

/-- C11, as amended. Under the prefix `/` and with `abs` off, for an absolute
`f` other than `/`, `get_real_path` returns `f` without its leading `/`: the
path relative to the root, from its first segment on, not from its last. -/
theorem get_real_path_root (env : Env) (o : Opt) (f : Str) (habs : o.abs = false)
    (hf : f ≠ ['/']) (hs : starts_with f ['/'] = true) :
    get_real_path env o f ['/'] = .ok (f.drop 1) ∧ '/' :: f.drop 1 = f := by
  obtain ⟨c, t, rfl⟩ : ∃ c t, f = c :: t := by
    cases f with
    | nil => simp [starts_with] at hs
    | cons c t => exact ⟨c, t, rfl⟩
  have hc : c = '/' := by
    simp [starts_with, List.isPrefixOf] at hs
    exact hs.symm
  subst hc
  simp [get_real_path, habs, hf, substr]

theorem get_real_path_root_witness :
    toy_opt.abs = false ∧ "/a/b".toList ≠ ['/'] ∧ starts_with "/a/b".toList ['/'] = true ∧
    get_real_path toy_env toy_opt "/a/b".toList ['/'] = .ok "a/b".toList :=
  ⟨rfl, by decide, by decide,
    (get_real_path_root toy_env toy_opt "/a/b".toList rfl (by decide) (by decide)).1⟩

theorem squash_tags :
    squash_tag squash1.impl = "[squash][v1]".toList ∧
    squash_tag squash2.impl = "[squash][v2]".toList := by
  decide

/-- C19, as amended. When the verification string is empty or equal to the hex
digest, `print_byte` prints exactly one line: the hex digest alone in hash-only
mode; otherwise, when the display path is `.` (`abs` off and the input is the
prefix itself), the hex digest immediately followed by `[squash][vN]`; and when
the display path `realf` is not `.`, the line of `get_xsum_format_string` for
`realf` and the hex digest, followed by `[squash][vN]`. The tag has N = 1 for
Variant A and N = 2 for Variant B (`squash_tags`). -/
theorem print_byte_line (S : SquashImpl) (env : Env) (o : Opt) (f inb inp : Str) (out : List Str)
    (hpath : assert_file_path env f inp = .ok ())
    (hb : env.evp o.hash_algo inb ≠ [])
    (hv : o.hash_verify = [] ∨ o.hash_verify = get_hex_sum (env.evp o.hash_algo inb)) :
    (o.hash_only = true →
      print_byte S env o f inb inp out = .ok (out ++ [get_hex_sum (env.evp o.hash_algo inb)])) ∧
    (o.hash_only = false → o.abs = false → f = inp →
      print_byte S env o f inb inp out =
        .ok (out ++ [get_hex_sum (env.evp o.hash_algo inb) ++ squash_tag S])) ∧
    (o.hash_only = false → ∀ realf, get_real_path env o f inp = .ok realf → realf ≠ ['.'] →
      print_byte S env o f inb inp out =
        .ok (out ++ [get_xsum_format_string realf (get_hex_sum (env.evp o.hash_algo inb)) o.swap
          ++ squash_tag S])) := by
  have hb' : (env.evp o.hash_algo inb).isEmpty = false := by
    cases h : env.evp o.hash_algo inb with
    | nil => exact absurd h hb
    | cons _ _ => rfl
  have hv' : (!o.hash_verify.isEmpty && o.hash_verify != get_hex_sum (env.evp o.hash_algo inb))
      = false := by
    rcases hv with h | h
    · simp [h]
    · rw [← h]; simp
  refine ⟨?_, ?_, ?_⟩
  · intro ho
    simp [print_byte, hpath, get_byte_hash, get_hash, hb', hv', ho, assert, bind, Except.bind,
      pure, Except.pure]
  · intro ho ha hfi
    subst hfi
    simp [print_byte, hpath, get_byte_hash, get_hash, hb', hv', ho, assert, bind, Except.bind,
      pure, Except.pure, get_real_path, ha, squash_tag]
  · intro ho realf hr hne
    simp [print_byte, hpath, get_byte_hash, get_hash, hb', hv', ho, assert, bind, Except.bind,
      pure, Except.pure, hr, hne, squash_tag]

/-- With `abs` set, and also for an input that is a file, the squash line holds
the display path between the hex digest and the tag. -/
theorem print_byte_line_counterexample :
    print_byte squash1.impl toy_env { toy_opt with squash := true, abs := true }
        "/r".toList [] "/r".toList [] =
      .ok [get_hex_sum (toy_evp toy_opt.hash_algo []) ++ "  /r[squash][v1]".toList] ∧
    get_hex_sum (toy_evp toy_opt.hash_algo []) ++ "  /r[squash][v1]".toList ≠
      get_hex_sum (toy_evp toy_opt.hash_algo []) ++ "[squash][v1]".toList ∧
    print_byte squash1.impl toy_env { toy_opt with squash := true }
        "/r/a".toList [] "/r".toList [] =
      .ok [get_hex_sum (toy_evp toy_opt.hash_algo []) ++ "  a[squash][v1]".toList] :=
  ⟨rfl, by decide, rfl⟩

theorem print_byte_line_witness :
    assert_file_path toy_env "/r".toList "/r".toList = .ok () ∧
    print_byte squash2.impl toy_env { toy_opt with squash := true } "/r".toList [] "/r".toList [] =
      .ok [get_hex_sum (toy_evp toy_opt.hash_algo []) ++ "[squash][v2]".toList] :=
  ⟨rfl,
    (print_byte_line squash2.impl toy_env { toy_opt with squash := true } "/r".toList []
      "/r".toList [] rfl (by decide) (Or.inl rfl)).2.1 rfl rfl rfl⟩

/-! ## Properties of `print_input` -/

theorem debug_first_eq (env : Env) (o : Opt) (f : Str) (t : FileType) (out : List Str) :
    debug_first env o f t out = .ok (out ++ debug_lines env o f t) := by
  unfold debug_first print_debug debug_lines
  cases hd : o.debug <;> cases ha : o.abs <;>
    simp [assert, bind, Except.bind, pure, Except.pure]

/-- C13. A symlink that the ignore policy admits: with `ignore_symlink` the
entry is appended to the ignored list, whatever `follow_symlink` says;
otherwise, with `follow_symlink` off, `walk_directory_impl` is `print_symlink`,
which hashes the basename of the symlink with the primary algorithm, appends the
path to the symlink list and adds the length of the basename to the symlink
byte counter; in both cases the result is the same for every status of the
target, every `read_symlink` and every file content. -/
theorem symlink_leaf (S : SquashImpl) (env : Env) (o : Opt) (f inp : Str) (r : Run S)
    (hraw : get_raw_file_type env f = FileType.Symlink)
    (hpol : test_ignore_entry env o f FileType.Symlink = .ok false) :
    (o.ignore_symlink = true →
      walk_directory_impl S env o f inp r =
        .ok (0, { r with sta := { r.sta with _stat_ignored := r.sta._stat_ignored ++ [f] } })) ∧
    (o.ignore_symlink = false → o.follow_symlink = false →
      walk_directory_impl S env o f inp r =
        (print_symlink S env o f inp r).map (fun r' => ((0 : Int), r')) ∧
      print_symlink S env o f inp r =
        (assert_file_path env f inp).bind (fun _ =>
        (assert (!(env.evp o.hash_algo (get_basename env f true)).isEmpty)).bind (fun _ =>
        let b := env.evp o.hash_algo (get_basename env f true)
        let sta : Stat := { r.sta with
          _stat_symlink := r.sta._stat_symlink ++ [f],
          _written_symlink :=
            (r.sta._written_symlink + (get_basename env f true).length) % 2 ^ 64 }
        let out := r.out ++ debug_lines env o f FileType.Symlink
        if !o.hash_verify.isEmpty && o.hash_verify != get_hex_sum b then
          .ok ⟨r.squ, sta, out⟩
        else if o.hash_only then
          .ok (if o.squash then ⟨S.update_buffer env.evp r.squ b, sta, out⟩
            else ⟨r.squ, sta, out ++ [get_hex_sum b]⟩)
        else
          (get_real_path env o f inp).map (fun realf =>
            if o.squash then ⟨S.update_buffer env.evp r.squ (realf ++ b), sta, out⟩
            else ⟨r.squ, sta, out ++ [get_xsum_format_string realf (get_hex_sum b) o.swap]⟩)))) ∧
    (o.ignore_symlink = true ∨ o.follow_symlink = false →
      ∀ st rs fc, walk_directory_impl S
          { env with status := st, read_symlink := rs, file_content := fc } o f inp r =
        walk_directory_impl S env o f inp r) := by
  refine ⟨?_, ?_, ?_⟩
  · intro his
    simp [walk_directory_impl, hraw, hpol, his, bind, Except.bind, pure, Except.pure,
      Stat.append_stat_ignored]
  · intro his hfs
    refine ⟨?_, ?_⟩
    · simp [walk_directory_impl, hraw, hpol, his, hfs, bind, Except.bind, pure, Except.pure,
        Except.map]
    · simp only [print_symlink, squash_or_print, debug_first_eq, bind, Except.bind, pure,
        Except.pure, get_string_hash, get_hash, Stat.append_stat_total,
        Stat.append_written_total, Stat.append_stat_symlink, Stat.append_written_symlink,
        Nat.add_mod_mod, Except.map]
      repeat' split
      all_goals rfl
  · intro h st rs fc
    have e1 : get_raw_file_type { env with status := st, read_symlink := rs, file_content := fc } f
        = FileType.Symlink := hraw
    have e2 : test_ignore_entry { env with status := st, read_symlink := rs, file_content := fc }
        o f FileType.Symlink = .ok false := hpol
    have e3 : print_symlink S { env with status := st, read_symlink := rs, file_content := fc }
        o f inp r = print_symlink S env o f inp r := rfl
    by_cases his : o.ignore_symlink = true
    · simp [walk_directory_impl, hraw, hpol, e1, e2, his, bind, Except.bind, pure, Except.pure]
    · have hfs : o.follow_symlink = false := by
        rcases h with h | h
        · exact absurd h his
        · exact h
      simp [walk_directory_impl, hraw, hpol, e1, e2, e3, his, hfs, bind, Except.bind, pure,
        Except.pure]

theorem symlink_leaf_witness :
    get_raw_file_type tree_env "/r/broken".toList = FileType.Symlink ∧
    test_ignore_entry tree_env toy_opt "/r/broken".toList FileType.Symlink = .ok false ∧
    walk_directory_impl squash1.impl tree_env
        { toy_opt with ignore_symlink := true, follow_symlink := true }
        "/r/broken".toList "/r".toList (Run.new squash1.impl []) =
      .ok (0, ⟨squash1.Squash.new, { Stat.new with _stat_ignored := ["/r/broken".toList] }, []⟩) ∧
    (walk_directory_impl squash1.impl tree_env toy_opt "/r/broken".toList "/r".toList
        (Run.new squash1.impl [])).toOption.map (fun p => (p.2.sta, p.2.out)) =
      some ({ Stat.new with _stat_symlink := ["/r/broken".toList], _written_symlink := 6 },
        [get_hex_sum (toy_evp toy_opt.hash_algo "broken".toList) ++ "  broken".toList]) :=
  ⟨by decide, rfl,
    (symlink_leaf squash1.impl tree_env
      { toy_opt with ignore_symlink := true, follow_symlink := true }
      "/r/broken".toList "/r".toList (Run.new squash1.impl []) (by decide) rfl).1 rfl,
    by decide⟩

theorem accepted_entries (S : SquashImpl) (env : Env) (o : Opt) (f l : Str) (t : FileType)
    (inp : Str) (r : Run S) (c : Str) (hc : env.file_content f = some c)
    (hv : o.hash_verify = [] ∨ o.hash_verify = get_hex_sum (env.evp o.hash_algo c))
    (ht : t = FileType.Reg ∨ t = FileType.Device)
    (hp : assert_file_path env f inp = .ok ())
    (hl : l ≠ [] → assert_file_path env l inp = .ok ())
    (hb : env.evp o.hash_algo c ≠ []) :
    (o.hash_only = true →
      print_file S env o f l t inp r = .ok
        (if o.squash then
          ⟨S.update_buffer env.evp r.squ (env.evp o.hash_algo c),
            file_stat r.sta f t c.length, r.out ++ debug_lines env o f t⟩
        else
          ⟨r.squ, file_stat r.sta f t c.length,
            r.out ++ debug_lines env o f t ++ [get_hex_sum (env.evp o.hash_algo c)]⟩)) ∧
    (o.hash_only = false → ∀ realf,
      ((f2t env f l).bind (fun x => get_real_path env o x inp)).bind
          (link_target_format env o l inp) = .ok realf →
      print_file S env o f l t inp r = .ok
        (if o.squash then
          ⟨S.update_buffer env.evp r.squ (realf ++ env.evp o.hash_algo c),
            file_stat r.sta f t c.length, r.out ++ debug_lines env o f t⟩
        else
          ⟨r.squ, file_stat r.sta f t c.length,
            r.out ++ debug_lines env o f t ++
              [get_xsum_format_string realf (get_hex_sum (env.evp o.hash_algo c)) o.swap]⟩)) := by
  have hb' : (env.evp o.hash_algo c).isEmpty = false := by
    cases h : env.evp o.hash_algo c with
    | nil => exact absurd h hb
    | cons _ _ => rfl
  have hv' : (!o.hash_verify.isEmpty && o.hash_verify != get_hex_sum (env.evp o.hash_algo c))
      = false := by
    rcases hv with h | h
    · simp [h]
    · rw [← h]; simp
  have hl' : l = [] ∨ (l ≠ [] ∧ assert_file_path env l inp = .ok ()) := by
    by_cases h : l = []
    · exact Or.inl h
    · exact Or.inr ⟨h, hl h⟩
  refine ⟨?_, ?_⟩
  · intro ho
    rcases hl' with rfl | ⟨hl1, hl2⟩ <;> rcases ht with ht | ht <;> subst ht <;>
      cases hs : o.squash <;>
      simp [print_file, debug_first_eq, get_file_hash, hc, get_hash, hp, hb', hv', ho, hs, *,
        file_stat, assert, bind, Except.bind, pure, Except.pure, Stat.append_stat_total,
        Stat.append_written_total, Stat.append_stat_regular, Stat.append_written_regular,
        Stat.append_stat_device, Stat.append_written_device]
  · intro ho realf hr
    simp only [Except.bind] at hr
    cases h1 : f2t env f l with
    | error e => simp [h1] at hr
    | ok x =>
      simp only [h1] at hr
      cases h2 : get_real_path env o x inp with
      | error e => simp [h2] at hr
      | ok y =>
        simp only [h2] at hr
        rcases hl' with rfl | ⟨hl1, hl2⟩ <;> rcases ht with ht | ht <;> subst ht <;>
          cases hs : o.squash <;>
          simp [print_file, squash_or_print, debug_first_eq, get_file_hash, hc, get_hash, hp,
            hb', hv', ho, hs, h1, h2, hr, *,
            file_stat, assert, bind, Except.bind, pure, Except.pure, Stat.append_stat_total,
            Stat.append_written_total, Stat.append_stat_regular, Stat.append_written_regular,
            Stat.append_stat_device, Stat.append_written_device]

theorem accepted_symlinks (S : SquashImpl) (env : Env) (o : Opt) (f inp : Str) (r : Run S)
    (hv : o.hash_verify = [] ∨
      o.hash_verify = get_hex_sum (env.evp o.hash_algo (get_basename env f true)))
    (hp : assert_file_path env f inp = .ok ())
    (hb : env.evp o.hash_algo (get_basename env f true) ≠ []) :
    (o.hash_only = true →
      print_symlink S env o f inp r = .ok
        (if o.squash then
          ⟨S.update_buffer env.evp r.squ (env.evp o.hash_algo (get_basename env f true)),
            symlink_stat r.sta f (get_basename env f true).length,
            r.out ++ debug_lines env o f FileType.Symlink⟩
        else
          ⟨r.squ, symlink_stat r.sta f (get_basename env f true).length,
            r.out ++ debug_lines env o f FileType.Symlink ++
              [get_hex_sum (env.evp o.hash_algo (get_basename env f true))]⟩)) ∧
    (o.hash_only = false → ∀ realf, get_real_path env o f inp = .ok realf →
      print_symlink S env o f inp r = .ok
        (if o.squash then
          ⟨S.update_buffer env.evp r.squ
              (realf ++ env.evp o.hash_algo (get_basename env f true)),
            symlink_stat r.sta f (get_basename env f true).length,
            r.out ++ debug_lines env o f FileType.Symlink⟩
        else
          ⟨r.squ, symlink_stat r.sta f (get_basename env f true).length,
            r.out ++ debug_lines env o f FileType.Symlink ++
              [get_xsum_format_string realf
                (get_hex_sum (env.evp o.hash_algo (get_basename env f true))) o.swap]⟩)) := by
  have hb' : (env.evp o.hash_algo (get_basename env f true)).isEmpty = false := by
    cases h : env.evp o.hash_algo (get_basename env f true) with
    | nil => exact absurd h hb
    | cons _ _ => rfl
  have hv' : (!o.hash_verify.isEmpty &&
      o.hash_verify != get_hex_sum (env.evp o.hash_algo (get_basename env f true))) = false := by
    rcases hv with h | h
    · simp [h]
    · rw [← h]; simp
  refine ⟨?_, ?_⟩
  · intro ho
    cases hs : o.squash <;>
      simp [print_symlink, debug_first_eq, get_string_hash, get_hash, hp, hb', hv', ho, hs,
        symlink_stat, assert, bind, Except.bind, pure, Except.pure, Stat.append_stat_total,
        Stat.append_written_total, Stat.append_stat_symlink, Stat.append_written_symlink]
  · intro ho realf hr
    cases hs : o.squash <;>
      simp [print_symlink, squash_or_print, debug_first_eq, get_string_hash, get_hash, hp, hb',
        hv', ho, hs, hr, symlink_stat, assert, bind, Except.bind, pure, Except.pure,
        Stat.append_stat_total, Stat.append_written_total, Stat.append_stat_symlink,
        Stat.append_written_symlink]

theorem debug_lines_off (env : Env) (o : Opt) (f : Str) (t : FileType) (h : o.debug = false) :
    debug_lines env o f t = [] := by
  simp [debug_lines, h]

theorem verification_filter_parts (S : SquashImpl) (env : Env) (o : Opt) (f l : Str) (t : FileType)
    (inp : Str) (r : Run S) (c : Str) (hc : env.file_content f = some c) :
    (∀ r', print_file S env o f l t inp r = .ok r' →
      r'.sta = file_stat r.sta f t c.length ∧
      (o.hash_verify ≠ [] ∧ o.hash_verify ≠ get_hex_sum (env.evp o.hash_algo c) →
        r'.squ = r.squ ∧ r'.out = r.out ++ debug_lines env o f t) ∧
      (o.hash_verify = [] ∨ o.hash_verify = get_hex_sum (env.evp o.hash_algo c) →
        (o.squash = true → r'.out = r.out ++ debug_lines env o f t ∧
          ∃ v, r'.squ = S.update_buffer env.evp r.squ v) ∧
        (o.squash = false → r'.squ = r.squ ∧
          ∃ line, r'.out = r.out ++ debug_lines env o f t ++ [line]))) ∧
    (o.hash_verify ≠ [] → o.hash_verify ≠ get_hex_sum (env.evp o.hash_algo c) →
      t = FileType.Reg ∨ t = FileType.Device →
      assert_file_path env f inp = .ok () → (l ≠ [] → assert_file_path env l inp = .ok ()) →
      env.evp o.hash_algo c ≠ [] →
      print_file S env o f l t inp r =
        .ok ⟨r.squ, file_stat r.sta f t c.length, r.out ++ debug_lines env o f t⟩) ∧
    (∀ r', print_symlink S env o f inp r = .ok r' →
      r'.sta = symlink_stat r.sta f (get_basename env f true).length ∧
      (o.hash_verify ≠ [] ∧
          o.hash_verify ≠ get_hex_sum (env.evp o.hash_algo (get_basename env f true)) →
        r'.squ = r.squ ∧ r'.out = r.out ++ debug_lines env o f FileType.Symlink) ∧
      (o.hash_verify = [] ∨
          o.hash_verify = get_hex_sum (env.evp o.hash_algo (get_basename env f true)) →
        (o.squash = true → r'.out = r.out ++ debug_lines env o f FileType.Symlink ∧
          ∃ v, r'.squ = S.update_buffer env.evp r.squ v) ∧
        (o.squash = false → r'.squ = r.squ ∧
          ∃ line, r'.out = r.out ++ debug_lines env o f FileType.Symlink ++ [line]))) ∧
    (o.hash_verify ≠ [] →
      o.hash_verify ≠ get_hex_sum (env.evp o.hash_algo (get_basename env f true)) →
      assert_file_path env f inp = .ok () →
      env.evp o.hash_algo (get_basename env f true) ≠ [] →
      print_symlink S env o f inp r =
        .ok ⟨r.squ, symlink_stat r.sta f (get_basename env f true).length,
          r.out ++ debug_lines env o f FileType.Symlink⟩) := by
  refine ⟨?_, ?_, ?_, ?_⟩
  · intro r' h
    simp only [print_file, squash_or_print, debug_first_eq, get_file_hash, hc, get_hash,
      panic_file_type, bind, Except.bind, pure, Except.pure] at h
    repeat' split at h
    all_goals first
      | (cases h; done)
      | (cases h
         simp_all [file_stat, Stat.append_stat_total, Stat.append_written_total,
           Stat.append_stat_regular, Stat.append_written_regular, Stat.append_stat_device,
           Stat.append_written_device]
         try tauto)
  · intro h1 h2 ht hp hl hb
    have hb' : (env.evp o.hash_algo c).isEmpty = false := by
      cases h : env.evp o.hash_algo c with
      | nil => exact absurd h hb
      | cons _ _ => rfl
    by_cases hle : l = []
    · subst hle
      rcases ht with ht | ht <;> subst ht <;>
        simp [print_file, debug_first_eq, get_file_hash, hc, get_hash, hp, hb', h1, h2,
          file_stat, assert, bind, Except.bind, pure, Except.pure, Stat.append_stat_total,
          Stat.append_written_total, Stat.append_stat_regular, Stat.append_written_regular,
          Stat.append_stat_device, Stat.append_written_device]
    · have hl' := hl hle
      rcases ht with ht | ht <;> subst ht <;>
        simp [print_file, debug_first_eq, get_file_hash, hc, get_hash, hp, hb', h1, h2, hle, hl',
          file_stat, assert, bind, Except.bind, pure, Except.pure, Stat.append_stat_total,
          Stat.append_written_total, Stat.append_stat_regular, Stat.append_written_regular,
          Stat.append_stat_device, Stat.append_written_device]
  · intro r' h
    simp only [print_symlink, squash_or_print, debug_first_eq, get_string_hash, get_hash,
      bind, Except.bind, pure, Except.pure] at h
    repeat' split at h
    all_goals first
      | (cases h; done)
      | (cases h
         simp_all [symlink_stat, Stat.append_stat_total, Stat.append_written_total,
           Stat.append_stat_symlink, Stat.append_written_symlink]
         try tauto)
  · intro h1 h2 hp hb
    have hb' : (env.evp o.hash_algo (get_basename env f true)).isEmpty = false := by
      cases h : env.evp o.hash_algo (get_basename env f true) with
      | nil => exact absurd h hb
      | cons _ _ => rfl
    simp [print_symlink, debug_first_eq, get_string_hash, get_hash, hp, hb', h1, h2,
      symlink_stat, assert, bind, Except.bind, pure, Except.pure, Stat.append_stat_total,
      Stat.append_written_total, Stat.append_stat_symlink, Stat.append_written_symlink]

theorem debug_lines_on (env : Env) (o : Opt) (f : Str) (t : FileType) (h : o.debug = true) :
    debug_lines env o f t =
      ["### ".toList ++ (if o.abs then get_abspath env f true else f) ++ " ".toList ++
        get_file_type_string t] := by
  simp [debug_lines, h]

theorem verification_filter_symlink_parts (S : SquashImpl) (env : Env) (o : Opt) (f inp : Str)
    (r : Run S) :
    (∀ r', print_symlink S env o f inp r = .ok r' →
      r'.sta = symlink_stat r.sta f (get_basename env f true).length ∧
      (o.hash_verify ≠ [] ∧
          o.hash_verify ≠ get_hex_sum (env.evp o.hash_algo (get_basename env f true)) →
        r'.squ = r.squ ∧ r'.out = r.out ++ debug_lines env o f FileType.Symlink) ∧
      (o.hash_verify = [] ∨
          o.hash_verify = get_hex_sum (env.evp o.hash_algo (get_basename env f true)) →
        (o.squash = true → r'.out = r.out ++ debug_lines env o f FileType.Symlink ∧
          ∃ v, r'.squ = S.update_buffer env.evp r.squ v) ∧
        (o.squash = false → r'.squ = r.squ ∧
          ∃ line, r'.out = r.out ++ debug_lines env o f FileType.Symlink ++ [line]))) ∧
    (o.hash_verify ≠ [] →
      o.hash_verify ≠ get_hex_sum (env.evp o.hash_algo (get_basename env f true)) →
      assert_file_path env f inp = .ok () →
      env.evp o.hash_algo (get_basename env f true) ≠ [] →
      print_symlink S env o f inp r =
        .ok ⟨r.squ, symlink_stat r.sta f (get_basename env f true).length,
          r.out ++ debug_lines env o f FileType.Symlink⟩) := by
  refine ⟨?_, ?_⟩
  · intro r' h
    simp only [print_symlink, squash_or_print, debug_first_eq, get_string_hash, get_hash,
      bind, Except.bind, pure, Except.pure] at h
    repeat' split at h
    all_goals first
      | (cases h; done)
      | (cases h
         simp_all [symlink_stat, Stat.append_stat_total, Stat.append_written_total,
           Stat.append_stat_symlink, Stat.append_written_symlink]
         try tauto)
  · intro h1 h2 hp hb
    have hb' : (env.evp o.hash_algo (get_basename env f true)).isEmpty = false := by
      cases h : env.evp o.hash_algo (get_basename env f true) with
      | nil => exact absurd h hb
      | cons _ _ => rfl
    simp [print_symlink, debug_first_eq, get_string_hash, get_hash, hp, hb', h1, h2,
      symlink_stat, assert, bind, Except.bind, pure, Except.pure, Stat.append_stat_total,
      Stat.append_written_total, Stat.append_stat_symlink, Stat.append_written_symlink]

/-- C16, the counterexample: with `debug` set and a verification string that
differs from the digest, `print_file` and `print_symlink` still write the
`###` line of the entry, so the output is not empty. -/
theorem verification_filter_counterexample :
    ['0'] ≠ get_hex_sum (toy_evp toy_opt.hash_algo "/r/a".toList) ∧
    print_file squash1.impl tree_env { toy_opt with hash_verify := ['0'], debug := true }
        "/r/a".toList [] FileType.Reg "/r".toList (Run.new squash1.impl []) =
      .ok ⟨squash1.Squash.new,
        { Stat.new with _stat_regular := ["/r/a".toList], _written_regular := 4 },
        ["### /r/a regular file".toList]⟩ ∧
    ['0'] ≠ get_hex_sum (toy_evp toy_opt.hash_algo "broken".toList) ∧
    print_symlink squash1.impl tree_env { toy_opt with hash_verify := ['0'], debug := true }
        "/r/broken".toList "/r".toList (Run.new squash1.impl []) =
      .ok ⟨squash1.Squash.new,
        { Stat.new with _stat_symlink := ["/r/broken".toList], _written_symlink := 6 },
        ["### /r/broken symlink".toList]⟩ :=
  ⟨by decide, rfl, by decide, rfl⟩

/-- C16, as amended. The verification filter on leaves. `print_file` and
`print_symlink` count the entry in `Stat` (category list and byte counter) in
the same way whatever the verification string is. When the string is set and
differs from the hex digest of the entry, the `Squash` is left as it was and
the only line written is the `###` line of debug mode (one line with the path
and the type when `debug` is set, nothing when it is off), and the call
returns. When the string is empty or equal to the hex digest, the entry is fed
to the `Squash` (squash mode) or one line is printed for it (otherwise). The
statements on `print_file` are for a file that can be read; those on
`print_symlink` hold whatever the target of the symlink is. -/
theorem verification_filter (S : SquashImpl) (env : Env) (o : Opt) (f l : Str) (t : FileType)
    (inp : Str) (r : Run S) :
    (∀ c, env.file_content f = some c →
      (∀ r', print_file S env o f l t inp r = .ok r' →
        r'.sta = file_stat r.sta f t c.length ∧
        (o.hash_verify ≠ [] ∧ o.hash_verify ≠ get_hex_sum (env.evp o.hash_algo c) →
          r'.squ = r.squ ∧ r'.out = r.out ++ debug_lines env o f t) ∧
        (o.hash_verify = [] ∨ o.hash_verify = get_hex_sum (env.evp o.hash_algo c) →
          (o.squash = true → r'.out = r.out ++ debug_lines env o f t ∧
            ∃ v, r'.squ = S.update_buffer env.evp r.squ v) ∧
          (o.squash = false → r'.squ = r.squ ∧
            ∃ line, r'.out = r.out ++ debug_lines env o f t ++ [line]))) ∧
      (t = FileType.Reg ∨ t = FileType.Device →
        assert_file_path env f inp = .ok () → (l ≠ [] → assert_file_path env l inp = .ok ()) →
        env.evp o.hash_algo c ≠ [] →
        (o.hash_verify ≠ [] → o.hash_verify ≠ get_hex_sum (env.evp o.hash_algo c) →
          print_file S env o f l t inp r =
            .ok ⟨r.squ, file_stat r.sta f t c.length, r.out ++ debug_lines env o f t⟩) ∧
        (o.hash_verify = [] ∨ o.hash_verify = get_hex_sum (env.evp o.hash_algo c) →
          (o.hash_only = true →
            print_file S env o f l t inp r = .ok
              (if o.squash then
                ⟨S.update_buffer env.evp r.squ (env.evp o.hash_algo c),
                  file_stat r.sta f t c.length, r.out ++ debug_lines env o f t⟩
              else
                ⟨r.squ, file_stat r.sta f t c.length,
                  r.out ++ debug_lines env o f t ++ [get_hex_sum (env.evp o.hash_algo c)]⟩)) ∧
          (o.hash_only = false → ∀ realf,
            ((f2t env f l).bind (fun x => get_real_path env o x inp)).bind
                (link_target_format env o l inp) = .ok realf →
            print_file S env o f l t inp r = .ok
              (if o.squash then
                ⟨S.update_buffer env.evp r.squ (realf ++ env.evp o.hash_algo c),
                  file_stat r.sta f t c.length, r.out ++ debug_lines env o f t⟩
              else
                ⟨r.squ, file_stat r.sta f t c.length,
                  r.out ++ debug_lines env o f t ++
                    [get_xsum_format_string realf (get_hex_sum (env.evp o.hash_algo c))
                      o.swap]⟩))))) ∧
    (∀ r', print_symlink S env o f inp r = .ok r' →
      r'.sta = symlink_stat r.sta f (get_basename env f true).length ∧
      (o.hash_verify ≠ [] ∧
          o.hash_verify ≠ get_hex_sum (env.evp o.hash_algo (get_basename env f true)) →
        r'.squ = r.squ ∧ r'.out = r.out ++ debug_lines env o f FileType.Symlink) ∧
      (o.hash_verify = [] ∨
          o.hash_verify = get_hex_sum (env.evp o.hash_algo (get_basename env f true)) →
        (o.squash = true → r'.out = r.out ++ debug_lines env o f FileType.Symlink ∧
          ∃ v, r'.squ = S.update_buffer env.evp r.squ v) ∧
        (o.squash = false → r'.squ = r.squ ∧
          ∃ line, r'.out = r.out ++ debug_lines env o f FileType.Symlink ++ [line]))) ∧
    (assert_file_path env f inp = .ok () →
      env.evp o.hash_algo (get_basename env f true) ≠ [] →
      (o.hash_verify ≠ [] →
        o.hash_verify ≠ get_hex_sum (env.evp o.hash_algo (get_basename env f true)) →
        print_symlink S env o f inp r =
          .ok ⟨r.squ, symlink_stat r.sta f (get_basename env f true).length,
            r.out ++ debug_lines env o f FileType.Symlink⟩) ∧
      (o.hash_verify = [] ∨
          o.hash_verify = get_hex_sum (env.evp o.hash_algo (get_basename env f true)) →
        (o.hash_only = true →
          print_symlink S env o f inp r = .ok
            (if o.squash then
              ⟨S.update_buffer env.evp r.squ (env.evp o.hash_algo (get_basename env f true)),
                symlink_stat r.sta f (get_basename env f true).length,
                r.out ++ debug_lines env o f FileType.Symlink⟩
            else
              ⟨r.squ, symlink_stat r.sta f (get_basename env f true).length,
                r.out ++ debug_lines env o f FileType.Symlink ++
                  [get_hex_sum (env.evp o.hash_algo (get_basename env f true))]⟩)) ∧
        (o.hash_only = false → ∀ realf, get_real_path env o f inp = .ok realf →
          print_symlink S env o f inp r = .ok
            (if o.squash then
              ⟨S.update_buffer env.evp r.squ
                  (realf ++ env.evp o.hash_algo (get_basename env f true)),
                symlink_stat r.sta f (get_basename env f true).length,
                r.out ++ debug_lines env o f FileType.Symlink⟩
            else
              ⟨r.squ, symlink_stat r.sta f (get_basename env f true).length,
                r.out ++ debug_lines env o f FileType.Symlink ++
                  [get_xsum_format_string realf
                    (get_hex_sum (env.evp o.hash_algo (get_basename env f true)))
                    o.swap]⟩)))) ∧
    (o.debug = false → ∀ g t', debug_lines env o g t' = []) ∧
    (o.debug = true → ∀ g t', debug_lines env o g t' =
      ["### ".toList ++ (if o.abs then get_abspath env g true else g) ++ " ".toList ++
        get_file_type_string t']) := by
  have hs := verification_filter_symlink_parts S env o f inp r
  refine ⟨fun c hc => ?_, hs.1, fun hp hb => ⟨fun h1 h2 => hs.2 h1 h2 hp hb,
      fun hv => accepted_symlinks S env o f inp r hv hp hb⟩,
    fun hd g t' => debug_lines_off env o g t' hd, fun hd g t' => debug_lines_on env o g t' hd⟩
  have h := verification_filter_parts S env o f l t inp r c hc
  exact ⟨h.1, fun ht hp hl hb => ⟨fun h1 h2 => h.2.1 h1 h2 ht hp hl hb,
    fun hv => accepted_entries S env o f l t inp r c hc hv ht hp hl hb⟩⟩

theorem verification_filter_witness :
    tree_env.file_content "/r/a".toList = some "/r/a".toList ∧
    print_file squash1.impl tree_env { toy_opt with hash_verify := ['0'], squash := true }
        "/r/a".toList [] FileType.Reg "/r".toList (Run.new squash1.impl []) =
      .ok ⟨squash1.Squash.new,
        { Stat.new with _stat_regular := ["/r/a".toList], _written_regular := 4 }, []⟩ ∧
    dangling_env.file_content "/r/broken".toList = none ∧
    print_symlink squash1.impl dangling_env { toy_opt with hash_verify := ['0'] }
        "/r/broken".toList "/r".toList (Run.new squash1.impl []) =
      .ok ⟨squash1.Squash.new,
        { Stat.new with _stat_symlink := ["/r/broken".toList], _written_symlink := 6 }, []⟩ :=
  ⟨rfl,
    (((verification_filter squash1.impl tree_env
      { toy_opt with hash_verify := ['0'], squash := true }
      "/r/a".toList [] FileType.Reg "/r".toList (Run.new squash1.impl [])).1 "/r/a".toList rfl).2
      (Or.inl rfl) rfl (fun h => absurd rfl h) (by decide)).1 (by decide) (by decide),
    rfl,
    ((verification_filter squash1.impl dangling_env { toy_opt with hash_verify := ['0'] }
      "/r/broken".toList [] FileType.Symlink "/r".toList (Run.new squash1.impl [])).2.2.1
      rfl (by decide)).1 (by decide) (by decide)⟩

/-- C17, the counterexample: with `debug` set, the walk writes one line for the
fifo `/r/fifo`, which is Unsupported, and one for `/r/bad`, which is Invalid. -/
theorem skipped_entries_counterexample :
    test_ignore_entry tree_env { toy_opt with debug := true } "/r/fifo".toList
      (get_raw_file_type tree_env "/r/fifo".toList) = .ok false ∧
    get_raw_file_type tree_env "/r/fifo".toList = FileType.Unsupported ∧
    walk_directory_impl squash1.impl tree_env { toy_opt with debug := true } "/r/fifo".toList
        "/r".toList (Run.new squash1.impl []) =
      .ok (0, ⟨squash1.Squash.new, { Stat.new with _stat_unsupported := ["/r/fifo".toList] },
        ["### /r/fifo unsupported file".toList]⟩) ∧
    get_raw_file_type tree_env "/r/bad".toList = FileType.Invalid ∧
    walk_directory_impl squash1.impl tree_env { toy_opt with debug := true } "/r/bad".toList
        "/r".toList (Run.new squash1.impl []) =
      .ok (0, ⟨squash1.Squash.new, { Stat.new with _stat_invalid := ["/r/bad".toList] },
        ["### /r/bad invalid file".toList]⟩) :=
  ⟨rfl, by decide, rfl, by decide, rfl⟩

/-- C17, as amended. Skipped entries are never hashed: when
`walk_directory_impl` classes an entry as ignored (the ignore policy, or a
symlink under `ignore_symlink`), as Unsupported or as Invalid (by its raw type,
or after a followed symlink), it returns with the path appended to that one
list; the `Squash`, the other six lists and the four byte counters are as they
were. The output gains nothing for an ignored entry; for an Unsupported or
Invalid entry it gains the `###` line of debug mode, which is one line with the
path and the type when `debug` is set and nothing when it is off. -/
theorem skipped_entries (S : SquashImpl) (env : Env) (o : Opt) (f inp : Str) (r : Run S) :
    (test_ignore_entry env o f (get_raw_file_type env f) = .ok true →
      walk_directory_impl S env o f inp r =
        .ok (0, ⟨r.squ, { r.sta with _stat_ignored := r.sta._stat_ignored ++ [f] }, r.out⟩)) ∧
    (test_ignore_entry env o f (get_raw_file_type env f) = .ok false →
      (get_raw_file_type env f = FileType.Symlink → o.ignore_symlink = true →
        walk_directory_impl S env o f inp r =
          .ok (0, ⟨r.squ, { r.sta with _stat_ignored := r.sta._stat_ignored ++ [f] }, r.out⟩)) ∧
      (get_raw_file_type env f = FileType.Unsupported →
        walk_directory_impl S env o f inp r =
          .ok (0, ⟨r.squ, { r.sta with _stat_unsupported := r.sta._stat_unsupported ++ [f] },
            r.out ++ debug_lines env o f FileType.Unsupported⟩)) ∧
      (get_raw_file_type env f = FileType.Invalid →
        walk_directory_impl S env o f inp r =
          .ok (0, ⟨r.squ, { r.sta with _stat_invalid := r.sta._stat_invalid ++ [f] },
            r.out ++ debug_lines env o f FileType.Invalid⟩)) ∧
      (get_raw_file_type env f = FileType.Symlink → o.ignore_symlink = false →
        o.follow_symlink = true →
        (canonicalize_path env f true = [] →
          walk_directory_impl S env o f inp r =
            .ok (0, ⟨r.squ, { r.sta with _stat_invalid := r.sta._stat_invalid ++ [f] },
              r.out ++ debug_lines env o f FileType.Invalid⟩)) ∧
        (canonicalize_path env f true ≠ [] →
          is_abspath env (canonicalize_path env f true) = true →
          (get_file_type env (canonicalize_path env f true) = FileType.Unsupported →
            walk_directory_impl S env o f inp r =
              .ok (0, ⟨r.squ, { r.sta with _stat_unsupported :=
                  r.sta._stat_unsupported ++ [canonicalize_path env f true] },
                r.out ++ debug_lines env o (canonicalize_path env f true)
                  FileType.Unsupported⟩)) ∧
          (get_file_type env (canonicalize_path env f true) = FileType.Invalid →
            walk_directory_impl S env o f inp r =
              .ok (0, ⟨r.squ, { r.sta with _stat_invalid :=
                  r.sta._stat_invalid ++ [canonicalize_path env f true] },
                r.out ++ debug_lines env o (canonicalize_path env f true)
                  FileType.Invalid⟩))))) ∧
    (o.debug = false → ∀ g t, debug_lines env o g t = []) ∧
    (o.debug = true → ∀ g t, debug_lines env o g t =
      ["### ".toList ++ (if o.abs then get_abspath env g true else g) ++ " ".toList ++
        get_file_type_string t]) := by
  refine ⟨?_, ?_, fun hd g t => debug_lines_off env o g t hd,
    fun hd g t => debug_lines_on env o g t hd⟩
  · intro hp
    simp [walk_directory_impl, hp, bind, Except.bind, pure, Except.pure,
      Stat.append_stat_ignored]
  · intro hp
    refine ⟨?_, ?_, ?_, ?_⟩
    · intro ht his
      rw [ht] at hp
      simp [walk_directory_impl, hp, ht, his, bind, Except.bind, pure, Except.pure,
        Stat.append_stat_ignored]
    · intro ht
      rw [ht] at hp
      simp [walk_directory_impl, walk_dispatch, print_unsupported, debug_first_eq, hp, ht, bind,
        Except.bind, pure, Except.pure, Stat.append_stat_unsupported]
    · intro ht
      rw [ht] at hp
      simp [walk_directory_impl, walk_dispatch, print_invalid, debug_first_eq, hp, ht, bind,
        Except.bind, pure, Except.pure, Stat.append_stat_invalid]
    · intro ht his hfs
      rw [ht] at hp
      refine ⟨?_, ?_⟩
      · intro hx
        simp [walk_directory_impl, print_invalid, debug_first_eq, hp, ht, his, hfs, hx, bind,
          Except.bind, pure, Except.pure, Stat.append_stat_invalid]
      · intro hx ha
        refine ⟨?_, ?_⟩
        · intro hr
          simp [walk_directory_impl, walk_dispatch, print_unsupported, debug_first_eq, hp, ht,
            his, hfs, hx, ha, hr, assert, bind, Except.bind, pure, Except.pure,
            Stat.append_stat_unsupported]
        · intro hr
          simp [walk_directory_impl, walk_dispatch, print_invalid, debug_first_eq, hp, ht,
            his, hfs, hx, ha, hr, assert, bind, Except.bind, pure, Except.pure,
            Stat.append_stat_invalid]

theorem skipped_entries_witness :
    test_ignore_entry tree_env toy_opt "/r/fifo".toList
      (get_raw_file_type tree_env "/r/fifo".toList) = .ok false ∧
    get_raw_file_type tree_env "/r/fifo".toList = FileType.Unsupported ∧
    walk_directory_impl squash1.impl tree_env toy_opt "/r/fifo".toList "/r".toList
        (Run.new squash1.impl []) =
      .ok (0, ⟨squash1.Squash.new, { Stat.new with _stat_unsupported := ["/r/fifo".toList] }, []⟩) :=
  ⟨rfl, by decide,
    ((skipped_entries squash1.impl tree_env toy_opt "/r/fifo".toList "/r".toList
      (Run.new squash1.impl [])).2.1 rfl).2.1 (by decide)⟩

theorem appended_one_directory (s : Stat) (p : Str) (n : Nat) :
    appended_one s ((s.append_stat_directory p).append_written_directory n) p :=
  ⟨0, fun j => by fin_cases j <;> rfl⟩

theorem appended_one_regular (s : Stat) (p : Str) (n : Nat) :
    appended_one s ((s.append_stat_regular p).append_written_regular n) p :=
  ⟨1, fun j => by fin_cases j <;> rfl⟩

theorem appended_one_device (s : Stat) (p : Str) (n : Nat) :
    appended_one s ((s.append_stat_device p).append_written_device n) p :=
  ⟨2, fun j => by fin_cases j <;> rfl⟩

theorem appended_one_symlink (s : Stat) (p : Str) (n : Nat) :
    appended_one s ((s.append_stat_symlink p).append_written_symlink n) p :=
  ⟨3, fun j => by fin_cases j <;> rfl⟩

theorem appended_one_unsupported (s : Stat) (p : Str) :
    appended_one s (s.append_stat_unsupported p) p :=
  ⟨4, fun j => by fin_cases j <;> rfl⟩

theorem appended_one_invalid (s : Stat) (p : Str) :
    appended_one s (s.append_stat_invalid p) p :=
  ⟨5, fun j => by fin_cases j <;> rfl⟩

theorem appended_one_ignored (s : Stat) (p : Str) :
    appended_one s (s.append_stat_ignored p) p :=
  ⟨6, fun j => by fin_cases j <;> rfl⟩

theorem not_appended_one_self (s : Stat) (p : Str) : ¬ appended_one s s p := by
  rintro ⟨k, hk⟩
  have h := hk k
  simp only [if_true] at h
  have hl := congrArg List.length h
  simp at hl

theorem print_symlink_recorded (S : SquashImpl) (env : Env) (o : Opt) (f inp : Str)
    (r r' : Run S) (h : print_symlink S env o f inp r = .ok r') :
    appended_one r.sta r'.sta f := by
  simp only [print_symlink, squash_or_print, debug_first_eq, bind, Except.bind, pure,
    Except.pure, Stat.append_stat_total, Stat.append_written_total] at h
  repeat' split at h
  all_goals first
    | (cases h; done)
    | (cases h; exact appended_one_symlink _ _ _)

theorem print_file_recorded (S : SquashImpl) (env : Env) (o : Opt) (f l : Str) (t : FileType)
    (inp : Str) (r r' : Run S) (h : print_file S env o f l t inp r = .ok r') :
    appended_one r.sta r'.sta f := by
  simp only [print_file, squash_or_print, debug_first_eq, panic_file_type, bind, Except.bind,
    pure, Except.pure, Stat.append_stat_total, Stat.append_written_total] at h
  repeat' split at h
  all_goals first
    | (cases h; done)
    | (cases h; exact appended_one_regular _ _ _)
    | (cases h; exact appended_one_device _ _ _)

theorem handle_directory_recorded (S : SquashImpl) (env : Env) (o : Opt) (f l inp : Str)
    (r r' : Run S) (h : handle_directory S env o f l inp r = .ok r') :
    (r'.sta = r.sta ∧ (f = inp ∨ o.squash = false)) ∨
      (appended_one r.sta r'.sta f ∧ f ≠ inp ∧ o.squash = true) := by
  simp only [handle_directory, debug_first_eq, bind, Except.bind, pure,
    Except.pure, Stat.append_stat_total, Stat.append_written_total] at h
  repeat' split at h
  all_goals first
    | (cases h; done)
    | (cases h; left; simp_all; done)
    | (cases h; right; exact ⟨appended_one_directory _ _ _, by simp_all, by simp_all⟩)

theorem print_unsupported_eq (S : SquashImpl) (env : Env) (o : Opt) (f : Str) (r : Run S) :
    print_unsupported S env o f r =
      .ok ⟨r.squ, r.sta.append_stat_unsupported f, r.out ++ debug_lines env o f FileType.Unsupported⟩ := by
  simp [print_unsupported, debug_first_eq, bind, Except.bind, pure, Except.pure]

theorem print_invalid_eq (S : SquashImpl) (env : Env) (o : Opt) (f : Str) (r : Run S) :
    print_invalid S env o f r =
      .ok ⟨r.squ, r.sta.append_stat_invalid f, r.out ++ debug_lines env o f FileType.Invalid⟩ := by
  simp [print_invalid, debug_first_eq, bind, Except.bind, pure, Except.pure]

theorem handle_directory_cases (S : SquashImpl) (env : Env) (o : Opt) (f l inp : Str)
    (r r' : Run S) (h : handle_directory S env o f l inp r = .ok r') :
    ((f = inp ∨ o.squash = false) → r'.sta = r.sta) ∧
    (¬ (f = inp ∨ o.squash = false) → appended_one r.sta r'.sta f) := by
  rcases handle_directory_recorded S env o f l inp r r' h with ⟨h1, h2⟩ | ⟨h1, h2, h3⟩
  · exact ⟨fun _ => h1, fun hn => absurd h2 hn⟩
  · refine ⟨fun hc => ?_, fun _ => h1⟩
    rcases hc with hc | hc
    · exact absurd hc h2
    · rw [h3] at hc; cases hc

theorem walk_dispatch_cases (S : SquashImpl) (env : Env) (o : Opt) (x l : Str) (t : FileType)
    (inp : Str) (r r' : Run S) (ret : Int)
    (h : walk_dispatch S env o x l t inp r = .ok (ret, r')) :
    ((t = FileType.Dir ∧ (x = inp ∨ o.squash = false)) → r'.sta = r.sta) ∧
    (¬ (t = FileType.Dir ∧ (x = inp ∨ o.squash = false)) → appended_one r.sta r'.sta x) := by
  cases t <;> simp only [walk_dispatch, panic_file_type, bind, Except.bind, pure, Except.pure,
    print_unsupported_eq, print_invalid_eq] at h
  · cases hd : handle_directory S env o x l inp r with
    | error _ => simp [hd] at h
    | ok r1 =>
      simp only [hd, Except.ok.injEq, Prod.mk.injEq] at h
      obtain ⟨-, rfl⟩ := h
      have := handle_directory_cases S env o x l inp r r1 hd
      exact ⟨fun hc => this.1 hc.2, fun hn => this.2 (fun hc => hn ⟨rfl, hc⟩)⟩
  · cases hd : print_file S env o x l FileType.Reg inp r with
    | error _ => simp [hd] at h
    | ok r1 =>
      simp only [hd, Except.ok.injEq, Prod.mk.injEq] at h
      obtain ⟨-, rfl⟩ := h
      exact ⟨fun hc => (by cases hc.1), fun _ => print_file_recorded S env o x l _ inp r r1 hd⟩
  · cases hd : print_file S env o x l FileType.Device inp r with
    | error _ => simp [hd] at h
    | ok r1 =>
      simp only [hd, Except.ok.injEq, Prod.mk.injEq] at h
      obtain ⟨-, rfl⟩ := h
      exact ⟨fun hc => (by cases hc.1), fun _ => print_file_recorded S env o x l _ inp r r1 hd⟩
  · cases h
  · cases h; exact ⟨fun hc => (by cases hc.1), fun _ => appended_one_unsupported _ _⟩
  · cases h; exact ⟨fun hc => (by cases hc.1), fun _ => appended_one_invalid _ _⟩

theorem test_ignore_entry_dir (env : Env) (o : Opt) (f : Str) (b : Bool)
    (h : test_ignore_entry env o f FileType.Dir = .ok b) : b = false := by
  simp only [test_ignore_entry, assert, bind, Except.bind, pure, Except.pure, if_true] at h
  split at h
  · cases h
  · cases h; rfl

/-- C18, as amended. A call of `walk_directory_impl` that returns appends the
path under which the entry is handled (for a followed symlink the path
`canonicalize_path` gives, otherwise the path of the entry) to exactly one of
the seven category lists of `Stat` and leaves the other six as they were,
except when the entry is handled as a directory and `squash` is off or the
directory is the input prefix itself: then, and only then, `Stat` is left as
it was, so the directory is recorded in no category. -/
theorem every_entry_recorded (S : SquashImpl) (env : Env) (o : Opt) (f inp : Str) (r r' : Run S)
    (ret : Int) (h : walk_directory_impl S env o f inp r = .ok (ret, r')) :
    (unrecorded env o f inp = true → r'.sta = r.sta) ∧
    (unrecorded env o f inp = false → appended_one r.sta r'.sta (entry_path env o f)) := by
  simp only [walk_directory_impl] at h
  cases hti : test_ignore_entry env o f (get_raw_file_type env f) with
  | error e => simp [hti, bind, Except.bind] at h
  | ok b =>
    have hpi : policy_ignored env o f = b := by simp [policy_ignored, hti]
    cases b with
    | true =>
      simp only [hti, bind, Except.bind, pure, Except.pure, if_true, Except.ok.injEq,
        Prod.mk.injEq] at h
      obtain ⟨-, rfl⟩ := h
      have hfo : followed env o f = false := by simp [followed, hpi]
      have hnd : get_raw_file_type env f ≠ FileType.Dir := by
        intro hd
        rw [hd] at hti
        have := test_ignore_entry_dir env o f true hti
        cases this
      have hu : unrecorded env o f inp = false := by
        simp [unrecorded, entry_type, hfo, hnd]
      refine ⟨fun hc => ?_, fun _ => ?_⟩
      · rw [hu] at hc; cases hc
      · simp only [entry_path, hfo, Bool.false_eq_true, if_false]
        exact appended_one_ignored _ _
    | false =>
      by_cases ht : get_raw_file_type env f = FileType.Symlink
      · have hti' := hti
        rw [ht] at hti'
        by_cases his : o.ignore_symlink = true
        · simp only [hti', ht, his, bind, Except.bind, pure, Except.pure, if_true,
            Except.ok.injEq, Prod.mk.injEq] at h
          simp at h
          obtain ⟨-, rfl⟩ := h
          have hfo : followed env o f = false := by simp [followed, his]
          have hu : unrecorded env o f inp = false := by
            simp [unrecorded, entry_type, hfo, ht]
          refine ⟨fun hc => ?_, fun _ => ?_⟩
          · rw [hu] at hc; cases hc
          · simp only [entry_path, hfo, Bool.false_eq_true, if_false]
            exact appended_one_ignored _ _
        · by_cases hfs : o.follow_symlink = true
          · by_cases hx : (canonicalize_path env f true).isEmpty = true
            · simp [hti', ht, his, hfs, hx, print_invalid_eq, bind, Except.bind, pure,
                Except.pure] at h
              obtain ⟨-, rfl⟩ := h
              have hfo : followed env o f = false := by simp [followed, hx]
              have hu : unrecorded env o f inp = false := by
                simp [unrecorded, entry_type, hfo, ht]
              refine ⟨fun hc => ?_, fun _ => ?_⟩
              · rw [hu] at hc; cases hc
              · simp only [entry_path, hfo, Bool.false_eq_true, if_false]
                exact appended_one_invalid _ _
            · have hfo : followed env o f = true := by
                simp [followed, hpi, ht, his, hfs, hx]
              cases ha : assert (is_abspath env (canonicalize_path env f true)) with
              | error e => simp [hti', ht, his, hfs, hx, ha, bind, Except.bind, pure, Except.pure] at h
              | ok u =>
                cases hs : assert (get_file_type env (canonicalize_path env f true)
                    != FileType.Symlink) with
                | error e =>
                  simp [hti', ht, his, hfs, hx, ha, hs, bind, Except.bind, pure, Except.pure] at h
                | ok u =>
                  simp [hti', ht, his, hfs, hx, ha, hs, bind, Except.bind, pure,
                    Except.pure] at h
                  have := walk_dispatch_cases S env o _ _ _ inp r r' ret h
                  simp only [unrecorded, entry_type, entry_path, hfo, if_true, Bool.and_eq_true,
                    Bool.or_eq_true, decide_eq_true_eq, Bool.not_eq_true', Bool.and_eq_false_iff,
                    Bool.or_eq_false_iff, decide_eq_false_iff_not, Bool.not_eq_false']
                  refine ⟨this.1, fun hn => this.2 ?_⟩
                  rintro ⟨h1, h2⟩
                  rcases hn with hn | ⟨hn1, hn2⟩
                  · exact hn h1
                  · rcases h2 with h2 | h2
                    · exact hn1 h2
                    · rw [hn2] at h2; cases h2
          · simp [hti', ht, his, hfs, bind, Except.bind, pure, Except.pure] at h
            cases hps : print_symlink S env o f inp r with
            | error _ => simp [hps] at h
            | ok r1 =>
              simp only [hps, Except.ok.injEq, Prod.mk.injEq] at h
              obtain ⟨-, rfl⟩ := h
              have hfo : followed env o f = false := by simp [followed, hfs]
              have hu : unrecorded env o f inp = false := by
                simp [unrecorded, entry_type, hfo, ht]
              refine ⟨fun hc => ?_, fun _ => ?_⟩
              · rw [hu] at hc; cases hc
              · simp only [entry_path, hfo, Bool.false_eq_true, if_false]
                exact print_symlink_recorded S env o f inp r r1 hps
      · simp [hti, ht, bind, Except.bind, pure, Except.pure] at h
        have hfo : followed env o f = false := by simp [followed, ht]
        have := walk_dispatch_cases S env o _ _ _ inp r r' ret h
        simp only [unrecorded, entry_type, entry_path, hfo, Bool.false_eq_true, if_false,
          Bool.and_eq_true, Bool.or_eq_true, decide_eq_true_eq, Bool.not_eq_true',
          Bool.and_eq_false_iff, Bool.or_eq_false_iff, decide_eq_false_iff_not,
          Bool.not_eq_false']
        refine ⟨this.1, fun hn => this.2 ?_⟩
        rintro ⟨h1, h2⟩
        rcases hn with hn | ⟨hn1, hn2⟩
        · exact hn h1
        · rcases h2 with h2 | h2
          · exact hn1 h2
          · rw [hn2] at h2; cases h2

/-- With `squash` off the directory `/r/d` is recorded in no category. -/
theorem every_entry_recorded_counterexample :
    (walk_directory_impl squash1.impl tree_env toy_opt "/r/d".toList "/r".toList
        (Run.new squash1.impl [])).toOption.map (fun p => p.2.sta) = some Stat.new ∧
    ¬ appended_one Stat.new Stat.new "/r/d".toList :=
  ⟨by decide, not_appended_one_self _ _⟩

theorem every_entry_recorded_witness :
    walk_directory_impl squash1.impl tree_env toy_opt "/r/a".toList "/r".toList
        (Run.new squash1.impl []) =
      .ok (0, ⟨squash1.Squash.new,
        { Stat.new with _stat_regular := ["/r/a".toList], _written_regular := 4 },
        [get_hex_sum (toy_evp toy_opt.hash_algo "/r/a".toList) ++ "  a".toList]⟩) ∧
    unrecorded tree_env toy_opt "/r/a".toList "/r".toList = false ∧
    appended_one Stat.new
      { Stat.new with _stat_regular := ["/r/a".toList], _written_regular := 4 } "/r/a".toList ∧
    walk_directory_impl squash1.impl tree_env toy_opt "/r/d".toList "/r".toList
        (Run.new squash1.impl []) = .ok (0, Run.new squash1.impl []) ∧
    unrecorded tree_env toy_opt "/r/d".toList "/r".toList = true ∧
    (Run.new squash1.impl []).sta = Stat.new :=
  ⟨rfl, by decide,
    (every_entry_recorded squash1.impl tree_env toy_opt "/r/a".toList "/r".toList
      (Run.new squash1.impl [])
      ⟨squash1.Squash.new,
        { Stat.new with _stat_regular := ["/r/a".toList], _written_regular := 4 },
        [get_hex_sum (toy_evp toy_opt.hash_algo "/r/a".toList) ++ "  a".toList]⟩ 0 rfl).2
      (by decide),
    rfl, by decide,
    (every_entry_recorded squash1.impl tree_env toy_opt "/r/d".toList "/r".toList
      (Run.new squash1.impl []) (Run.new squash1.impl []) 0 rfl).1 (by decide)⟩

/-- C14, the code at the failing input: with `follow_symlink`, the symlink
`/r/broken`, whose target status is `not_found`, is appended to the unsupported
list and not to the invalid list; `print_stat_unsupported` then fails its
assertion on this list, and so does `print_input` on `/r`. -/
theorem dangling_symlink_unsupported :
    get_raw_file_type tree_env "/r/broken".toList = FileType.Symlink ∧
    tree_env.status "/r/broken".toList = some file_type.not_found ∧
    (walk_directory_impl squash1.impl tree_env { toy_opt with follow_symlink := true }
        "/r/broken".toList "/r".toList (Run.new squash1.impl [])).toOption.map
        (fun p => (p.2.sta, p.2.out)) =
      some ({ Stat.new with _stat_unsupported := ["/r/broken".toList] }, []) ∧
    Stat.print_stat_unsupported { Stat.new with _stat_unsupported := ["/r/broken".toList] }
        tree_env { toy_opt with follow_symlink := true } "/r".toList [] =
      .error Fault.assertion ∧
    print_input squash1.impl tree_env { toy_opt with follow_symlink := true }
        (fun _ => ["/r/broken".toList]) "/r".toList [] = .error Fault.assertion :=
  ⟨by decide, by decide, by decide, rfl, rfl⟩

/-- C15, the code at the failing input: under the prefix `/`,
`handle_directory` fails the assertion of `assert_file_path`, and the call of
`trim_input_prefix` it would make cuts two chars: `sr/lib` for `/usr/lib`, and
an assertion failure for `/a/b`; `get_real_path` has the case of the prefix `/`
and gives `usr/lib`. Under the prefix `/r` the directory `/r/d` is hashed and
recorded by its relative path `d`. -/
theorem handle_directory_root_prefix :
    handle_directory squash1.impl tree_env { toy_opt with squash := true }
        "/usr/lib".toList [] ['/'] (Run.new squash1.impl []) = .error Fault.assertion ∧
    assert_file_path tree_env "/usr/lib".toList ['/'] = .error Fault.assertion ∧
    trim_input_prefix "/usr/lib".toList ['/'] = .ok "sr/lib".toList ∧
    trim_input_prefix "/usr".toList ['/'] = .ok "sr".toList ∧
    trim_input_prefix "/a/b".toList ['/'] = .error Fault.assertion ∧
    get_real_path tree_env toy_opt "/usr/lib".toList ['/'] = .ok "usr/lib".toList ∧
    handle_directory squash1.impl tree_env { toy_opt with squash := true }
        "/r/d".toList [] "/r".toList (Run.new squash1.impl []) =
      .ok ⟨squash1.Squash.update_buffer toy_evp squash1.Squash.new
          ("d".toList ++ toy_evp toy_opt.hash_algo "d".toList),
        { Stat.new with _stat_directory := ["/r/d".toList], _written_directory := 1 }, []⟩ :=
  ⟨rfl, rfl, rfl, rfl, rfl, rfl, rfl⟩

/-! ## Properties of `is_valid_hexsum` -/

theorem hex_char_iff (c : Char) :
    (!isdigit (tolower c.toNat) && !(tolower c.toNat ≥ 97 && tolower c.toNat ≤ 102)) = false ↔
      is_hex_char c = true := by
  have hc : c = Char.ofNat c.toNat := (Char.ofNat_toNat c).symm
  constructor
  · intro h
    have hr : (48 ≤ c.toNat ∧ c.toNat ≤ 57) ∨ (65 ≤ c.toNat ∧ c.toNat ≤ 70) ∨
        (97 ≤ c.toNat ∧ c.toNat ≤ 102) := by
      simp only [isdigit, tolower, Bool.and_eq_false_imp, Bool.not_eq_true', Bool.not_eq_false',
        Bool.and_eq_true, decide_eq_true_eq, decide_eq_false_iff_not, ge_iff_le] at h
      split at h <;> omega
    rw [hc]
    generalize c.toNat = n at hr
    rcases hr with ⟨h1, h2⟩ | ⟨h1, h2⟩ | ⟨h1, h2⟩ <;> interval_cases n <;> decide
  · intro h
    simp only [is_hex_char, List.contains_eq_any_beq, List.any_eq_true, beq_iff_eq] at h
    obtain ⟨x, hx, rfl⟩ := h
    simp only [String.toList, List.mem_cons, List.mem_singleton, List.not_mem_nil, or_false] at hx
    rcases hx with rfl | rfl | rfl | rfl | rfl | rfl | rfl | rfl | rfl | rfl | rfl | rfl | rfl | rfl |
      rfl | rfl | rfl | rfl | rfl | rfl | rfl | rfl <;> decide

theorem is_valid_hexsum_iff (s : Str) :
    ((is_valid_hexsum s).2 = true ↔
      32 ≤ (if starts_with s ['0', 'x'] then s.drop 2 else s).length ∧
      ∀ c ∈ (if starts_with s ['0', 'x'] then s.drop 2 else s), is_hex_char c = true) := by
  unfold is_valid_hexsum
  generalize (if starts_with s ['0', 'x'] then s.drop 2 else s) = t
  by_cases hl : t.length < 32
  · simp [hl]
  · by_cases ha : (t.any fun r => !isdigit (tolower r.toNat) &&
        !(tolower r.toNat ≥ 97 && tolower r.toNat ≤ 102)) = true
    · simp only [hl, ha, if_false, if_true]
      simp only [List.any_eq_true] at ha
      obtain ⟨c, hc, hbad⟩ := ha
      constructor
      · intro h; cases h
      · rintro ⟨-, hall⟩
        have := (hex_char_iff c).mpr (hall c hc)
        rw [this] at hbad; cases hbad
    · simp only [hl, ha, if_false]
      refine ⟨fun _ => ⟨by omega, fun c hc => ?_⟩, fun _ => by simp⟩
      apply (hex_char_iff c).mp
      cases hb : (!isdigit (tolower c.toNat) && !(tolower c.toNat ≥ 97 && tolower c.toNat ≤ 102))
      · rfl
      · exact absurd (List.any_eq_true.mpr ⟨c, hc, hb⟩) ha

/-- C20. The verification string: `is_valid_hexsum` reports valid exactly when,
after one leading `0x` is removed if present, the rest has at least 32 chars
and each is one of `0-9`, `a-f`, `A-F`; so 31 hex digits, `0x`, the empty string
and a string with another char are rejected, and 32 or more hex digits in
either case, with or without `0x`, are accepted. -/
theorem is_valid_hexsum_spec :
    (∀ s : Str, (is_valid_hexsum s).2 = true ↔
      32 ≤ (if starts_with s ['0', 'x'] then s.drop 2 else s).length ∧
      ∀ c ∈ (if starts_with s ['0', 'x'] then s.drop 2 else s), is_hex_char c = true) ∧
    (is_valid_hexsum (List.replicate 31 '0')).2 = false ∧
    (is_valid_hexsum ("0x".toList ++ List.replicate 31 '0')).2 = false ∧
    (is_valid_hexsum "0x".toList).2 = false ∧
    (is_valid_hexsum []).2 = false ∧
    (is_valid_hexsum (List.replicate 32 'g')).2 = false ∧
    (is_valid_hexsum (List.replicate 32 'A')).2 = true ∧
    (is_valid_hexsum ("0x".toList ++ List.replicate 32 'a')).2 = true ∧
    (is_valid_hexsum "0123456789ABCDEFabcdef0123456789ABCDEFabcdef".toList).2 = true :=
  ⟨is_valid_hexsum_iff, by decide, by decide, by decide, by decide, by decide, by decide,
    by decide, by decide⟩

/-! ## Properties of `get_hex_sum` -/

theorem hex_digit_table (n : Nat) (h : n < 16) :
    some (hex_digit n) = "0123456789abcdef".toList[n]? := by
  interval_cases n <;> rfl

theorem hex_digit_lower (n : Nat) (h : n < 16) : is_lower_hex_char (hex_digit n) = true := by
  interval_cases n <;> decide

theorem hex_digit_inj (a b : Nat) (ha : a < 16) (hb : b < 16)
    (h : hex_digit a = hex_digit b) : a = b := by
  interval_cases a <;> interval_cases b <;> first | rfl | (exfalso; revert h; decide)

theorem char_eq_of_toNat {c c' : Char} (h : c.toNat = c'.toNat) : c = c' := by
  rw [← Char.ofNat_toNat c, ← Char.ofNat_toNat c', h]

theorem get_hex_sum_lower (d : Str) : ∀ c ∈ get_hex_sum d, is_lower_hex_char c = true := by
  induction d with
  | nil => intro c hc; simp [get_hex_sum] at hc
  | cons x d ih =>
    intro c hc
    simp only [get_hex_sum, List.mem_cons] at hc
    rcases hc with rfl | rfl | hc
    · exact hex_digit_lower _ (by omega)
    · exact hex_digit_lower _ (by omega)
    · exact ih c hc

theorem get_hex_sum_digits (d : Str) (i : Nat) (x : Char) (h : d[i]? = some x) :
    (get_hex_sum d)[2 * i]? = some (hex_digit ((x.toNat % 256) / 16)) ∧
    (get_hex_sum d)[2 * i + 1]? = some (hex_digit ((x.toNat % 256) % 16)) := by
  induction d generalizing i with
  | nil => simp at h
  | cons y d ih =>
    cases i with
    | zero =>
      simp only [List.getElem?_cons_zero, Option.some.injEq] at h
      subst h
      simp [get_hex_sum]
    | succ i =>
      simp only [List.getElem?_cons_succ] at h
      have := ih i h
      have e1 : 2 * (i + 1) = (2 * i) + 1 + 1 := by ring
      rw [e1]
      simpa [get_hex_sum] using this

theorem get_hex_sum_inj (d d' : Str) (hd : is_bytes d) (hd' : is_bytes d')
    (h : get_hex_sum d = get_hex_sum d') : d = d' := by
  induction d generalizing d' with
  | nil =>
    cases d' with
    | nil => rfl
    | cons y d' => simp [get_hex_sum] at h
  | cons x d ih =>
    cases d' with
    | nil => simp [get_hex_sum] at h
    | cons y d' =>
      simp only [get_hex_sum, List.cons.injEq] at h
      obtain ⟨h1, h2, h3⟩ := h
      have hx : x.toNat < 256 := hd x (List.mem_cons_self _ _)
      have hy : y.toNat < 256 := hd' y (List.mem_cons_self _ _)
      have e1 := hex_digit_inj _ _ (by omega) (by omega) h1
      have e2 := hex_digit_inj _ _ (by omega) (by omega) h2
      have hxy : x = y := char_eq_of_toNat (by omega)
      rw [hxy, ih d' (fun c hc => hd c (List.mem_cons_of_mem _ hc))
        (fun c hc => hd' c (List.mem_cons_of_mem _ hc)) h3]

/-- C21. Hex encoding: for every byte vector `d`, `get_hex_sum d` has exactly
`2 * d.length` chars, all in `0-9a-f`, and the chars `2 * i` and `2 * i + 1` are
the high and the low hexadecimal digit of the byte `i`, which is the value of the
char masked with `0xff` (a negative `char` counts as its unsigned value), so a
byte below 16 is padded with `0`; hence `get_hex_sum` is injective on byte
vectors. -/
theorem get_hex_sum_spec (d : Str) :
    (get_hex_sum d).length = 2 * d.length ∧
    (∀ c ∈ get_hex_sum d, is_lower_hex_char c = true) ∧
    (∀ i x, d[i]? = some x →
      (get_hex_sum d)[2 * i]? = "0123456789abcdef".toList[(x.toNat % 256) / 16]? ∧
      (get_hex_sum d)[2 * i + 1]? = "0123456789abcdef".toList[(x.toNat % 256) % 16]?) ∧
    (∀ d', is_bytes d → is_bytes d' → get_hex_sum d = get_hex_sum d' → d = d') := by
  refine ⟨get_hex_sum_length d, get_hex_sum_lower d, ?_, fun d' => get_hex_sum_inj d d'⟩
  intro i x h
  obtain ⟨h1, h2⟩ := get_hex_sum_digits d i x h
  rw [h1, h2]
  exact ⟨hex_digit_table _ (by omega), hex_digit_table _ (by omega)⟩

theorem get_hex_sum_spec_witness :
    is_bytes [Char.ofNat 0, Char.ofNat 255, 'a'] ∧
    get_hex_sum [Char.ofNat 0, Char.ofNat 255, 'a'] = "00ff61".toList ∧
    (get_hex_sum [Char.ofNat 0, Char.ofNat 255, 'a']).length = 2 * 3 :=
  ⟨by simp [is_bytes], by decide, (get_hex_sum_spec [Char.ofNat 0, Char.ofNat 255, 'a']).1⟩

/-! ## Properties of the file type -/

/-- C22. Classification of a missing path: when the status query reports
`not_found` without raising, `get_raw_file_type` and `get_file_type` return
`Unsupported`; `get_mode_type` maps `directory` to `Dir`, `regular` to `Reg`,
`block` and `character` to `Device`, `symlink` to `Symlink` and every other
kind to `Unsupported`, never to `Invalid`; and the two functions return
`Invalid` exactly when the status query raises. -/
theorem file_type_classification :
    (∀ env f, env.symlink_status f = some file_type.not_found →
      get_raw_file_type env f = FileType.Unsupported) ∧
    (∀ env f, env.status f = some file_type.not_found →
      get_file_type env f = FileType.Unsupported) ∧
    get_mode_type file_type.directory = FileType.Dir ∧
    get_mode_type file_type.regular = FileType.Reg ∧
    get_mode_type file_type.block = FileType.Device ∧
    get_mode_type file_type.character = FileType.Device ∧
    get_mode_type file_type.symlink = FileType.Symlink ∧
    (∀ t, t ≠ file_type.directory → t ≠ file_type.regular → t ≠ file_type.block →
      t ≠ file_type.character → t ≠ file_type.symlink →
      get_mode_type t = FileType.Unsupported) ∧
    (∀ t, get_mode_type t ≠ FileType.Invalid) ∧
    (∀ env f, get_raw_file_type env f = FileType.Invalid ↔ env.symlink_status f = none) ∧
    (∀ env f, get_file_type env f = FileType.Invalid ↔ env.status f = none) := by
  refine ⟨?_, ?_, rfl, rfl, rfl, rfl, rfl, ?_, ?_, ?_, ?_⟩
  · intro env f h; simp [get_raw_file_type, h, get_mode_type]
  · intro env f h; simp [get_file_type, h, get_mode_type]
  · intro t; cases t <;> simp [get_mode_type]
  · intro t; cases t <;> simp [get_mode_type]
  · intro env f
    unfold get_raw_file_type
    cases h : env.symlink_status f with
    | none => simp
    | some t => cases t <;> simp [get_mode_type]
  · intro env f
    unfold get_file_type
    cases h : env.status f with
    | none => simp
    | some t => cases t <;> simp [get_mode_type]

/-! ## Properties of `trim_end` -/

theorem ends_with_slash_iff (f : Str) :
    ends_with f ['/'] = true ↔ ∃ g, f = g ++ ['/'] := by
  unfold ends_with
  rw [List.isSuffixOf_iff_suffix]
  constructor
  · rintro ⟨g, rfl⟩; exact ⟨g, rfl⟩
  · rintro ⟨g, rfl⟩; exact ⟨g, rfl⟩

theorem trim_end_loop_spec (n : Nat) (f : Str) (hn : f.length ≤ n) :
    (∃ k, f = trim_end_loop n f ++ List.replicate k '/') ∧
    ¬ ((trim_end_loop n f).length > 1 ∧ ends_with (trim_end_loop n f) ['/'] = true) := by
  induction n generalizing f with
  | zero =>
    have : f = [] := List.length_eq_zero.mp (Nat.le_zero.mp hn)
    subst this
    exact ⟨⟨0, rfl⟩, by simp [trim_end_loop]⟩
  | succ n ih =>
    by_cases hc : f.length > 1 ∧ ends_with f ['/'] = true
    · obtain ⟨g, rfl⟩ := (ends_with_slash_iff f).mp hc.2
      have hg : (g ++ ['/']).take ((g ++ ['/']).length - 1) = g := by simp
      have hstep : trim_end_loop (n + 1) (g ++ ['/']) = trim_end_loop n g := by
        rw [trim_end_loop, if_pos hc, hg]
      have hlen : g.length ≤ n := by
        simp only [List.length_append, List.length_singleton] at hn; omega
      obtain ⟨⟨k, hk⟩, h2⟩ := ih g hlen
      rw [hstep]
      refine ⟨⟨k + 1, ?_⟩, h2⟩
      rw [List.replicate_succ', ← List.append_assoc, ← hk]
    · have hstep : trim_end_loop (n + 1) f = f := by
        rw [trim_end_loop, if_neg hc]
      rw [hstep]
      exact ⟨⟨0, by simp⟩, hc⟩

theorem trim_end_loop_more (n : Nat) (f : Str) (hn : f.length ≤ n) :
    trim_end_loop n f = trim_end f := by
  unfold trim_end
  induction n generalizing f with
  | zero =>
    have : f = [] := List.length_eq_zero.mp (Nat.le_zero.mp hn)
    subst this; rfl
  | succ n ih =>
    by_cases hc : f.length > 1 ∧ ends_with f ['/'] = true
    · obtain ⟨g, rfl⟩ := (ends_with_slash_iff f).mp hc.2
      have hg : (g ++ ['/']).take ((g ++ ['/']).length - 1) = g := by simp
      have hlen : g.length ≤ n := by
        simp only [List.length_append, List.length_singleton] at hn; omega
      have e1 : trim_end_loop (n + 1) (g ++ ['/']) = trim_end_loop n g := by
        rw [trim_end_loop, if_pos hc, hg]
      have e2 : trim_end_loop (g ++ ['/']).length (g ++ ['/']) = trim_end_loop g.length g := by
        have : (g ++ ['/']).length = g.length + 1 := by simp
        rw [this, trim_end_loop, if_pos hc, hg]
      rw [e1, e2, ih g hlen]
    · have e1 : trim_end_loop (n + 1) f = f := by rw [trim_end_loop, if_neg hc]
      have e2 : trim_end_loop f.length f = f := by
        cases hl : f.length with
        | zero => rfl
        | succ m => rw [trim_end_loop, if_neg hc]
      rw [e1, e2]

theorem trim_end_slash_only (p : Str) (h : ends_with (trim_end p) ['/'] = true) :
    trim_end p = ['/'] := by
  have h2 := (trim_end_loop_spec p.length p (Nat.le_refl _)).2
  change ¬ ((trim_end p).length > 1 ∧ ends_with (trim_end p) ['/'] = true) at h2
  obtain ⟨g, hg⟩ := (ends_with_slash_iff _).mp h
  have hl : ¬ (trim_end p).length > 1 := fun hl => h2 ⟨hl, h⟩
  rw [hg] at hl ⊢
  cases g with
  | nil => rfl
  | cons a g => simp at hl

/-- C23. No trailing slash: `trim_end` terminates (its loop condition is false
at the result, and the loop needs no more steps than the length of the input),
its input is the result followed by `/` chars only, and the result has length
at most 1 or does not end with `/`; so a string returned by
`canonicalize_path`, `get_abspath`, `get_dirpath` or `get_basename` ends with
`/` only when it is `/`; `/////` gives `/` and `/root/` gives `/root`. -/
theorem trim_end_spec (env : Env) (p f : Str) (lexical : Bool) :
    (∃ k, p = trim_end p ++ List.replicate k '/') ∧
    ((trim_end p).length ≤ 1 ∨ ends_with (trim_end p) ['/'] = false) ∧
    (∀ n, p.length ≤ n → trim_end_loop n p = trim_end p) ∧
    (ends_with (canonicalize_path env f lexical) ['/'] = true →
      canonicalize_path env f lexical = ['/']) ∧
    (ends_with (get_abspath env f lexical) ['/'] = true → get_abspath env f lexical = ['/']) ∧
    (ends_with (get_dirpath env f lexical) ['/'] = true → get_dirpath env f lexical = ['/']) ∧
    (ends_with (get_basename env f lexical) ['/'] = true → get_basename env f lexical = ['/']) ∧
    trim_end "/////".toList = "/".toList ∧
    trim_end "/root/".toList = "/root".toList := by
  refine ⟨(trim_end_loop_spec p.length p (Nat.le_refl _)).1, ?_, fun n hn => trim_end_loop_more n p hn,
    trim_end_slash_only _, trim_end_slash_only _, trim_end_slash_only _, trim_end_slash_only _,
    by decide, by decide⟩
  have h2 := (trim_end_loop_spec p.length p (Nat.le_refl _)).2
  change ¬ ((trim_end p).length > 1 ∧ ends_with (trim_end p) ['/'] = true) at h2
  by_cases hl : (trim_end p).length ≤ 1
  · exact Or.inl hl
  · right
    cases he : ends_with (trim_end p) ['/'] with
    | false => rfl
    | true => exact absurd ⟨by omega, he⟩ h2

/-! ## Properties of `get_num_format_string` -/

/-- C26. Count formatting: `get_num_format_string n msg` returns `???` for an
empty `msg`; otherwise `n`, a blank and `msg` when `n` is 0 or 1; otherwise, for
`n` above 1, `n` and ` directories` when `msg` is `directory`, and `n`, a blank,
`msg` and `s` for every other `msg`; it always returns, so the assertion on the
plural of `directory` never fails. -/
theorem get_num_format_string_spec (n : Nat) (msg : Str) :
    (msg = [] → get_num_format_string n msg = .ok "???".toList) ∧
    (msg ≠ [] → n ≤ 1 →
      get_num_format_string n msg = .ok ((Nat.repr n).toList ++ " ".toList ++ msg)) ∧
    (n > 1 → msg = "directory".toList →
      get_num_format_string n msg = .ok ((Nat.repr n).toList ++ " directories".toList)) ∧
    (msg ≠ [] → n > 1 → msg ≠ "directory".toList →
      get_num_format_string n msg =
        .ok ((Nat.repr n).toList ++ " ".toList ++ msg ++ "s".toList)) ∧
    (∃ s, get_num_format_string n msg = .ok s) := by
  have hdir : ∀ (l : Str), (l ++ " directory".toList).take
      ((l ++ " directory".toList).length - 1) ++ "ies".toList = l ++ " directories".toList := by
    intro l
    have : (l ++ " directory".toList) = (l ++ " director".toList) ++ ['y'] := by simp
    rw [this, List.length_append, List.length_singleton, Nat.add_sub_cancel,
      List.take_left']
    · simp
    · rfl
  have hends : ∀ (l : Str), ends_with (l ++ " directories".toList) "directories".toList = true := by
    intro l
    unfold ends_with
    rw [List.isSuffixOf_iff_suffix]
    exact ⟨l ++ [' '], by simp⟩
  have h1 : msg = [] → get_num_format_string n msg = .ok "???".toList := by
    intro h; subst h; rfl
  have h2 : msg ≠ [] → n ≤ 1 →
      get_num_format_string n msg = .ok ((Nat.repr n).toList ++ " ".toList ++ msg) := by
    intro hm hn
    have hne : msg.isEmpty = false := by cases msg <;> simp_all
    have : ¬ n > 1 := by omega
    simp [get_num_format_string, hne, this, pure, Except.pure, bind, Except.bind]
  have h3 : n > 1 → msg = "directory".toList →
      get_num_format_string n msg = .ok ((Nat.repr n).toList ++ " directories".toList) := by
    intro hn hm
    subst hm
    have e : ((Nat.repr n).toList ++ " ".toList ++ "directory".toList).take
        (((Nat.repr n).toList ++ " ".toList ++ "directory".toList).length - 1) ++ "ies".toList
        = (Nat.repr n).toList ++ " directories".toList := by
      rw [List.append_assoc]; exact hdir _
    have hne : ("directory".toList).isEmpty = false := rfl
    simp only [get_num_format_string, get_file_type_string, hne, hn, if_true, e,
      hends, assert, pure, Except.pure, bind, Except.bind]
    rfl
  have h4 : msg ≠ [] → n > 1 → msg ≠ "directory".toList →
      get_num_format_string n msg =
        .ok ((Nat.repr n).toList ++ " ".toList ++ msg ++ "s".toList) := by
    intro hm hn hd
    have hne : msg.isEmpty = false := by cases msg <;> simp_all
    have hd' : ¬ msg = get_file_type_string FileType.Dir := hd
    simp [get_num_format_string, hne, hn, hd', pure, Except.pure, bind, Except.bind]
  refine ⟨h1, h2, h3, h4, ?_⟩
  by_cases hm : msg = []
  · exact ⟨_, h1 hm⟩
  · by_cases hn : n ≤ 1
    · exact ⟨_, h2 hm hn⟩
    · by_cases hd : msg = "directory".toList
      · exact ⟨_, h3 (by omega) hd⟩
      · exact ⟨_, h4 hm (by omega) hd⟩

/-! ## Properties of `Stat` -/

theorem num_stat_eq (s : Stat) (k : Fin 7) : num_stat s k = (stat_list s k).length % 2 ^ 64 := by
  fin_cases k <;> rfl

theorem stat_list_call (s : Stat) (c : StatCall) (k : Fin 7) :
    stat_list (s.call c) k = stat_list s k ++ appended_paths [c] k := by
  cases c with
  | stat_total => simp [Stat.call, appended_paths, Stat.append_stat_total]
  | written_total n => simp [Stat.call, appended_paths, Stat.append_written_total]
  | stat j f =>
    fin_cases j <;> fin_cases k <;>
      simp [Stat.call, appended_paths, stat_list, Stat.append_stat_directory,
        Stat.append_stat_regular, Stat.append_stat_device, Stat.append_stat_symlink,
        Stat.append_stat_unsupported, Stat.append_stat_invalid, Stat.append_stat_ignored]
  | written j n =>
    fin_cases j <;> fin_cases k <;>
      simp [Stat.call, appended_paths, stat_list, Stat.append_written_directory,
        Stat.append_written_regular, Stat.append_written_device, Stat.append_written_symlink]

theorem appended_paths_cons (c : StatCall) (cs : List StatCall) (k : Fin 7) :
    appended_paths (c :: cs) k = appended_paths [c] k ++ appended_paths cs k := by
  simp only [appended_paths, List.filterMap_cons, List.filterMap_nil]
  split <;> simp

theorem stat_list_calls (s : Stat) (cs : List StatCall) (k : Fin 7) :
    stat_list (s.calls cs) k = stat_list s k ++ appended_paths cs k := by
  induction cs generalizing s with
  | nil => simp [Stat.calls, appended_paths]
  | cons c cs ih =>
    have : s.calls (c :: cs) = (s.call c).calls cs := rfl
    rw [this, ih, stat_list_call, List.append_assoc, ← appended_paths_cons]

theorem appended_paths_hashed_le (cs : List StatCall) :
    (appended_paths cs 0).length + (appended_paths cs 1).length +
      (appended_paths cs 2).length + (appended_paths cs 3).length ≤ cs.length := by
  induction cs with
  | nil => simp [appended_paths]
  | cons c cs ih =>
    rw [appended_paths_cons c cs 0, appended_paths_cons c cs 1, appended_paths_cons c cs 2,
      appended_paths_cons c cs 3]
    simp only [List.length_append, List.length_cons]
    have : (appended_paths [c] 0).length + (appended_paths [c] 1).length +
        (appended_paths [c] 2).length + (appended_paths [c] 3).length ≤ 1 := by
      cases c with
      | stat_total => simp [appended_paths]
      | written_total n => simp [appended_paths]
      | written j n => simp [appended_paths]
      | stat j f => fin_cases j <;> simp [appended_paths]
    omega

theorem appended_paths_le (cs : List StatCall) (k : Fin 7) :
    (appended_paths cs k).length ≤ cs.length :=
  List.length_filterMap_le _ _

theorem num_written_lt_call (s : Stat) (c : StatCall) (h : ∀ k, num_written s k < 2 ^ 64) :
    ∀ k, num_written (s.call c) k < 2 ^ 64 := by
  intro k
  have h0 := h 0; have h1 := h 1; have h2 := h 2; have h3 := h 3
  simp only [num_written, Stat.num_written_directory, Stat.num_written_regular,
    Stat.num_written_device, Stat.num_written_symlink] at h0 h1 h2 h3
  cases c with
  | stat_total => exact h k
  | written_total n => exact h k
  | stat j f =>
    have e : num_written (s.call (.stat j f)) k = num_written s k := by
      fin_cases j <;> fin_cases k <;> rfl
    rw [e]; exact h k
  | written j n =>
    fin_cases j <;> fin_cases k <;>
      simp only [Stat.call, num_written, Stat.num_written_directory, Stat.num_written_regular,
        Stat.num_written_device, Stat.num_written_symlink, Stat.append_written_directory,
        Stat.append_written_regular, Stat.append_written_device, Stat.append_written_symlink] <;>
      first | exact h0 | exact h1 | exact h2 | exact h3 | exact Nat.mod_lt _ (by norm_num)

theorem num_written_call (s : Stat) (c : StatCall) (k : Fin 4)
    (h : ∀ k, num_written s k < 2 ^ 64) :
    num_written (s.call c) k = (num_written s k + (appended_amounts [c] k).sum) % 2 ^ 64 := by
  have hk := h k
  cases c with
  | stat_total => simpa [Stat.call, appended_amounts, Stat.append_stat_total] using
      (Nat.mod_eq_of_lt hk).symm
  | written_total n => simpa [Stat.call, appended_amounts, Stat.append_written_total] using
      (Nat.mod_eq_of_lt hk).symm
  | stat j f =>
    have e : num_written (s.call (.stat j f)) k = num_written s k := by
      fin_cases j <;> fin_cases k <;> rfl
    rw [e]
    simpa [appended_amounts] using (Nat.mod_eq_of_lt hk).symm
  | written j n =>
    fin_cases j <;> fin_cases k <;>
      first
      | (simp [Stat.call, appended_amounts, num_written, Stat.num_written_directory,
          Stat.num_written_regular, Stat.num_written_device, Stat.num_written_symlink,
          Stat.append_written_directory, Stat.append_written_regular,
          Stat.append_written_device, Stat.append_written_symlink]; done)
      | (simpa [Stat.call, appended_amounts, num_written, Stat.num_written_directory,
          Stat.num_written_regular, Stat.num_written_device, Stat.num_written_symlink,
          Stat.append_written_directory, Stat.append_written_regular,
          Stat.append_written_device, Stat.append_written_symlink] using
          (Nat.mod_eq_of_lt hk).symm)

theorem appended_amounts_cons (c : StatCall) (cs : List StatCall) (k : Fin 4) :
    appended_amounts (c :: cs) k = appended_amounts [c] k ++ appended_amounts cs k := by
  simp only [appended_amounts, List.filterMap_cons, List.filterMap_nil]
  split <;> simp

theorem num_written_calls (s : Stat) (cs : List StatCall) (k : Fin 4)
    (h : ∀ k, num_written s k < 2 ^ 64) :
    num_written (s.calls cs) k = (num_written s k + (appended_amounts cs k).sum) % 2 ^ 64 := by
  induction cs generalizing s with
  | nil => simpa [Stat.calls, appended_amounts] using (Nat.mod_eq_of_lt (h k)).symm
  | cons c cs ih =>
    have : s.calls (c :: cs) = (s.call c).calls cs := rfl
    rw [this, ih _ (num_written_lt_call s c h), num_written_call s c k h,
      appended_amounts_cons c cs k, List.sum_append]
    omega


/-- C24. Stat entry counts: a `Stat` that is new or fresh from `init_stat`
reports 0 for every category and for the total; after any sequence of
`append_*` calls on it (fewer than `2 ^ 64` calls), each category list holds the
paths appended to that category, in call order, each `num_stat_<category>` is
the number of these appends, and `num_stat_total` is the sum of the directory,
regular, device and symlink counts; one `append_stat_<category>` call extends
the list of its category by the path and leaves the other six lists as they
were, and the other calls leave all seven lists as they were. -/
theorem num_stat_counts (s0 : Stat) (cs : List StatCall)
    (hs : s0 = Stat.new ∨ ∃ s, s0 = Stat.init_stat s) (hlen : cs.length < 2 ^ 64) :
    (∀ k, num_stat s0 k = 0) ∧ s0.num_stat_total = 0 ∧
    (∀ k, stat_list (s0.calls cs) k = appended_paths cs k) ∧
    (∀ k, num_stat (s0.calls cs) k = (appended_paths cs k).length) ∧
    (s0.calls cs).num_stat_total =
      (appended_paths cs 0).length + (appended_paths cs 1).length +
        (appended_paths cs 2).length + (appended_paths cs 3).length ∧
    (∀ (s : Stat) (j k : Fin 7) (f : Str),
      stat_list (s.call (.stat j f)) k = if k = j then stat_list s k ++ [f] else stat_list s k) ∧
    (∀ (s : Stat) (c : StatCall) (k : Fin 7), (∀ j f, c ≠ .stat j f) →
      stat_list (s.call c) k = stat_list s k) := by
  have h0 : s0 = Stat.new := by
    rcases hs with h | ⟨s, h⟩
    · exact h
    · exact h
  subst h0
  have hl : ∀ k, stat_list (Stat.new.calls cs) k = appended_paths cs k := by
    intro k
    rw [stat_list_calls]
    fin_cases k <;> rfl
  have hn : ∀ k, num_stat (Stat.new.calls cs) k = (appended_paths cs k).length := by
    intro k
    rw [num_stat_eq, hl]
    exact Nat.mod_eq_of_lt (lt_of_le_of_lt (appended_paths_le cs k) hlen)
  refine ⟨fun k => by fin_cases k <;> rfl, rfl, hl, hn, ?_, ?_, ?_⟩
  · have e0 := hn 0; have e1 := hn 1; have e2 := hn 2; have e3 := hn 3
    simp only [num_stat] at e0 e1 e2 e3
    rw [Stat.num_stat_total, e0, e1, e2, e3]
    exact Nat.mod_eq_of_lt (lt_of_le_of_lt (appended_paths_hashed_le cs) hlen)
  · intro s j k f
    rw [stat_list_call]
    by_cases h : k = j
    · subst h; simp [appended_paths]
    · have h' : ¬ j = k := fun e => h e.symm
      simp [appended_paths, h, h']
  · intro s c k hc
    rw [stat_list_call]
    cases c with
    | stat j f => exact absurd rfl (hc j f)
    | stat_total => simp [appended_paths]
    | written_total n => simp [appended_paths]
    | written j n => simp [appended_paths]

theorem num_stat_counts_witness :
    (3 : Nat) < 2 ^ 64 ∧
    num_stat (Stat.new.calls [.stat 1 "a".toList, .stat 0 "d".toList, .stat 1 "b".toList]) 1 = 2 ∧
    stat_list (Stat.new.calls [.stat 1 "a".toList, .stat 0 "d".toList, .stat 1 "b".toList]) 1 =
      ["a".toList, "b".toList] :=
  ⟨by norm_num,
    (num_stat_counts Stat.new [.stat 1 "a".toList, .stat 0 "d".toList, .stat 1 "b".toList]
      (Or.inl rfl) (by simp)).2.2.2.1 1,
    (num_stat_counts Stat.new [.stat 1 "a".toList, .stat 0 "d".toList, .stat 1 "b".toList]
      (Or.inl rfl) (by simp)).2.2.1 1⟩

/-- C25, the counterexample: after `append_written_regular (2 ^ 64 - 1)` and
`append_written_directory 1` on a new `Stat` the four counters are `1`,
`2 ^ 64 - 1`, `0` and `0`, whose sum is `2 ^ 64`, and `num_written_total`
returns `0`. -/
theorem num_written_total_counterexample :
    ((Stat.new.append_written_regular (2 ^ 64 - 1)).append_written_directory 1).num_written_regular
      = 2 ^ 64 - 1 ∧
    ((Stat.new.append_written_regular (2 ^ 64 - 1)).append_written_directory 1).num_written_directory
      = 1 ∧
    ((Stat.new.append_written_regular (2 ^ 64 - 1)).append_written_directory 1).num_written_device
      = 0 ∧
    ((Stat.new.append_written_regular (2 ^ 64 - 1)).append_written_directory 1).num_written_symlink
      = 0 ∧
    ((Stat.new.append_written_regular (2 ^ 64 - 1)).append_written_directory 1).num_written_total
      = 0 ∧
    ((Stat.new.append_written_regular (2 ^ 64 - 1)).append_written_directory 1).num_written_total
      ≠ 1 + (2 ^ 64 - 1) + 0 + 0 := by
  refine ⟨?_, ?_, ?_, ?_, ?_, ?_⟩ <;> decide

/-- C25, amended. Stat byte counters: on a `Stat` that is new or fresh from
`init_stat` the four counters and the total are 0; after any sequence of
`append_*` calls on it, each `num_written_<category>` is the sum of the amounts
appended to that category modulo `2 ^ 64`, and `num_written_total` is the sum of
the four counters modulo `2 ^ 64`, which is the sum of all the amounts modulo
`2 ^ 64`, and is the sum of the four counters when the amounts add up to less
than `2 ^ 64`; 9999999999 followed by 1 gives 10000000000. -/
theorem num_written_sums (s0 : Stat) (cs : List StatCall)
    (hs : s0 = Stat.new ∨ ∃ s, s0 = Stat.init_stat s) :
    (∀ k, num_written s0 k = 0) ∧ s0.num_written_total = 0 ∧
    (∀ k, num_written (s0.calls cs) k = (appended_amounts cs k).sum % 2 ^ 64) ∧
    (s0.calls cs).num_written_total =
      ((s0.calls cs).num_written_directory + (s0.calls cs).num_written_regular +
        (s0.calls cs).num_written_device + (s0.calls cs).num_written_symlink) % 2 ^ 64 ∧
    (s0.calls cs).num_written_total =
      ((appended_amounts cs 0).sum + (appended_amounts cs 1).sum +
        (appended_amounts cs 2).sum + (appended_amounts cs 3).sum) % 2 ^ 64 ∧
    ((appended_amounts cs 0).sum + (appended_amounts cs 1).sum +
        (appended_amounts cs 2).sum + (appended_amounts cs 3).sum < 2 ^ 64 →
      (s0.calls cs).num_written_total =
        (s0.calls cs).num_written_directory + (s0.calls cs).num_written_regular +
          (s0.calls cs).num_written_device + (s0.calls cs).num_written_symlink) ∧
    ((Stat.new.append_written_regular 9999999999).append_written_regular 1).num_written_regular =
      10000000000 := by
  have h0 : s0 = Stat.new := by
    rcases hs with h | ⟨s, h⟩
    · exact h
    · exact h
  subst h0
  have hz : ∀ k, num_written Stat.new k = 0 := fun k => by fin_cases k <;> rfl
  have hlt : ∀ k, num_written Stat.new k < 2 ^ 64 := fun k => by rw [hz k]; norm_num
  have hw : ∀ k, num_written (Stat.new.calls cs) k = (appended_amounts cs k).sum % 2 ^ 64 := by
    intro k
    rw [num_written_calls _ _ _ hlt, hz k, Nat.zero_add]
  have e0 := hw 0; have e1 := hw 1; have e2 := hw 2; have e3 := hw 3
  simp only [num_written] at e0 e1 e2 e3
  refine ⟨hz, rfl, hw, rfl, ?_, ?_, by decide⟩
  · rw [Stat.num_written_total, e0, e1, e2, e3]
    omega
  · intro h
    rw [Stat.num_written_total, e0, e1, e2, e3]
    omega

theorem num_written_sums_witness :
    num_written (Stat.new.calls [.written 1 9999999999, .stat 1 "a".toList, .written 1 1]) 1 =
      10000000000 :=
  (num_written_sums Stat.new [.written 1 9999999999, .stat 1 "a".toList, .written 1 1]
    (Or.inl rfl)).2.2.1 1

/-! ## Relocation of the ignore policy -/

theorem test_ignore_entry_abs_path (env : Env) (o : Opt) (segs : List Str) (t : FileType)
    (hseg : ∀ s ∈ segs, is_segment s)
    (hnorm : env.lexically_normal (abs_path segs) = abs_path segs) :
    test_ignore_entry env o (abs_path segs) t = .ok
      (if t = FileType.Dir then false
       else (o.ignore_dot_dir && !base_dotted segs && ancestor_dotted segs) ||
         (o.ignore_dot_file && base_dotted segs) ||
         (o.ignore_dot && (base_dotted segs || ancestor_dotted segs))) := by
  unfold test_ignore_entry
  rw [is_abspath_abs_path env segs hnorm, basename_dotted_abs_path env segs hseg hnorm,
    find_slash_dot_abs_path segs hseg]
  by_cases ht : t = FileType.Dir
  · simp [ht, assert, bind, Except.bind, pure, Except.pure]
  · cases o.ignore_dot_dir <;> cases o.ignore_dot_file <;> cases o.ignore_dot <;>
      cases base_dotted segs <;> cases ancestor_dotted segs <;>
      simp [ht, assert, bind, Except.bind, pure, Except.pure]

theorem base_dotted_append (root r : List Str) (hr : r ≠ []) :
    base_dotted (root ++ r) = base_dotted r := by
  unfold base_dotted
  rw [List.getLast?_append_of_ne_nil _ hr]

theorem ancestor_dotted_append (root r : List Str) (hr : r ≠ []) :
    ancestor_dotted (root ++ r) = (any_dotted root || ancestor_dotted r) := by
  unfold ancestor_dotted any_dotted
  rw [List.dropLast_append_of_ne_nil _ hr, List.any_append]

/-- C27, the counterexample: the entry `x` under the roots `/a` and `/.b`.
With `ignore_dot_dir`, and with `ignore_dot`, `test_ignore_entry` answers false
for the regular file `/a/x` and true for `/.b/x`: the test looks at the whole
absolute path, the segments of the root included. -/
theorem test_ignore_entry_relocation_counterexample :
    abs_path (["a".toList] ++ ["x".toList]) = "/a/x".toList ∧
    abs_path ([".b".toList] ++ ["x".toList]) = "/.b/x".toList ∧
    toy_env.lexically_normal "/a/x".toList = "/a/x".toList ∧
    toy_env.lexically_normal "/.b/x".toList = "/.b/x".toList ∧
    test_ignore_entry toy_env { toy_opt with ignore_dot_dir := true } "/a/x".toList FileType.Reg =
      .ok false ∧
    test_ignore_entry toy_env { toy_opt with ignore_dot_dir := true } "/.b/x".toList FileType.Reg =
      .ok true ∧
    test_ignore_entry toy_env { toy_opt with ignore_dot := true } "/a/x".toList FileType.Reg =
      .ok false ∧
    test_ignore_entry toy_env { toy_opt with ignore_dot := true } "/.b/x".toList FileType.Reg =
      .ok true :=
  ⟨by decide, by decide, rfl, rfl, rfl, rfl, rfl, rfl⟩

/-- C27, amended. Relocation of the ignore policy: for the entry with the
relative path `r` under two normalized absolute roots that agree on whether one
of their segments starts with `.`, `test_ignore_entry` gives the same decision
for every flag setting and every type; under a root without such a segment the
decision is the policy applied to the segments of `r` alone. -/
theorem test_ignore_entry_relocation (env : Env) (o : Opt) (root1 root2 r : List Str)
    (t : FileType) (hr : r ≠ [])
    (hseg1 : ∀ s ∈ root1 ++ r, is_segment s) (hseg2 : ∀ s ∈ root2 ++ r, is_segment s)
    (hnorm1 : env.lexically_normal (abs_path (root1 ++ r)) = abs_path (root1 ++ r))
    (hnorm2 : env.lexically_normal (abs_path (root2 ++ r)) = abs_path (root2 ++ r))
    (hdot : any_dotted root1 = any_dotted root2) :
    test_ignore_entry env o (abs_path (root1 ++ r)) t =
      test_ignore_entry env o (abs_path (root2 ++ r)) t ∧
    (any_dotted root1 = false →
      test_ignore_entry env o (abs_path (root1 ++ r)) t = .ok
        (if t = FileType.Dir then false
         else (o.ignore_dot_dir && !base_dotted r && ancestor_dotted r) ||
           (o.ignore_dot_file && base_dotted r) ||
           (o.ignore_dot && (base_dotted r || ancestor_dotted r)))) := by
  have e1 := test_ignore_entry_abs_path env o _ t hseg1 hnorm1
  have e2 := test_ignore_entry_abs_path env o _ t hseg2 hnorm2
  rw [base_dotted_append root1 r hr, ancestor_dotted_append root1 r hr] at e1
  rw [base_dotted_append root2 r hr, ancestor_dotted_append root2 r hr, ← hdot] at e2
  refine ⟨e1.trans e2.symm, fun h => ?_⟩
  rw [h, Bool.false_or] at e1
  exact e1

theorem test_ignore_entry_relocation_witness :
    test_ignore_entry toy_env { toy_opt with ignore_dot := true }
        (abs_path (["a".toList] ++ [".git".toList, "x".toList])) FileType.Reg =
      test_ignore_entry toy_env { toy_opt with ignore_dot := true }
        (abs_path (["b".toList, "c".toList] ++ [".git".toList, "x".toList])) FileType.Reg ∧
    test_ignore_entry toy_env { toy_opt with ignore_dot := true }
        "/a/.git/x".toList FileType.Reg = .ok true :=
  ⟨(test_ignore_entry_relocation toy_env { toy_opt with ignore_dot := true } ["a".toList]
      ["b".toList, "c".toList] [".git".toList, "x".toList] FileType.Reg (by simp)
      (by simp [is_segment]) (by simp [is_segment]) rfl rfl (by decide)).1, rfl⟩

/-! ## The case of the verification string -/

theorem is_valid_hexsum_fst (v : Str) :
    (is_valid_hexsum v).1 = v ∨ v = '0' :: 'x' :: (is_valid_hexsum v).1 := by
  unfold is_valid_hexsum
  by_cases h : starts_with v ['0', 'x'] = true
  · have hv : v = '0' :: 'x' :: v.drop 2 := by
      unfold starts_with at h
      rw [List.isPrefixOf_iff_prefix] at h
      obtain ⟨t, rfl⟩ := h
      rfl
    simp only [h, if_true]
    split
    · exact Or.inl rfl
    · split
      · exact Or.inl rfl
      · exact Or.inr hv
  · have h' : starts_with v ['0', 'x'] = false := by simpa using h
    simp only [h', Bool.false_eq_true, if_false]
    split
    · exact Or.inl rfl
    · split <;> exact Or.inl rfl

theorem is_valid_hexsum_ok (v s : Str) (h : is_valid_hexsum v = (s, true)) :
    s = (if starts_with v ['0', 'x'] then v.drop 2 else v) ∧ 32 ≤ s.length := by
  unfold is_valid_hexsum at h
  generalize (if starts_with v ['0', 'x'] then v.drop 2 else v) = t at h ⊢
  simp only at h
  split at h
  · simp at h
  · split at h
    · simp at h
    · simp only [Prod.mk.injEq, and_true] at h
      subst h
      exact ⟨rfl, by omega⟩

theorem upper_not_lower (c : Char) (h : is_upper_hex_char c = true) :
    is_lower_hex_char c = false := by
  simp only [is_upper_hex_char, List.contains_eq_any_beq, List.any_eq_true, beq_iff_eq] at h
  obtain ⟨x, hx, rfl⟩ := h
  simp only [String.toList, List.mem_cons, List.mem_singleton, List.not_mem_nil, or_false] at hx
  rcases hx with rfl | rfl | rfl | rfl | rfl | rfl <;> decide

theorem upper_ne_get_hex_sum (s : Str) (hup : ∃ c ∈ s, is_upper_hex_char c = true) (d : Str) :
    s ≠ get_hex_sum d := by
  rintro rfl
  obtain ⟨c, hc, hu⟩ := hup
  have h1 := get_hex_sum_lower d c hc
  rw [upper_not_lower c hu] at h1
  cases h1

theorem print_file_filtered (S : SquashImpl) (env : Env) (o : Opt) (f l : Str) (t : FileType)
    (inp : Str) (r r' : Run S) (hne : o.hash_verify ≠ [])
    (hd : ∀ d, o.hash_verify ≠ get_hex_sum d)
    (h : print_file S env o f l t inp r = .ok r') :
    r'.squ = r.squ ∧ r'.out = r.out ++ debug_lines env o f t := by
  cases hc : env.file_content f with
  | none =>
    simp only [print_file, debug_first_eq, get_file_hash, hc, bind, Except.bind] at h
    repeat' split at h
    all_goals cases h
  | some c => exact ((verification_filter_parts S env o f l t inp r c hc).1 r' h).2.1 ⟨hne, hd _⟩

theorem print_symlink_filtered (S : SquashImpl) (env : Env) (o : Opt) (f inp : Str)
    (r r' : Run S) (hne : o.hash_verify ≠ []) (hd : ∀ d, o.hash_verify ≠ get_hex_sum d)
    (h : print_symlink S env o f inp r = .ok r') :
    r'.squ = r.squ ∧ r'.out = r.out ++ debug_lines env o f FileType.Symlink := by
  have hne' : o.hash_verify.isEmpty = false := by
    cases h : o.hash_verify with
    | nil => exact absurd h hne
    | cons _ _ => rfl
  have hd' : ∀ d, (o.hash_verify != get_hex_sum d) = true := fun d => by simpa using hd d
  simp only [print_symlink, debug_first_eq, get_string_hash, get_hash, hne', hd', bind,
    Except.bind, pure, Except.pure, Bool.not_false, Bool.and_self, if_true] at h
  repeat' split at h
  all_goals first | (cases h; done) | (cases h; exact ⟨rfl, rfl⟩)

theorem print_byte_filtered (S : SquashImpl) (env : Env) (o : Opt) (f inb inp : Str)
    (out : List Str) (hne : o.hash_verify ≠ []) (hd : ∀ d, o.hash_verify ≠ get_hex_sum d) :
    (∀ out', print_byte S env o f inb inp out = .ok out' → out' = out) ∧
    (assert_file_path env f inp = .ok () → env.evp o.hash_algo inb ≠ [] →
      print_byte S env o f inb inp out = .ok out) := by
  have hne' : o.hash_verify.isEmpty = false := by
    cases h : o.hash_verify with
    | nil => exact absurd h hne
    | cons _ _ => rfl
  have hd' : ∀ d, (o.hash_verify != get_hex_sum d) = true := fun d => by simpa using hd d
  constructor
  · intro out' h
    simp only [print_byte, get_byte_hash, get_hash, hne', hd', bind, Except.bind, pure,
      Except.pure, Bool.not_false, Bool.and_self, if_true] at h
    repeat' split at h
    all_goals first | (cases h; done) | (cases h; rfl)
  · intro hp hb
    have hb' : (env.evp o.hash_algo inb).isEmpty = false := by
      cases h : env.evp o.hash_algo inb with
      | nil => exact absurd h hb
      | cons _ _ => rfl
    simp [print_byte, get_byte_hash, get_hash, hp, hb', hne', hd', assert, bind, Except.bind,
      pure, Except.pure]


/-- C28, the counterexample: with `debug` set and the accepted verification
string of 32 letters `A`, `print_file` still writes the `###` line of the file
`/r/a`, so the entry is not dropped from the output altogether. -/
theorem uppercase_verify_counterexample :
    is_valid_hexsum (List.replicate 32 'A') = (List.replicate 32 'A', true) ∧
    main_hash_verify { toy_opt with hash_verify := List.replicate 32 'A', debug := true } =
      some { toy_opt with hash_verify := List.replicate 32 'A', debug := true } ∧
    print_file squash1.impl tree_env
        { toy_opt with hash_verify := List.replicate 32 'A', debug := true }
        "/r/a".toList [] FileType.Reg "/r".toList (Run.new squash1.impl []) =
      .ok ⟨squash1.Squash.new,
        { Stat.new with _stat_regular := ["/r/a".toList], _written_regular := 4 },
        ["### /r/a regular file".toList]⟩ :=
  ⟨by decide, by decide, rfl⟩

/-- C28, as amended. Case of the verification string: `is_valid_hexsum`
returns its input or its input without the leading `0x`, each char as it was,
and `main` stores that string in `hash_verify`; when the accepted string `s`
holds one of the letters `A` to `F`, it differs from `get_hex_sum d` for every
`d`, so with `s` stored `print_file` and `print_symlink` leave the `Squash` as
it was and write no entry line: the output gains the `###` line of debug mode
only, which is one line with the path and the type when `debug` is set and
nothing when it is off; `print_byte` writes nothing and returns the output as
it was. -/
theorem uppercase_verify_never_matches (o : Opt) (s : Str)
    (hv : is_valid_hexsum o.hash_verify = (s, true))
    (hup : ∃ c ∈ s, is_upper_hex_char c = true) :
    (∀ v, (is_valid_hexsum v).1 = v ∨ v = '0' :: 'x' :: (is_valid_hexsum v).1) ∧
    (s = o.hash_verify ∨ o.hash_verify = '0' :: 'x' :: s) ∧
    main_hash_verify o = some { o with hash_verify := s } ∧
    (∀ d, s ≠ get_hex_sum d) ∧
    (∀ (S : SquashImpl) (env : Env) (f l : Str) (t : FileType) (inp : Str) (r r' : Run S),
      print_file S env { o with hash_verify := s } f l t inp r = .ok r' →
      r'.squ = r.squ ∧ r'.out = r.out ++ debug_lines env { o with hash_verify := s } f t) ∧
    (∀ (S : SquashImpl) (env : Env) (f inp : Str) (r r' : Run S),
      print_symlink S env { o with hash_verify := s } f inp r = .ok r' →
      r'.squ = r.squ ∧
        r'.out = r.out ++ debug_lines env { o with hash_verify := s } f FileType.Symlink) ∧
    (∀ (S : SquashImpl) (env : Env) (f inb inp : Str) (out : List Str),
      (∀ out', print_byte S env { o with hash_verify := s } f inb inp out = .ok out' →
        out' = out) ∧
      (assert_file_path env f inp = .ok () → env.evp o.hash_algo inb ≠ [] →
        print_byte S env { o with hash_verify := s } f inb inp out = .ok out)) ∧
    (o.debug = false → ∀ env f t, debug_lines env { o with hash_verify := s } f t = []) ∧
    (o.debug = true → ∀ env f t, debug_lines env { o with hash_verify := s } f t =
      ["### ".toList ++ (if o.abs then get_abspath env f true else f) ++ " ".toList ++
        get_file_type_string t]) := by
  obtain ⟨hs, hlen⟩ := is_valid_hexsum_ok _ _ hv
  have hne : s ≠ [] := by
    intro h; rw [h] at hlen; simp at hlen
  have hd : ∀ d, s ≠ get_hex_sum d := upper_ne_get_hex_sum s hup
  refine ⟨is_valid_hexsum_fst, ?_, ?_, hd, ?_, ?_, ?_, ?_, ?_⟩
  · have := is_valid_hexsum_fst o.hash_verify
    rw [hv] at this
    exact this
  · have hvne : o.hash_verify.isEmpty = false := by
      cases h : o.hash_verify with
      | nil =>
        rw [h] at hv
        have h2 : (is_valid_hexsum []).2 = true := by rw [hv]
        revert h2; decide
      | cons _ _ => rfl
    simp [main_hash_verify, hvne, hv]
  · intro S env f l t inp r r' h
    exact print_file_filtered S env _ f l t inp r r' hne hd h
  · intro S env f inp r r' h
    exact print_symlink_filtered S env _ f inp r r' hne hd h
  · intro S env f inb inp out
    exact print_byte_filtered S env { o with hash_verify := s } f inb inp out hne hd
  · intro h env f t
    exact debug_lines_off env _ f t h
  · intro h env f t
    exact debug_lines_on env { o with hash_verify := s } f t h

theorem uppercase_verify_never_matches_witness :
    is_valid_hexsum ("0x".toList ++ List.replicate 32 'A') = (List.replicate 32 'A', true) ∧
    main_hash_verify { toy_opt with hash_verify := "0x".toList ++ List.replicate 32 'A' } =
      some { toy_opt with hash_verify := List.replicate 32 'A' } ∧
    List.replicate 32 'A' ≠ get_hex_sum (List.replicate 16 (Char.ofNat 170)) ∧
    get_hex_sum (List.replicate 16 (Char.ofNat 170)) = List.replicate 32 'a' :=
  ⟨by decide,
    (uppercase_verify_never_matches
      { toy_opt with hash_verify := "0x".toList ++ List.replicate 32 'A' }
      (List.replicate 32 'A') (by decide) ⟨'A', by decide, by decide⟩).2.2.1,
    (uppercase_verify_never_matches
      { toy_opt with hash_verify := "0x".toList ++ List.replicate 32 'A' }
      (List.replicate 32 'A') (by decide) ⟨'A', by decide, by decide⟩).2.2.2.1 _,
    by decide⟩

/-! ## The path assertions under the root -/

/-- C29, the code at the failing inputs: `assert_file_path` fails for the path
`/` and for the prefix `/`, whatever the other argument is. For the existing
directory `/`, `print_input` computes `f = /` with `get_abspath` and fails the
assertion of `assert_file_path`; for the existing file `/a` it computes
`f = /a`, which passes, derives the prefix `/` with `get_dirpath`, and the walk
fails the assertion on that prefix. For the file `/r/a` the run prints its
line. -/
theorem assert_file_path_root :
    (∀ env inp, assert_file_path env ['/'] inp = .error Fault.assertion) ∧
    (∀ env f, assert_file_path env f ['/'] = .error Fault.assertion) ∧
    get_raw_file_type root_env ['/'] = FileType.Dir ∧
    path_exists root_env ['/'] = true ∧
    get_abspath root_env (canonicalize_path root_env ['/'] true) true = ['/'] ∧
    print_input squash1.impl root_env toy_opt (fun _ => ["/a".toList]) ['/'] [] =
      .error Fault.assertion ∧
    get_raw_file_type root_env "/a".toList = FileType.Reg ∧
    path_exists root_env "/a".toList = true ∧
    get_abspath root_env (canonicalize_path root_env "/a".toList true) true = "/a".toList ∧
    assert_file_path root_env "/a".toList [] = .ok () ∧
    get_dirpath root_env "/a".toList true = ['/'] ∧
    print_input squash1.impl root_env toy_opt (fun _ => []) "/a".toList [] =
      .error Fault.assertion ∧
    (print_input squash1.impl tree_env toy_opt (fun _ => []) "/r/a".toList []).toOption =
      some (0, [get_hex_sum (toy_evp toy_opt.hash_algo "/r/a".toList) ++ "  a".toList]) := by
  refine ⟨?_, ?_, by decide, by decide, by decide, rfl, by decide, by decide, by decide, rfl,
    by decide, rfl, by decide⟩
  · intro env inp
    unfold assert_file_path
    cases is_abspath env ['/'] <;> rfl
  · intro env f
    unfold assert_file_path
    cases is_abspath env f <;> cases ends_with f ['/'] <;> rfl

end DirHash
